import Mathlib

/-!
# CBICA tutorials: shallow embedding

The development embeds, in this order:

* `18_MatlabToArma`: `standardInclude.h` (`sanityCheck_matrix`) and the class `RandPCA`
  (`RandPCA.h`, `RandPCA.cpp`), in the namespace `MatlabToArma`;
* `cbicaUtilities.h`: the function template `findInVector`, in the namespace `Cbica`;
* `16_ITK-6_DICOMHandling`: the modality tests of the two conversion programs, in the
  namespace `DicomHandling`;
* `05_CPP11`: the Fibonacci functions of `lambda.cxx` on 32-bit `int`, in the namespace
  `Cpp11`;
* `12_UnitTesting`: the class template `BasicApp` over the part of an ITK image that it
  uses, with the `float` arithmetic of its pixel loop, in the namespace `UnitTesting`;
* `cbicaCmdParser.cpp`: the queries of the class `CmdParser`, in the namespace `Cbica`.

All definitions come first; the facts about each program follow, in the same namespaces.

For the randomized PCA:

* A `double` is abstracted to its value class (`Dbl`): a finite value, one of the two
  infinities, or NaN.
* An Armadillo matrix is its two extents together with its column-major memory.
* The numerical kernels of the linear-algebra library (random draws, products,
  decompositions, scalar arithmetic) are the fields of a `Backend`; theorems that depend on
  them assume only the documented shape and ordering contracts of those kernels.
* Member functions are state transformers on a `Machine` (the object, the file-scope flag
  `sparseMatEnabled`, the position of the random stream). A thrown exception or a call of
  `exit` ends the computation with a `Fault` and leaves the state as it was at that point.
-/

namespace MatlabToArma

set_option linter.dupNamespace false

/-! ## Scalars -/

/-- Value class of an IEEE-754 `double`: a finite value (the exact rational it denotes),
`+Inf`, `-Inf` or NaN. -/
inductive Dbl where
  | fin (q : ℚ)
  | posInf
  | negInf
  | nan
  deriving DecidableEq

namespace Dbl

/-- The test `std::isfinite`. -/
def isFinite : Dbl → Bool
  | fin _ => true
  | _ => false

/-- The comparison `x < y` of two doubles; every comparison with NaN is false. -/
def lt : Dbl → Dbl → Bool
  | fin a, fin b => decide (a < b)
  | fin _, posInf => true
  | negInf, fin _ => true
  | negInf, posInf => true
  | _, _ => false

/-- The comparison `x >= y` of two doubles; every comparison with NaN is false. -/
def ge : Dbl → Dbl → Bool
  | fin a, fin b => decide (b ≤ a)
  | posInf, fin _ => true
  | fin _, negInf => true
  | posInf, negInf => true
  | posInf, posInf => true
  | negInf, negInf => true
  | _, _ => false

/-- The double `0.0`. -/
def zero : Dbl := fin 0

/-- The double `1.0`. -/
def one : Dbl := fin 1

/-- The double `2.0`. -/
def two : Dbl := fin 2

end Dbl

/-! ## Matrices -/

/-- Width of `size_t` and of `arma::uword`. -/
def WORD : Nat := 2 ^ 64

/-- Dense matrix `arma::Mat<double>`: the extents and the column-major memory. -/
structure Mat where
  n_rows : Nat
  n_cols : Nat
  mem : List Dbl
  deriving DecidableEq

/-- Column vector `arma::vec`: its entries (one column). -/
abbrev Vec := List Dbl

namespace Mat

/-- A matrix the library can hold: the memory has `n_rows * n_cols` elements and that
count (`n_elem`, a `uword`) is representable. -/
def WF (M : Mat) : Prop :=
  M.mem.length = M.n_rows * M.n_cols ∧ M.n_rows * M.n_cols < WORD

instance (M : Mat) : Decidable M.WF :=
  inferInstanceAs (Decidable (M.mem.length = M.n_rows * M.n_cols ∧ M.n_rows * M.n_cols < WORD))

/-- The default-constructed (0 x 0) matrix. -/
def empty : Mat := ⟨0, 0, []⟩

/-- Member `is_finite()`: every element is finite. -/
def is_finite (M : Mat) : Bool := M.mem.all Dbl.isFinite

/-- The expression `arma::any(arma::vectorise(M) < 0)`: some element is below zero. -/
def any_lt_zero (M : Mat) : Bool := M.mem.any (fun x => Dbl.lt x Dbl.zero)

end Mat

/-- Sanity check of a matrix (`standardInclude.h`, lines 29-50): the three tests in source
order. The second test returns false when no element is below zero. -/
def sanityCheck_matrix (inputMatrix : Mat) : Bool :=
  if !inputMatrix.is_finite then
    false
  else if !inputMatrix.any_lt_zero then
    false
  else if inputMatrix.n_cols == 0 || inputMatrix.n_rows == 0 then
    false
  else
    true

/-- Constant matrix with `r` rows and `c` columns. -/
def Mat.const (r c : Nat) (x : Dbl) : Mat := ⟨r, c, List.replicate (r * c) x⟩

/-- A 5 x 3 matrix of small positive integers (column-major). -/
def A5x3 : Mat :=
  ⟨5, 3, [Dbl.fin 1, Dbl.fin 2, Dbl.fin 3, Dbl.fin 4, Dbl.fin 5,
          Dbl.fin 2, Dbl.fin 3, Dbl.fin 4, Dbl.fin 5, Dbl.fin 6,
          Dbl.fin 3, Dbl.fin 1, Dbl.fin 2, Dbl.fin 1, Dbl.fin 7]⟩


/-! ## Structural matrix operations -/

namespace Mat

/-- Element access `M(i, j)` on the column-major memory (unchecked). -/
def get (M : Mat) (i j : Nat) : Dbl := M.mem.getD (j * M.n_rows + i) Dbl.nan

/-- Member `t()`: the transpose. -/
def t (M : Mat) : Mat :=
  ⟨M.n_cols, M.n_rows,
    (List.range M.n_rows).flatMap (fun i => (List.range M.n_cols).map (fun j => M.get i j))⟩

/-- The matrix `arma::ones(r, c)`. -/
def ones (r c : Nat) : Mat := Mat.const r c Dbl.one

/-- The leftmost `k` columns of a matrix, as a matrix of their own. -/
def head_cols (M : Mat) (k : Nat) : Mat := ⟨M.n_rows, k, M.mem.take (k * M.n_rows)⟩

end Mat

/-! ## The numerical kernels -/

/-- Kernels of the linear-algebra library that the class calls. A random draw depends on
the history of earlier draws (the shapes drawn so far, most recent first). The
decompositions return their factors in the order of the output arguments of the call. -/
structure Backend where
  fmul : Dbl → Dbl → Dbl
  fsub : Dbl → Dbl → Dbl
  fdiv : Dbl → Dbl → Dbl
  ofUword : Nat → Dbl
  accu : Mat → Dbl
  randn : Nat → Nat → List (Nat × Nat) → Mat
  gemm : Mat → Mat → Mat
  svd_econ : Mat → Mat × Vec × Mat
  qr_econ : Mat → Mat × Mat
  lu : Mat → Mat × Mat

/-- Documented extents of the kernel results: a draw has the requested extents, a product
has the outer extents of its operands, and for an `r x c` argument the economy SVD returns
`r x min r c`, `min r c` values and `c x min r c`, while `qr_econ` and the two-factor `lu`
return `r x min r c` and `min r c x c`. A decomposition that fails at run time is outside
this contract. -/
structure ShapeContract (B : Backend) : Prop where
  randn_rows : ∀ r c h, (B.randn r c h).n_rows = r
  randn_cols : ∀ r c h, (B.randn r c h).n_cols = c
  gemm_rows : ∀ X Y, (B.gemm X Y).n_rows = X.n_rows
  gemm_cols : ∀ X Y, (B.gemm X Y).n_cols = Y.n_cols
  svd_U_rows : ∀ X, (B.svd_econ X).1.n_rows = X.n_rows
  svd_U_cols : ∀ X, (B.svd_econ X).1.n_cols = min X.n_rows X.n_cols
  svd_S_len : ∀ X, (B.svd_econ X).2.1.length = min X.n_rows X.n_cols
  svd_V_rows : ∀ X, (B.svd_econ X).2.2.n_rows = X.n_cols
  svd_V_cols : ∀ X, (B.svd_econ X).2.2.n_cols = min X.n_rows X.n_cols
  qr_Q_rows : ∀ X, (B.qr_econ X).1.n_rows = X.n_rows
  qr_Q_cols : ∀ X, (B.qr_econ X).1.n_cols = min X.n_rows X.n_cols
  qr_R_rows : ∀ X, (B.qr_econ X).2.n_rows = min X.n_rows X.n_cols
  qr_R_cols : ∀ X, (B.qr_econ X).2.n_cols = X.n_cols
  lu_L_rows : ∀ X, (B.lu X).1.n_rows = X.n_rows
  lu_L_cols : ∀ X, (B.lu X).1.n_cols = min X.n_rows X.n_cols
  lu_U_rows : ∀ X, (B.lu X).2.n_rows = min X.n_rows X.n_cols
  lu_U_cols : ∀ X, (B.lu X).2.n_cols = X.n_cols

/-- Non-increasing order of a vector of doubles. -/
def Descending (v : Vec) : Prop := List.Chain' (fun a b => Dbl.ge a b = true) v

/-- Every entry of the vector is at least zero. -/
def NonNeg (v : Vec) : Prop := ∀ x ∈ v, Dbl.ge x Dbl.zero = true

instance (v : Vec) : Decidable (Descending v) :=
  inferInstanceAs (Decidable (List.Chain' (fun a b => Dbl.ge a b = true) v))

instance (v : Vec) : Decidable (NonNeg v) :=
  inferInstanceAs (Decidable (∀ x ∈ v, Dbl.ge x Dbl.zero = true))

/-- Ordering contract of the economy SVD: the singular values come back in descending
order and none is negative. -/
def SvdOrdered (B : Backend) : Prop :=
  ∀ X, Descending (B.svd_econ X).2.1 ∧ NonNeg (B.svd_econ X).2.1

/-! ## The class and its execution model -/

/-- Ways in which a call ends other than by returning. -/
inductive Fault where
  /-- The call `exit(EXIT_FAILURE)`. -/
  | exitFailure
  /-- An exception thrown by a bounds or size check of the library. -/
  | logicError
  /-- The step budget of the model ran out before the loop ended. -/
  | outOfFuel
  deriving DecidableEq

/-- Result of a call: a returned value or a fault. -/
inductive Outcome (α : Type) where
  | done (a : α)
  | fault (f : Fault)
  deriving DecidableEq

/-- Data members of `class RandPCA`. -/
structure RandPCA where
  A : Mat
  U : Mat
  V : Mat
  S : Vec
  k : Nat
  its : Nat
  l : Nat
  m : Nat
  n : Nat
  raw : Bool
  algorithmDone : Bool
  deriving DecidableEq

/-- Program state seen by the member functions: the object, the file-scope flag
`sparseMatEnabled`, the record of random matrices drawn so far (extents, most recent
first) and the number of power-iteration loop bodies executed so far. -/
structure Machine where
  obj : RandPCA
  sparseMatEnabled : Bool
  draws : List (Nat × Nat)
  loopBodies : Nat
  deriving DecidableEq

/-- A computation on the machine: it ends with an outcome and leaves a state. -/
def Exec (α : Type) : Type := Machine → Outcome α × Machine

namespace Exec

/-- Return a value without touching the state. -/
def ret {α : Type} (a : α) : Exec α := fun s => (Outcome.done a, s)

/-- End with a fault; the state stays as it is. -/
def raise {α : Type} (f : Fault) : Exec α := fun s => (Outcome.fault f, s)

/-- Sequencing: a fault of the first computation ends the whole. -/
def andThen {α β : Type} (x : Exec α) (f : α → Exec β) : Exec β := fun s =>
  match x s with
  | (Outcome.done a, s1) => f a s1
  | (Outcome.fault e, s1) => (Outcome.fault e, s1)

instance : Monad Exec where
  pure := ret
  bind := andThen

end Exec

/-- Read the object. -/
def getObj : Exec RandPCA := fun s => (Outcome.done s.obj, s)

/-- Read the flag `sparseMatEnabled`. -/
def getSparse : Exec Bool := fun s => (Outcome.done s.sparseMatEnabled, s)

/-- Assign the member `U`. -/
def setU (X : Mat) : Exec Unit := fun s => (Outcome.done (), { s with obj := { s.obj with U := X } })

/-- Assign the member `V`. -/
def setV (X : Mat) : Exec Unit := fun s => (Outcome.done (), { s with obj := { s.obj with V := X } })

/-- Assign the member `S`. -/
def setS (v : Vec) : Exec Unit := fun s => (Outcome.done (), { s with obj := { s.obj with S := v } })

/-- Assign the member `algorithmDone`. -/
def setDone (b : Bool) : Exec Unit :=
  fun s => (Outcome.done (), { s with obj := { s.obj with algorithmDone := b } })

/-- Count one execution of a power-iteration loop body. -/
def tick : Exec Unit := fun s => (Outcome.done (), { s with loopBodies := s.loopBodies + 1 })

/-- The call `arma::randn(r, c)`: draw a matrix and record the draw. -/
def randn (B : Backend) (r c : Nat) : Exec Mat :=
  fun s => (Outcome.done (B.randn r c s.draws), { s with draws := (r, c) :: s.draws })

/-- Product of a matrix and a scalar (`c * X`, `X * c`), element by element. -/
def scalarTimes (B : Backend) (c : Dbl) (X : Mat) : Mat := { X with mem := X.mem.map (B.fmul c) }

/-- Matrix product `X * Y`; the library throws when the inner extents differ. -/
def mul (B : Backend) (X Y : Mat) : Exec Mat :=
  if X.n_cols = Y.n_rows then pure (B.gemm X Y) else Exec.raise Fault.logicError

/-- Matrix difference `X - Y`; the library throws when the extents differ. -/
def sub (B : Backend) (X Y : Mat) : Exec Mat :=
  if X.n_rows = Y.n_rows ∧ X.n_cols = Y.n_cols then
    pure ⟨X.n_rows, X.n_cols, List.zipWith B.fsub X.mem Y.mem⟩
  else Exec.raise Fault.logicError

/-- Member `cols(a, b)`: the columns `a` to `b`; the library throws when the range is
reversed or leaves the matrix. -/
def cols (M : Mat) (a b : Nat) : Exec Mat :=
  if a > b ∨ b ≥ M.n_cols then Exec.raise Fault.logicError
  else pure ⟨M.n_rows, b - a + 1, (M.mem.drop (a * M.n_rows)).take ((b - a + 1) * M.n_rows)⟩

/-- The expression `v(span(r1, r2), span(c1, c2))` on a column vector (extents
`v.length x 1`): the addressed block; the library throws when a range is reversed or
leaves the vector. -/
def submatVec (v : Vec) (r1 r2 c1 c2 : Nat) : Exec Mat :=
  if (r1 > r2 ∨ r2 ≥ v.length) ∨ (c1 > c2 ∨ c2 ≥ 1) then Exec.raise Fault.logicError
  else pure ⟨r2 - r1 + 1, c2 - c1 + 1, (v.drop r1).take (r2 - r1 + 1)⟩

/-- Assignment of a matrix expression to the column vector `S`; the library throws when
the expression does not have exactly one column. -/
def assignS (X : Mat) : Exec Unit :=
  if X.n_cols = 1 then setS X.mem else Exec.raise Fault.logicError

/-- The test `(l >= m / 1.25) || (l >= n / 1.25)` of `Run`. The operands are converted to
`double`; for `l`, `m`, `n` below 2^50 the conversions are exact and the rounded quotient
by 1.25 lies on the same side of every integer as the exact quotient, so the test is the
exact comparison of `5 * l` with `4 * m` and with `4 * n`. -/
def directPath (l m n : Nat) : Bool := decide (4 * m ≤ 5 * l) || decide (4 * n ≤ 5 * l)

/-! ## The member functions -/

/-- The centering expression `X - arma::ones(m, m) * (c * Y)`. -/
def centerLeft (B : Backend) (m : Nat) (c : Dbl) (X Y : Mat) : Exec Mat := do
  let P ← mul B (Mat.ones m m) (scalarTimes B c Y)
  sub B X P

/-- The centered projection `R * A - (R * arma::ones(m, m)) * c`. -/
def centerRight (B : Backend) (m : Nat) (c : Dbl) (A R : Mat) : Exec Mat := do
  let X ← mul B R A
  let P ← mul B R (Mat.ones m m)
  sub B X (scalarTimes B c P)

/-- Power-iteration loop of the raw tall branch (`RandPCA.cpp`, lines 77-93),
`for (size_t i = 0; i <= its; i++)`, from the counter value `i` with the locals `Q` and
`R`. The first argument is the step budget: one unit per loop body; a loop that still has
a body to run on an empty budget ends with `outOfFuel`. -/
def rawTallLoop (B : Backend) (A : Mat) (its : Nat) : Nat → Nat → Mat → Mat → Exec (Mat × Mat)
  | 0, i, Q, R => if i ≤ its then Exec.raise Fault.outOfFuel else pure (Q, R)
  | fuel + 1, i, Q, R =>
    if i ≤ its then do
      tick
      let X ← mul B Q.t A
      let F := B.lu X.t
      let Y ← mul B A F.1
      let G := if i < its then B.lu Y else B.qr_econ Y
      rawTallLoop B A its fuel ((i + 1) % WORD) G.1 G.2
    else pure (Q, R)

/-- Power-iteration loop of the raw wide branch (`RandPCA.cpp`, lines 120-136). -/
def rawWideLoop (B : Backend) (A : Mat) (its : Nat) : Nat → Nat → Mat → Mat → Exec (Mat × Mat)
  | 0, i, Q, R => if i ≤ its then Exec.raise Fault.outOfFuel else pure (Q, R)
  | fuel + 1, i, Q, R =>
    if i ≤ its then do
      tick
      let X ← mul B A Q
      let F := B.lu X
      let Y ← mul B F.1.t A
      let G := if i < its then B.lu Y.t else B.qr_econ Y.t
      rawWideLoop B A its fuel ((i + 1) % WORD) G.1 G.2
    else pure (Q, R)

/-- Power-iteration loop of the centered tall branch (`RandPCA.cpp`, lines 182-200). -/
def centeredTallLoop (B : Backend) (A : Mat) (m : Nat) (c : Dbl) (its : Nat) :
    Nat → Nat → Mat → Mat → Exec (Mat × Mat)
  | 0, i, Q, R => if i ≤ its then Exec.raise Fault.outOfFuel else pure (Q, R)
  | fuel + 1, i, Q, R =>
    if i ≤ its then do
      tick
      let X ← centerRight B m c A Q.t
      let F := B.lu X.t
      let Y ← centerLeft B m c (← mul B A F.1) F.1
      let G := if i < its then B.lu Y else B.qr_econ Y
      centeredTallLoop B A m c its fuel ((i + 1) % WORD) G.1 G.2
    else pure (Q, R)

/-- Power-iteration loop of the centered wide branch (`RandPCA.cpp`, lines 233-251); here the two orthogonalizations at
the end of the body are guarded by `i < its` and by `i == its`. -/
def centeredWideLoop (B : Backend) (A : Mat) (m : Nat) (c : Dbl) (its : Nat) :
    Nat → Nat → Mat → Mat → Exec (Mat × Mat)
  | 0, i, Q, R => if i ≤ its then Exec.raise Fault.outOfFuel else pure (Q, R)
  | fuel + 1, i, Q, R =>
    if i ≤ its then do
      tick
      let X ← centerLeft B m c (← mul B A Q) Q
      let F := B.lu X
      let Y ← centerRight B m c A F.1.t
      let G1 := if i < its then B.lu Y.t else (Y.t, F.1.t)
      let G := if i = its then B.qr_econ G1.1 else G1
      centeredWideLoop B A m c its fuel ((i + 1) % WORD) G.1 G.2
    else pure (Q, R)

/-- The direct path of `Run` on the matrix `X`: `arma::svd_econ(U, S, V, X)`. -/
def svdDirect (B : Backend) (X : Mat) : Exec Unit := do
  let F := B.svd_econ X
  setU F.1
  setS F.2.1
  setV F.2.2

/-- Branch of `Run` for `raw == true` (`RandPCA.cpp`, lines 43-143): the direct SVD, the
tall randomized branch (`m >= n`) and the wide randomized branch (`m < n`). The product
with the random matrix is formed and then overwritten by the factorization of `A`. -/
def rawBranch (B : Backend) (fuel : Nat) : Exec Unit := do
  let o ← getObj
  if directPath o.l o.m o.n then
    if (← getSparse) then svdDirect B o.A else svdDirect B o.A
  else if o.m ≥ o.n then
    let G ← randn B o.n o.n
    let W ← sub B (scalarTimes B Dbl.two G) (Mat.ones o.n o.n)
    let _ ← mul B o.A W
    let F := if o.its = 0 then B.qr_econ o.A else B.lu o.A
    let QR ← rawTallLoop B o.A o.its fuel 0 F.1 F.2
    let X ← mul B QR.1.t o.A
    let D := B.svd_econ X
    setS D.2.1
    setV D.2.2
    let P ← mul B QR.1 D.1
    setU P
  else if o.m < o.n then
    let G ← randn B o.m o.m
    let W ← sub B (scalarTimes B Dbl.two G) (Mat.ones o.m o.m)
    let _ ← mul B W o.A
    let F := if o.its = 0 then B.qr_econ o.A else B.lu o.A
    let QR ← rawWideLoop B o.A o.its fuel 0 F.1 F.2
    let X ← mul B o.A QR.1
    let D := B.svd_econ X
    setU D.1
    setS D.2.1
    let P ← mul B QR.1 D.2.2
    setV P
  else pure ()

/-- Branch of `Run` for `raw == false` (`RandPCA.cpp`, lines 144-258), with the centering
value `c = arma::accu(A) / m`. -/
def centeredBranch (B : Backend) (fuel : Nat) : Exec Unit := do
  let o ← getObj
  let c := B.fdiv (B.accu o.A) (B.ofUword o.m)
  if directPath o.l o.m o.n then
    if (← getSparse) then
      let X ← sub B o.A (scalarTimes B c (Mat.ones o.m o.m))
      svdDirect B X
    else
      let X ← sub B o.A (scalarTimes B c (Mat.ones o.m o.m))
      svdDirect B X
  else if o.m ≥ o.n then
    let G ← randn B o.n o.n
    let R0 ← sub B (scalarTimes B Dbl.two G) (Mat.ones o.n o.n)
    let Q0 ← centerLeft B o.m c (← mul B o.A R0) R0
    let F := if o.its = 0 then B.qr_econ Q0 else B.lu Q0
    let QR ← centeredTallLoop B o.A o.m c o.its fuel 0 F.1 F.2
    let X ← centerRight B o.m c o.A QR.1.t
    let D := B.svd_econ X
    setS D.2.1
    setV D.2.2
    let P ← mul B QR.1 D.1
    setU P
  else if o.m < o.n then
    let G ← randn B o.m o.m
    let R0 ← sub B (scalarTimes B Dbl.two G) (Mat.ones o.m o.m)
    let Q0 ← centerRight B o.m c o.A R0
    let F := if o.its = 0 then B.qr_econ Q0.t else B.lu Q0.t
    let QR ← centeredWideLoop B o.A o.m c o.its fuel 0 F.1 F.2
    let X ← centerLeft B o.m c (← mul B o.A QR.1) QR.1
    let D := B.svd_econ X
    setU D.1
    setS D.2.1
    let P ← mul B QR.1 D.2.2
    setV P
  else pure ()

/-- Tail of `Run` (`RandPCA.cpp`, lines 260-264): keep the leftmost `k` columns of `U` and
of `V` and assign to `S` the block `S(span(0, k - 1), span(0, k - 1))`, where `k - 1` is
computed on `size_t`. -/
def truncateOutputs : Exec Unit := do
  let o ← getObj
  let sizeToPreserve := (o.k + WORD - 1) % WORD
  let U1 ← cols o.U 0 sizeToPreserve
  setU U1
  let V1 ← cols o.V 0 sizeToPreserve
  setV V1
  let S1 ← submatVec o.S 0 sizeToPreserve 0 sizeToPreserve
  assignS S1

/-- The member function `RandPCA::Run` (`RandPCA.cpp`, lines 34-268). The argument `fuel`
is the step budget of the model for the power-iteration loop. -/
def RandPCA.Run (B : Backend) (fuel : Nat) : Exec Unit := do
  let o ← getObj
  if !o.algorithmDone then
    if !sanityCheck_matrix o.A then
      Exec.raise Fault.exitFailure
    else
      (if o.raw then rawBranch B fuel else centeredBranch B fuel)
      truncateOutputs
      setDone true
  else pure ()

/-- The member function `RandPCA::GetOutputs` (`RandPCA.cpp`, lines 270-277). -/
def RandPCA.GetOutputs (B : Backend) (fuel : Nat) : Exec (Mat × Vec × Mat) := do
  let o ← getObj
  (if !o.algorithmDone then RandPCA.Run B fuel else pure ())
  let o ← getObj
  pure (o.U, o.S, o.V)

/-- The assignments of `SetInputsAndRun` between the sanity check and the call of `Run`
(`RandPCA.h`, lines 56-90): store the matrix and the clamped parameters in the object and
set the file-scope flag. The parameters are of type `size_t`. -/
def storeInputs (input_A : Mat) (input_k : Nat) (input_raw : Bool) (input_its input_l : Nat)
    (isSparse : Bool) : Exec Unit := fun s =>
  let A := input_A
  let k := if input_k > min A.n_cols A.n_rows then min A.n_cols A.n_rows else input_k
  let its := if input_its < 0 then 2 else input_its
  let l := if input_l < k then (k + 2) % WORD else input_l
  (Outcome.done (),
    { s with
      obj := { s.obj with A := A, k := k, m := A.n_rows, n := A.n_cols, raw := input_raw,
                          its := its, l := l }
      sparseMatEnabled := isSparse })

/-- The member function template `RandPCA::SetInputsAndRun<isSparse>` (`RandPCA.h`,
lines 44-94). -/
def RandPCA.SetInputsAndRun (B : Backend) (fuel : Nat) (input_A : Mat) (input_k : Nat)
    (input_raw : Bool) (input_its input_l : Nat) (isSparse : Bool) : Exec Unit := do
  if !sanityCheck_matrix input_A then
    Exec.raise Fault.exitFailure
  else
    storeInputs input_A input_k input_raw input_its input_l isSparse
    RandPCA.Run B fuel

/-- Default argument `input_k = 6` of `SetInputsAndRun` (`RandPCA.h`, line 46). -/
def default_input_k : Nat := 6

/-- Default argument `input_raw = false` of `SetInputsAndRun` (`RandPCA.h`, line 47). -/
def default_input_raw : Bool := false

/-- Default argument `input_its = 2` of `SetInputsAndRun` (`RandPCA.h`, line 48). -/
def default_input_its : Nat := 2

/-- Default argument `input_l = 8` of `SetInputsAndRun` (`RandPCA.h`, line 49). -/
def default_input_l : Nat := 8

/-- Default template argument `isSparse = true` of `SetInputsAndRun` (`RandPCA.h`,
line 44). -/
def default_isSparse : Bool := true

/-- Conversion of a signed integer argument to the parameter type `size_t`: the value
modulo 2^64. -/
def to_size_t (z : Int) : Nat := (z % (WORD : Int)).toNat

/-- The default constructor `RandPCA::RandPCA()`: the matrices and the vector start empty;
the constructor body is empty, so the scalar members hold whatever values the storage has
(the arguments). -/
def RandPCA.RandPCA (k its l m n : Nat) (raw algorithmDone : Bool) : RandPCA :=
  { A := Mat.empty, U := Mat.empty, V := Mat.empty, S := [], k := k, its := its, l := l,
    m := m, n := n, raw := raw, algorithmDone := algorithmDone }

/-! ## Sample data -/

/-- Exact product of two finite values; any other operand gives NaN. -/
def Dbl.mulExact : Dbl → Dbl → Dbl
  | Dbl.fin a, Dbl.fin b => Dbl.fin (a * b)
  | _, _ => Dbl.nan

/-- Exact difference of two finite values; any other operand gives NaN. -/
def Dbl.subExact : Dbl → Dbl → Dbl
  | Dbl.fin a, Dbl.fin b => Dbl.fin (a - b)
  | _, _ => Dbl.nan

/-- Exact sum of two finite values; any other operand gives NaN. -/
def Dbl.addExact : Dbl → Dbl → Dbl
  | Dbl.fin a, Dbl.fin b => Dbl.fin (a + b)
  | _, _ => Dbl.nan

/-- Exact quotient of two finite values; any other operand gives NaN. -/
def Dbl.divExact : Dbl → Dbl → Dbl
  | Dbl.fin a, Dbl.fin b => Dbl.fin (a / b)
  | _, _ => Dbl.nan

/-- A sample backend: exact scalar arithmetic and summation, and matrix kernels that return
constant matrices of the documented extents (every singular value is 1). It shows that the contracts on a
backend can be met and serves to evaluate the member functions on concrete inputs. -/
def sampleBackend : Backend where
  fmul := Dbl.mulExact
  fsub := Dbl.subExact
  fdiv := Dbl.divExact
  ofUword := fun m => Dbl.fin m
  accu := fun X => X.mem.foldl Dbl.addExact Dbl.zero
  randn := fun r c _ => Mat.const r c Dbl.zero
  gemm := fun X Y => Mat.const X.n_rows Y.n_cols Dbl.zero
  svd_econ := fun X =>
    (Mat.const X.n_rows (min X.n_rows X.n_cols) Dbl.one,
      List.replicate (min X.n_rows X.n_cols) Dbl.one,
      Mat.const X.n_cols (min X.n_rows X.n_cols) Dbl.one)
  qr_econ := fun X =>
    (Mat.const X.n_rows (min X.n_rows X.n_cols) Dbl.one,
      Mat.const (min X.n_rows X.n_cols) X.n_cols Dbl.one)
  lu := fun X =>
    (Mat.const X.n_rows (min X.n_rows X.n_cols) Dbl.one,
      Mat.const (min X.n_rows X.n_cols) X.n_cols Dbl.one)

/-- A machine holding a default-constructed object whose scalar members are zero and whose
flags are false; nothing has been drawn. -/
def machine0 : Machine :=
  { obj := RandPCA.RandPCA 0 0 0 0 0 false false, sparseMatEnabled := false, draws := [],
    loopBodies := 0 }

/-- The 1 x 1 matrix with the entry -1. -/
def Aneg1x1 : Mat := ⟨1, 1, [Dbl.fin (-1)]⟩

/-- A 3 x 3 matrix with one negative entry (column-major). -/
def A3x3 : Mat :=
  ⟨3, 3, [Dbl.fin 2, Dbl.fin 0, Dbl.fin 1, Dbl.fin (-1), Dbl.fin 3, Dbl.fin 0,
          Dbl.fin 0, Dbl.fin 1, Dbl.fin 4]⟩

/-- The 10 x 10 matrix whose entries are all -1. -/
def A10x10 : Mat := Mat.const 10 10 (Dbl.fin (-1))

/-- The 6 x 6 matrix whose entries are all -1. -/
def A6x6 : Mat := Mat.const 6 6 (Dbl.fin (-1))

/-- The state after the inputs are stored and before `Run`: rank 2 on the 10 x 10 sample
matrix, `raw = true`, `its = 2`, `l = 4`. -/
def machineStored10 : Machine := (storeInputs A10x10 2 true 2 4 true machine0).2

/-- The state after the inputs are stored and before `Run`: rank 2 on the 3 x 3 sample
matrix, `raw = true`, `its = 2`, `l = 4` (the direct path). -/
def machineStored3 : Machine := (storeInputs A3x3 2 true 2 4 true machine0).2

/-- The state left by a completed run: rank 1 on the 3 x 3 sample matrix. -/
def machineDone : Machine :=
  (RandPCA.SetInputsAndRun sampleBackend 3 A3x3 1 true 2 4 true machine0).2

/-- The 2 x 3 matrix whose entries are all -1. -/
def A2x3 : Mat := Mat.const 2 3 (Dbl.fin (-1))

/-- The 3 x 2 matrix whose entries are all -1. -/
def A3x2 : Mat := Mat.const 3 2 (Dbl.fin (-1))

/-- A 2 x 2 matrix with the entry NaN (column-major). -/
def Anan2x2 : Mat := ⟨2, 2, [Dbl.fin 1, Dbl.nan, Dbl.fin (-1), Dbl.fin 2]⟩

/-- The state after the inputs are stored and before `Run`: rank 1 on the 2 x 3 sample
matrix, `raw = false`, `its = 2`, `l = 4` (the centered direct path). -/
def machineCenteredDirect2x3 : Machine := (storeInputs A2x3 1 false 2 4 true machine0).2

/-- The state after the inputs are stored and before `Run`: rank 1 on the 2 x 3 sample
matrix, `raw = true`, `its = 2`, `l = 1` (the wide randomized branch). -/
def machineWide2x3 : Machine := (storeInputs A2x3 1 true 2 1 true machine0).2

/-- The state after the inputs are stored and before `Run`: rank 1 on the 3 x 2 sample
matrix, `raw = false`, `its = 2`, `l = 1` (the centered tall randomized branch). -/
def machineCentered3x2 : Machine := (storeInputs A3x2 1 false 2 1 true machine0).2

/-- The state after the inputs are stored and before `Run`: rank 2 on the 10 x 10 sample
matrix, `raw = true`, `its = 0`, `l = 4` (the tall randomized branch). -/
def machineStored10its0 : Machine := (storeInputs A10x10 2 true 0 4 true machine0).2

/-- A machine holding a default-constructed object whose storage gives the flag
`algorithmDone` the value true. -/
def machineFlagSet : Machine :=
  { obj := RandPCA.RandPCA 0 0 0 0 0 false true, sparseMatEnabled := false, draws := [],
    loopBodies := 0 }

/-- The 2 x 2 matrix whose entries are all -1. -/
def A2x2 : Mat := Mat.const 2 2 (Dbl.fin (-1))

/-- A second sample backend, whose two-factor decompositions show what they were given:
the first factor of `qr_econ` and of `lu` is the leftmost `min r c` columns of the
argument. The other kernels are those of `sampleBackend`. -/
def echoBackend : Backend :=
  { sampleBackend with
    qr_econ := fun X =>
      (X.head_cols (min X.n_rows X.n_cols), Mat.const (min X.n_rows X.n_cols) X.n_cols Dbl.one)
    lu := fun X =>
      (X.head_cols (min X.n_rows X.n_cols), Mat.const (min X.n_rows X.n_cols) X.n_cols Dbl.one) }

/-- A second source of random matrices: every entry drawn is 1. -/
def drawOnes (r c : Nat) (_h : List (Nat × Nat)) : Mat := Mat.const r c Dbl.one

/-- State reached by the assignments of `SetInputsAndRun` on the 2 x 2 sample matrix with
`k = 1`, `raw = true`, `its = 2`, `l = 1` (the randomized path). -/
def machineStored2 : Machine := (storeInputs A2x2 1 true 2 1 true machine0).2

/-- State reached by the assignments of `SetInputsAndRun` on the 10 x 10 sample matrix
with `k = 2`, `raw = true`, `l = 4` and the iteration count that a caller's `-1` becomes. -/
def machineStored10itsMax : Machine :=
  (storeInputs A10x10 2 true (to_size_t (-1)) 4 true machine0).2

/-- State reached by the assignments of `SetInputsAndRun` on the 3 x 3 sample matrix with
`k = 1`, `raw = true`, `its = 2`, `l = 4` (the direct path). -/
def machineStored3k1 : Machine := (storeInputs A3x3 1 true 2 4 true machine0).2

/-! ## Vocabulary of the proofs -/

/-- The computation `x` keeps the state property `I`: from a state with `I` it ends,
by returning or by a fault, in a state with `I`. -/
def Keeps {α : Type} (I : Machine → Prop) (x : Exec α) : Prop := ∀ s, I s → I (x s).2

/-- A state property `I` that the steps of `Run` cannot disturb, relative to a property
`okS` of the vectors that may be stored in `S`: `I` survives every assignment to `U`, `V`
and `algorithmDone`, every recorded draw and loop count, and an assignment to `S` of a
vector with `okS`. -/
structure Stable (I : Machine → Prop) (okS : Vec → Prop) : Prop where
  setU : ∀ s X, I s → I { s with obj := { s.obj with U := X } }
  setV : ∀ s X, I s → I { s with obj := { s.obj with V := X } }
  setS : ∀ s v, okS v → I s → I { s with obj := { s.obj with S := v } }
  setDone : ∀ s b, I s → I { s with obj := { s.obj with algorithmDone := b } }
  draw : ∀ s d, I s → I { s with draws := d }
  tick : ∀ s n, I s → I { s with loopBodies := n }
  getS : ∀ s, I s → okS s.obj.S
  take : ∀ v n, okS v → okS (v.take n)

/-- The part of the state that `Run` only reads. -/
def SameConfig (s t : Machine) : Prop :=
  t.obj.A = s.obj.A ∧ t.obj.k = s.obj.k ∧ t.obj.its = s.obj.its ∧ t.obj.l = s.obj.l ∧
    t.obj.m = s.obj.m ∧ t.obj.n = s.obj.n ∧ t.obj.raw = s.obj.raw ∧
    t.sparseMatEnabled = s.sparseMatEnabled

/-- State after the truncation of `U` and `V` to their leftmost `k` columns. -/
def truncatedUV (s : Machine) : Machine :=
  { s with obj := { s.obj with U := s.obj.U.head_cols s.obj.k, V := s.obj.V.head_cols s.obj.k } }

/-- The value of `A - arma::ones(m, m) * c` with `c = arma::accu(A) / m` when the extents
of the two operands agree: the extents of `A`, and entry by entry the difference of the
entry of `A` and the entry `c * 1` of the scaled matrix of ones. -/
def centeredMatrix (B : Backend) (A : Mat) (m : Nat) : Mat :=
  ⟨A.n_rows, A.n_cols,
    List.zipWith B.fsub A.mem
      (scalarTimes B (B.fdiv (B.accu A) (B.ofUword m)) (Mat.ones m m)).mem⟩

/-- The value of the expression `A * (2 * arma::randn(n, n) - arma::ones(n, n))` of the raw
tall branch when the draw is made with the history `draws`. -/
def sketchTall (B : Backend) (A : Mat) (n : Nat) (draws : List (Nat × Nat)) : Mat :=
  B.gemm A ⟨n, n, List.zipWith B.fsub (scalarTimes B Dbl.two (B.randn n n draws)).mem
    (Mat.ones n n).mem⟩

/-- The value of the expression `((2 * arma::randn(m, m) - arma::ones(m, m)) * A).t()` of
the raw wide branch when the draw is made with the history `draws`. -/
def sketchWide (B : Backend) (A : Mat) (m : Nat) (draws : List (Nat × Nat)) : Mat :=
  (B.gemm ⟨m, m, List.zipWith B.fsub (scalarTimes B Dbl.two (B.randn m m draws)).mem
    (Mat.ones m m).mem⟩ A).t

/-- The raw tall branch from the power-iteration loop on (`RandPCA.cpp`, lines 76-99),
entered with the basis `Q` and the factor `R`. -/
def rawTallFrom (B : Backend) (fuel : Nat) (A : Mat) (its : Nat) (Q R : Mat) : Exec Unit := do
  let QR ← rawTallLoop B A its fuel 0 Q R
  let X ← mul B QR.1.t A
  let D := B.svd_econ X
  setS D.2.1
  setV D.2.2
  let P ← mul B QR.1 D.1
  setU P

/-- The raw wide branch from the power-iteration loop on (`RandPCA.cpp`, lines 119-142),
entered with the basis `Q` and the factor `R`. -/
def rawWideFrom (B : Backend) (fuel : Nat) (A : Mat) (its : Nat) (Q R : Mat) : Exec Unit := do
  let QR ← rawWideLoop B A its fuel 0 Q R
  let X ← mul B A QR.1
  let D := B.svd_econ X
  setU D.1
  setS D.2.1
  let P ← mul B QR.1 D.2.2
  setV P

end MatlabToArma

/-! # Utilities of `cbicaUtilities.h` -/

namespace Cbica

/-- Conversion of a difference of iterators to `int`: the value modulo 2^32, read as a
signed 32-bit number. -/
def to_int (z : Int) : Int := (z + 2 ^ 31) % 2 ^ 32 - 2 ^ 31

/-- The function template `cbica::findInVector` (`cbicaUtilities.h`, lines 823-838).
`std::find` stops at the first element equal to the one searched for, or at the end. -/
def findInVector {α : Type} [DecidableEq α] (vector_to_search_in : List α)
    (element_to_search_for : α) : Bool × Int :=
  let position : Int := -1
  let iterator := vector_to_search_in.findIdx (fun x => decide (x = element_to_search_for))
  if iterator ≠ vector_to_search_in.length then
    (true, to_int (iterator : Int))
  else
    (false, position)

end Cbica

/-! # The DICOM conversion programs (`16_ITK-6_DICOMHandling`) -/

namespace DicomHandling

/-- The modality test of `dwiConversion.cxx` (lines 116-122): whether the branch that prints
that only MRI data is supported and calls `exit(EXIT_FAILURE)` is taken, for the value read
from the tag `0008|0060`. -/
def dwiConversion_rejects (vendor : String) : Bool :=
  (vendor != "MR") || (vendor != "MRI")

/-- The modality test of `simpleConversion.cxx` (lines 74-79): whether the branch that
prints that only MRI data is supported and calls `exit(EXIT_FAILURE)` is taken, for the
value read from the tag `0008|0060`. -/
def simpleConversion_rejects (modalityType : String) : Bool :=
  (modalityType != "MR") || (modalityType != "MRI")

end DicomHandling

/-! # The Fibonacci functions of `05_CPP11` (`lambda.cxx`) -/

namespace Cpp11

/-- The loop `for (auto i = 3; i <= n; i++)` of `fib` (`lambda.cxx`, lines 15-20) from the
counter value `i`. The variables are 32-bit `int`: the sum and the counter wrap modulo
2^32. The first argument is the step budget of the model. -/
def fibLoop (n : Int) : Nat → Int → Int → Int → Int → Option Int
  | 0, i, _, _, return_val => if i ≤ n then none else some return_val
  | fuel + 1, i, first, second, return_val =>
    if i ≤ n then
      fibLoop n fuel (Cbica.to_int (i + 1)) second (Cbica.to_int (first + second))
        (Cbica.to_int (first + second))
    else some return_val

/-- The function `fib` (`lambda.cxx`, lines 8-22) on 32-bit `int`. The local `return_val`
is declared without a value; `garbage` is what its storage holds. The result is `none`
when the step budget `fuel` ends before the loop does. -/
def fib (fuel : Nat) (garbage : Int) (n : Int) : Option Int :=
  if n = 1 then some 1
  else if n = 2 then some 1
  else fibLoop n fuel 3 1 1 garbage

/-- The function `fib_recursive` (`lambda.cxx`, lines 24-27) on 32-bit `int`: the sum wraps
modulo 2^32. The differences `n - 1` and `n - 2` are formed for `n >= 2` only and stay in
the range of `int`. -/
def fib_recursive (n : Int) : Int :=
  if n < 2 then 1 else Cbica.to_int (fib_recursive (n - 1) + fib_recursive (n - 2))
termination_by n.toNat
decreasing_by
  all_goals simp_wf
  all_goals omega

/-- The recursive lambda `lfib` of `main` (`lambda.cxx`, line 32) on 32-bit `int`. -/
def lfib (n : Int) : Int :=
  if n < 2 then 1 else Cbica.to_int (lfib (n - 1) + lfib (n - 2))
termination_by n.toNat
decreasing_by
  all_goals simp_wf
  all_goals omega

end Cpp11

/-! # The image scaling class of `12_UnitTesting` (`BasicApp.h`) -/

namespace UnitTesting

set_option linter.dupNamespace false

open MatlabToArma (Dbl)

/-- The class `itk::ImageRegion`: the index of the first pixel and the size along every
dimension; both lists have one entry for each dimension of the image. -/
structure ImageRegion where
  index : List Int
  size : List Nat
deriving DecidableEq

/-- The indices of the region that starts at `index` and has the extents `size`, in the
order in which a region iterator walks them: the first dimension runs fastest. -/
def indicesOf : List Int → List Nat → List (List Int)
  | i :: is, n :: ns =>
    (indicesOf is ns).flatMap
      (fun rest => (List.range n).map (fun (d : Nat) => (i + (d : Int)) :: rest))
  | _, _ => [[]]

/-- The indices that an `itk::ImageRegionConstIterator` over the region visits, from
`GoToBegin()` until `IsAtEnd()`. -/
def ImageRegion.indices (r : ImageRegion) : List (List Int) := indicesOf r.index r.size

/-- The part of an `itk::Image` that `BasicApp` and its tests use: spacing and origin
(one `double` for each dimension), the three regions, and the pixel buffer, which holds one
pixel of type `P` for every index of the buffered region. -/
structure Image (P : Type) where
  spacing : List Dbl
  origin : List Dbl
  largestPossibleRegion : ImageRegion
  requestedRegion : ImageRegion
  bufferedRegion : ImageRegion
  buffer : List Int → P

namespace Image

/-- The image made by `New()` for `d` dimensions: empty regions, spacing 1, origin 0 and
no pixel allocated (`fresh` stands for unallocated storage). -/
def New {P : Type} (d : Nat) (fresh : List Int → P) : Image P :=
  { spacing := List.replicate d Dbl.one
    origin := List.replicate d Dbl.zero
    largestPossibleRegion := ⟨List.replicate d 0, List.replicate d 0⟩
    requestedRegion := ⟨List.replicate d 0, List.replicate d 0⟩
    bufferedRegion := ⟨List.replicate d 0, List.replicate d 0⟩
    buffer := fresh }

/-- Member `SetSpacing`, called with the spacing of another image. -/
def SetSpacing {P : Type} (img : Image P) (spacing : List Dbl) : Image P :=
  { img with spacing := spacing }

/-- Member `SetOrigin`. -/
def SetOrigin {P : Type} (img : Image P) (origin : List Dbl) : Image P :=
  { img with origin := origin }

/-- Member `SetLargestPossibleRegion`. -/
def SetLargestPossibleRegion {P : Type} (img : Image P) (r : ImageRegion) : Image P :=
  { img with largestPossibleRegion := r }

/-- Member `SetBufferedRegion`. -/
def SetBufferedRegion {P : Type} (img : Image P) (r : ImageRegion) : Image P :=
  { img with bufferedRegion := r }

/-- Member `SetRequestedRegionToLargestPossibleRegion`. -/
def SetRequestedRegionToLargestPossibleRegion {P : Type} (img : Image P) : Image P :=
  { img with requestedRegion := img.largestPossibleRegion }

/-- Member `Allocate()`: new storage for the buffered region; its content, `fresh`, is
not initialised. -/
def Allocate {P : Type} (img : Image P) (fresh : List Int → P) : Image P :=
  { img with buffer := fresh }

/-- The pixel read at an index (`Get()` of an iterator that stands at the index). -/
def GetPixel {P : Type} (img : Image P) (idx : List Int) : P := img.buffer idx

/-- The pixel written at an index (`SetIndex(idx)` followed by `Set(v)` on a region
iterator). -/
def SetPixel {P : Type} (img : Image P) (idx : List Int) (v : P) : Image P :=
  { img with buffer := fun j => if j = idx then v else img.buffer j }

end Image

/-- The class template `BasicApp<TImageType>` (`BasicApp.h`, lines 15-92) for an image
type with pixels of type `P`. The two image pointers refer to two image objects: the input
image is an object other than the output image that the constructor made. -/
structure BasicApp (P : Type) where
  m_inputImage : Image P
  m_outputImage : Image P
  m_scaleFactor : Dbl

/-- Member `Run` (`BasicApp.h`, lines 50-80). The function `scaled x s` is the value of
`static_cast<PixelType>(x * s)` for a pixel `x` and the `float` factor `s`; `fresh` is the
content of the storage that `Allocate` obtains. -/
def BasicApp.Run {P : Type} (scaled : P → Dbl → P) (fresh : List Int → P) (app : BasicApp P) :
    BasicApp P :=
  let out := app.m_outputImage.SetSpacing app.m_inputImage.spacing
  let out := out.SetOrigin app.m_inputImage.origin
  let out := out.SetLargestPossibleRegion app.m_inputImage.largestPossibleRegion
  let out := out.SetBufferedRegion app.m_inputImage.bufferedRegion
  let out := out.SetRequestedRegionToLargestPossibleRegion
  let out := out.Allocate fresh
  let out := app.m_inputImage.bufferedRegion.indices.foldl
    (fun o idx => o.SetPixel idx (scaled (app.m_inputImage.GetPixel idx) app.m_scaleFactor))
    out
  { app with m_outputImage := out }

/-- Member `GetOutput` (`BasicApp.h`, lines 83-86). -/
def BasicApp.GetOutput {P : Type} (app : BasicApp P) : Image P := app.m_outputImage

/-- The constructor (`BasicApp.h`, lines 20-24) for `d` dimensions. The member
`m_scaleFactor` is not initialised; `scale0` is what its storage holds. -/
def BasicApp.BasicApp {P : Type} (d : Nat) (fresh : List Int → P) (scale0 : Dbl) : BasicApp P :=
  { m_inputImage := Image.New d fresh, m_outputImage := Image.New d fresh,
    m_scaleFactor := scale0 }

/-- The exponent of the last place of a binary32 value of magnitude `a`: the least `e`,
searched upwards from the given one in the given number of steps, with `a < 2^(e + 24)`.
The search from -149 in 254 steps covers the exponents of `float`; it finds nothing when
`a` is 2^128 or more. -/
def lastPlace (a : ℚ) : Nat → Int → Option Int
  | 0, _ => none
  | fuel + 1, e => if a < (2 : ℚ) ^ (e + 24) then some e else lastPlace a fuel (e + 1)

/-- The integer nearest to `t`; of two nearest integers the even one. -/
def nearestEven (t : ℚ) : Int :=
  if t - (⌊t⌋ : ℚ) < 1 / 2 then ⌊t⌋
  else if 1 / 2 < t - (⌊t⌋ : ℚ) then ⌊t⌋ + 1
  else if ⌊t⌋ % 2 = 0 then ⌊t⌋ else ⌊t⌋ + 1

/-- Rounding of a real value to `float` (binary32, round to nearest, ties to even): the
magnitude is rounded to a whole multiple of its last place; a result of 2^128 or more is an
infinity. -/
def roundFloat32 (q : ℚ) : Dbl :=
  match lastPlace |q| 254 (-149) with
  | none => if 0 < q then Dbl.posInf else Dbl.negInf
  | some e =>
    if (2 : ℚ) ^ (128 : Int) ≤ (nearestEven (|q| / (2 : ℚ) ^ e) : ℚ) * (2 : ℚ) ^ e then
      (if 0 < q then Dbl.posInf else Dbl.negInf)
    else if 0 ≤ q then Dbl.fin ((nearestEven (|q| / (2 : ℚ) ^ e) : ℚ) * (2 : ℚ) ^ e)
    else Dbl.fin (-((nearestEven (|q| / (2 : ℚ) ^ e) : ℚ) * (2 : ℚ) ^ e))

end UnitTesting

/-! # The command line parser (`cbicaCmdParser.cpp`) -/

namespace Cbica

set_option linter.dupNamespace false

open MatlabToArma (Dbl)

/-- Functions that the parser calls and whose code is not part of the sources at hand:
`cbica::replaceString` (declared in `cbicaUtilities.h`) and the conversions `std::atoi`
and `std::atof` of the C library, the latter followed by the cast to `float`. -/
structure Library where
  replaceString : String → String → String → String
  atoi : String → Int
  atof : String → Dbl

/-- Ways in which a call of a member function ends other than by returning: the call
`exit(EXIT_FAILURE)`, the read of an element of `m_argv` beyond its end, and the end of
the step budget of the model. -/
inductive ParserFault where
  | exitFailure
  | badArgument
  | outOfFuel
deriving DecidableEq

/-- Result of a call: a value together with the state of the parser after the call, or
a fault. -/
inductive Result (α : Type) where
  | done (a : α)
  | fault (f : ParserFault)
deriving DecidableEq

/-- The struct `cbica::Parameter` (`cbicaUtilities.h`, lines 151-215), without the type
name and the description lines 2 to 5, which only the help output reads. -/
structure Parameter where
  laconic : String
  verbose : String
  dataType_enumCode : Int
  dataRange : String
  descriptionLine1 : String
  length : Nat
deriving DecidableEq

/-- Enumerator `FILE` of `Parameter::Type`. -/
def Parameter.FILE : Int := 0
/-- Enumerator `DIRECTORY` of `Parameter::Type`. -/
def Parameter.DIRECTORY : Int := 1
/-- Enumerator `STRING` of `Parameter::Type`. -/
def Parameter.STRING : Int := 2
/-- Enumerator `INTEGER` of `Parameter::Type`. -/
def Parameter.INTEGER : Int := 3
/-- Enumerator `FLOAT` of `Parameter::Type`. -/
def Parameter.FLOAT : Int := 4
/-- Enumerator `BOOLEAN` of `Parameter::Type`. -/
def Parameter.BOOLEAN : Int := 5
/-- Enumerator `NONE` of `Parameter::Type`. -/
def Parameter.NONE : Int := 6

/-- The constructor of `Parameter` (`cbicaUtilities.h`, lines 172-184). -/
def Parameter.Parameter (E : Library) (in_laconic in_verbose : String) (in_dataType : Int)
    (in_dataRange in_descriptionLine1 : String) : Parameter :=
  let laconic := E.replaceString in_laconic "-" ""
  let laconic := E.replaceString laconic "--" ""
  let verbose := E.replaceString in_verbose "-" ""
  let verbose := E.replaceString verbose "--" ""
  { laconic := laconic, verbose := verbose, dataType_enumCode := in_dataType,
    dataRange := in_dataRange, descriptionLine1 := in_descriptionLine1,
    length := laconic.length + verbose.length }

/-- The data members of `cbica::CmdParser` that the queries read and write. The strings
`m_exeName`, `m_version` and `m_exampleOfUsage` only reach the output. -/
structure CmdParser where
  m_argc : Int
  m_argv : List String
  m_requiredParameters : List Parameter
  m_optionalParameters : List Parameter
  m_maxLength : Nat
  m_maxLaconicLength : Nat
  m_minVerboseLength : Nat
  checkMaxLen : Bool
  helpRequested : Bool
deriving DecidableEq

/-- The helper `internal_compare` (`cbicaCmdParser.cpp`, lines 323-337). -/
def internal_compare (check_string : String) (check_length : Int) : String :=
  match (to_int ((check_string.length : Int) - check_length)).natAbs with
  | 1 => "-" ++ check_string
  | 2 => "--" ++ check_string
  | _ => check_string

/-- Member `verbose_check` (`cbicaCmdParser.cpp`, lines 339-371): the new content of the
string passed by reference. -/
def verbose_check (E : Library) (p : CmdParser) (input_string : String) : String :=
  let s :=
    if input_string = "usage" then "u"
    else if input_string = "help" then "h"
    else if input_string = "version" then "v"
    else input_string
  if s.length > p.m_maxLaconicLength then
    let s := E.replaceString s "--" ""
    let s := E.replaceString s "-" ""
    let s := p.m_requiredParameters.foldl
      (fun acc q => if q.verbose = acc then q.laconic else acc) s
    p.m_optionalParameters.foldl (fun acc q => if q.verbose = acc then q.laconic else acc) s
  else s

/-- The loop `for (int i = 1; i < m_argc; i++)` of `compareParameter`
(`cbicaCmdParser.cpp`, lines 378-413) over the remaining values of `i`. The argument
`gml` is the call of `getMaxLength`; `position` is the content of the caller's variable,
`none` while nothing has been assigned to it. -/
def compareLoop (E : Library) (gml : CmdParser → Result (Unit × CmdParser))
    (execParamToCheck_wrap : String) :
    List Nat → Option Int → CmdParser → Result ((Bool × Option Int) × CmdParser)
  | [], position, p => Result.done ((false, position), p)
  | i :: rest, position, p =>
    match p.m_argv.get? i with
    | none => Result.fault ParserFault.badArgument
    | some arg =>
      match (if !p.checkMaxLen then gml p else Result.done ((), p)) with
      | Result.fault f => Result.fault f
      | Result.done (_, p1) =>
        let inputParamToCheck := verbose_check E p1 arg
        let isHelp : Bool := inputParamToCheck = "u" || inputParamToCheck = "h" ||
          inputParamToCheck = "v"
        let p2 := if isHelp then { p1 with helpRequested := true } else p1
        let position2 := if isHelp then some (i : Int) else position
        if inputParamToCheck = execParamToCheck_wrap then
          Result.done ((true, some (i : Int)), p2)
        else
          let minLength : Int :=
            ((max inputParamToCheck.length execParamToCheck_wrap.length : Nat) : Int) % 2 ^ 32
          if internal_compare inputParamToCheck (to_int minLength) =
              internal_compare execParamToCheck_wrap (to_int minLength) then
            Result.done ((true, some (i : Int)), p2)
          else compareLoop E gml execParamToCheck_wrap rest position2 p2

/-- The body of `compareParameter(execParamToCheck, position)` (`cbicaCmdParser.cpp`,
lines 373-416) with the call of `getMaxLength` as an argument. -/
def compareParameterWith (E : Library) (gml : CmdParser → Result (Unit × CmdParser))
    (execParamToCheck : String) (position : Option Int) (p : CmdParser) :
    Result ((Bool × Option Int) × CmdParser) :=
  let execParamToCheck_wrap := verbose_check E p execParamToCheck
  compareLoop E gml execParamToCheck_wrap (List.range' 1 (p.m_argc - 1).toNat) position p

/-- The loop of `getMaxLength` over the required parameters (`cbicaCmdParser.cpp`,
lines 122-141): exit when one of them is missing and no help was requested. -/
def requiredLoop (E : Library) (gml : CmdParser → Result (Unit × CmdParser)) :
    List Parameter → CmdParser → Result (Unit × CmdParser)
  | [], p => Result.done ((), p)
  | q :: rest, p =>
    match compareParameterWith E gml q.laconic none p with
    | Result.fault f => Result.fault f
    | Result.done ((found, _), p1) =>
      if !found && !p1.helpRequested then Result.fault ParserFault.exitFailure
      else requiredLoop E gml rest p1

/-- The three lengths that `getMaxLength` computes over a list of parameters
(`cbicaCmdParser.cpp`, lines 104-116), from their current values. -/
def lengthsOver (ps : List Parameter) (acc : Nat × Nat × Nat) : Nat × Nat × Nat :=
  ps.foldl (fun a q =>
    (if a.1 < q.length then q.length else a.1,
      if a.2.1 > q.verbose.length then q.verbose.length else a.2.1,
      if a.2.2 < q.laconic.length then q.laconic.length else a.2.2)) acc

/-- Member `getMaxLength` (`cbicaCmdParser.cpp`, lines 97-144). The first argument is the
step budget of the model for the calls between `getMaxLength` and `compareParameter`. -/
def getMaxLength (E : Library) : Nat → CmdParser → Result (Unit × CmdParser)
  | 0, _ => Result.fault ParserFault.outOfFuel
  | fuel + 1, p =>
    let l := lengthsOver p.m_requiredParameters (lengthsOver p.m_optionalParameters (0, 1024, 0))
    let p1 := { p with m_maxLength := l.1, m_minVerboseLength := l.2.1,
                       m_maxLaconicLength := l.2.2, checkMaxLen := true }
    if !p1.helpRequested && p1.m_argc != 1 then
      requiredLoop E (getMaxLength E fuel) p1.m_requiredParameters p1
    else Result.done ((), p1)

/-- Member `compareParameter(execParamToCheck, position)`. -/
def compareParameter (E : Library) (fuel : Nat) (execParamToCheck : String)
    (position : Option Int) (p : CmdParser) : Result ((Bool × Option Int) × CmdParser) :=
  compareParameterWith E (getMaxLength E fuel) execParamToCheck position p

/-- Member `getDataTypeAsEnumCode` (`cbicaCmdParser.cpp`, lines 531-569). -/
def getDataTypeAsEnumCode (E : Library) (fuel : Nat) (execParamToCheck : String)
    (p : CmdParser) : Result (Int × CmdParser) :=
  if execParamToCheck = "" then Result.fault ParserFault.exitFailure
  else
    match (if !p.checkMaxLen then getMaxLength E fuel p else Result.done ((), p)) with
    | Result.fault f => Result.fault f
    | Result.done (_, p1) =>
      match p1.m_requiredParameters.find?
          (fun q => q.laconic = execParamToCheck || q.verbose = execParamToCheck) with
      | some q => Result.done (q.dataType_enumCode, p1)
      | none =>
        match p1.m_optionalParameters.find?
            (fun q => q.laconic = execParamToCheck || q.verbose = execParamToCheck) with
        | some q => Result.done (q.dataType_enumCode, p1)
        | none => Result.done (-1, p1)

/-- The element `m_argv[i]`, when there is one. -/
def argAt (p : CmdParser) (i : Int) : Option String :=
  if 0 ≤ i then p.m_argv.get? i.toNat else none

/-- Member `getParameterValue(execParamToCheck, int &parameterValue)`
(`cbicaCmdParser.cpp`, lines 598-617): the content of the caller's variable after the
call. No branch reads the content before the call. -/
def getParameterValue_int (E : Library) (fuel : Nat) (execParamToCheck : String)
    (_parameterValue : Int) (p : CmdParser) : Result (Int × CmdParser) :=
  match getDataTypeAsEnumCode E fuel execParamToCheck p with
  | Result.fault f => Result.fault f
  | Result.done (code, p1) =>
    if code ≠ Parameter.INTEGER then Result.fault ParserFault.exitFailure
    else
      match compareParameter E fuel execParamToCheck none p1 with
      | Result.fault f => Result.fault f
      | Result.done ((true, position), p2) =>
        match position.bind (fun i => argAt p2 (i + 1)) with
        | some a => Result.done (E.atoi a, p2)
        | none => Result.fault ParserFault.badArgument
      | Result.done ((false, _), p2) => Result.done (-1, p2)

/-- Member `getParameterValue(execParamToCheck, float &parameterValue)`
(`cbicaCmdParser.cpp`, lines 619-638): the content of the caller's variable after the
call. No branch reads the content before the call. -/
def getParameterValue_float (E : Library) (fuel : Nat) (execParamToCheck : String)
    (_parameterValue : Dbl) (p : CmdParser) : Result (Dbl × CmdParser) :=
  match getDataTypeAsEnumCode E fuel execParamToCheck p with
  | Result.fault f => Result.fault f
  | Result.done (code, p1) =>
    if code ≠ Parameter.FLOAT then Result.fault ParserFault.exitFailure
    else
      match compareParameter E fuel execParamToCheck none p1 with
      | Result.fault f => Result.fault f
      | Result.done ((true, position), p2) =>
        match position.bind (fun i => argAt p2 (i + 1)) with
        | some a => Result.done (E.atof a, p2)
        | none => Result.fault ParserFault.badArgument
      | Result.done ((false, _), p2) => Result.done (Dbl.fin (-1), p2)

/-- Member `getParameterValue(execParamToCheck, bool &parameterValue)`
(`cbicaCmdParser.cpp`, lines 571-596): the content of the caller's variable after the
call. When the parameter is not on the command line nothing is assigned. -/
def getParameterValue_bool (E : Library) (fuel : Nat) (execParamToCheck : String)
    (parameterValue : Bool) (p : CmdParser) : Result (Bool × CmdParser) :=
  match getDataTypeAsEnumCode E fuel execParamToCheck p with
  | Result.fault f => Result.fault f
  | Result.done (code, p1) =>
    if code ≠ Parameter.BOOLEAN then Result.fault ParserFault.exitFailure
    else
      match compareParameter E fuel execParamToCheck none p1 with
      | Result.fault f => Result.fault f
      | Result.done ((true, position), p2) =>
        match position.bind (fun i => argAt p2 (i + 1)) with
        | some rawValue =>
          Result.done
            (decide (rawValue = "1" ∨ rawValue = "true" ∨ rawValue = "True" ∨
              rawValue = "TRUE" ∨ rawValue = "yes" ∨ rawValue = "Yes" ∨ rawValue = "YES" ∨
              rawValue = ""), p2)
        | none => Result.fault ParserFault.badArgument
      | Result.done ((false, _), p2) => Result.done (parameterValue, p2)

/-- Member `addOptionalParameter` (`cbicaCmdParser.cpp`, lines 146-174), with the first
description line only. -/
def addOptionalParameter (E : Library) (laconic verbose : String) (expectedDataType : Int)
    (dataRange description_line1 : String) (p : CmdParser) : Result (Unit × CmdParser) :=
  if laconic = "u" ∨ laconic = "h" ∨ laconic = "v" then Result.done ((), p)
  else if laconic = "" then Result.fault ParserFault.exitFailure
  else if verbose = "" then Result.fault ParserFault.exitFailure
  else if description_line1 = "" then Result.fault ParserFault.exitFailure
  else
    Result.done ((), { p with m_optionalParameters := p.m_optionalParameters ++
      [Parameter.Parameter E laconic verbose expectedDataType dataRange description_line1] })

/-- Member `addRequiredParameter` (`cbicaCmdParser.cpp`, lines 176-204), with the first
description line only. -/
def addRequiredParameter (E : Library) (laconic verbose : String) (expectedDataType : Int)
    (dataRange description_line1 : String) (p : CmdParser) : Result (Unit × CmdParser) :=
  if laconic = "u" ∨ laconic = "h" ∨ laconic = "v" then Result.done ((), p)
  else if laconic = "" then Result.fault ParserFault.exitFailure
  else if verbose = "" then Result.fault ParserFault.exitFailure
  else if description_line1 = "" then Result.fault ParserFault.exitFailure
  else
    Result.done ((), { p with m_requiredParameters := p.m_requiredParameters ++
      [Parameter.Parameter E laconic verbose expectedDataType dataRange description_line1] })

/-- The constructor `CmdParser(argc, argv, exe_name)` (`cbicaCmdParser.cpp`, lines 36-62).
The members `m_maxLaconicLength` and `m_minVerboseLength` are not initialised; `g1` and
`g2` are what their storage holds. -/
def CmdParser.CmdParser (E : Library) (argc : Int) (argv : List String) (g1 g2 : Nat) :
    CmdParser :=
  { m_argc := argc, m_argv := argv, m_requiredParameters := []
    m_optionalParameters :=
      [Parameter.Parameter E "u" "usage" Parameter.NONE "" "Prints basic usage message.",
        Parameter.Parameter E "h" "help" Parameter.NONE "" "Prints verbose usage information.",
        Parameter.Parameter E "v" "version" Parameter.NONE ""
          "Prints information about software version."]
    m_maxLength := 0, m_maxLaconicLength := g1, m_minVerboseLength := g2
    checkMaxLen := false, helpRequested := false }

/-- Replacement of every occurrence of the characters `pat` by `rep`, from left to
right; the first argument bounds the number of steps. -/
def replaceChars (pat rep : List Char) : Nat → List Char → List Char
  | 0, l => l
  | _ + 1, [] => []
  | n + 1, c :: cs =>
    if pat ≠ [] ∧ pat.isPrefixOf (c :: cs) = true then
      rep ++ replaceChars pat rep n ((c :: cs).drop pat.length)
    else c :: replaceChars pat rep n cs

/-- A sample library: replacement of every occurrence, the conversion of a string of
decimal digits to its number, and a conversion to `float` that gives 0. -/
def sampleLibrary : Library where
  replaceString := fun entireString toReplace replaceWith =>
    String.mk (replaceChars toReplace.data replaceWith.data entireString.length
      entireString.data)
  atoi := fun s => s.data.foldl (fun acc c => 10 * acc + ((c.toNat : Int) - 48)) 0
  atof := fun _ => Dbl.fin 0

/-- The parser of the documented usage (`cbicaCmdParser.h`, lines 35-45) for a command
line: the optional parameters `m` (INTEGER) and `d` (FLOAT) and the required parameter
`p` (STRING). -/
def usageParser (argv : List String) : Result (Unit × CmdParser) :=
  match addOptionalParameter sampleLibrary "m" "marvel" Parameter.INTEGER "1 to 10"
      "I like The Avengers" (CmdParser.CmdParser sampleLibrary argv.length argv 0 0) with
  | Result.fault f => Result.fault f
  | Result.done (_, p1) =>
    match addOptionalParameter sampleLibrary "d" "dc" Parameter.FLOAT "1.00 to 10.00"
        "I prefer the Justice League" p1 with
    | Result.fault f => Result.fault f
    | Result.done (_, p2) =>
      addRequiredParameter sampleLibrary "p" "people" Parameter.STRING "max length = 1024"
        "People are always required" p2

/-- The state of the documented parser for the command line `exe -p Bob`. -/
def usageState : CmdParser :=
  match usageParser ["exe", "-p", "Bob"] with
  | Result.done (_, p) => p
  | Result.fault _ => CmdParser.CmdParser sampleLibrary 0 [] 0 0

/-- The state of the documented parser after the lengths have been computed. -/
def usageStateChecked : CmdParser :=
  { usageState with m_maxLength := 8, m_minVerboseLength := 2, m_maxLaconicLength := 1,
                    checkMaxLen := true }

end Cbica

namespace MatlabToArma

/-! ## Reasoning about computations -/

theorem Exec.pure_apply {α : Type} (a : α) (s : Machine) : (pure a : Exec α) s = (Outcome.done a, s) := rfl

theorem Exec.raise_apply {α : Type} (f : Fault) (s : Machine) :
    (Exec.raise f : Exec α) s = (Outcome.fault f, s) := rfl

theorem Exec.bind_apply {α β : Type} (x : Exec α) (f : α → Exec β) (s : Machine) :
    (x >>= f) s = match x s with
      | (Outcome.done a, s1) => f a s1
      | (Outcome.fault e, s1) => (Outcome.fault e, s1) := rfl

theorem Exec.bind_done {α β : Type} {x : Exec α} {f : α → Exec β} {s s1 : Machine} {a : α}
    (h : x s = (Outcome.done a, s1)) : (x >>= f) s = f a s1 := by
  rw [Exec.bind_apply, h]

theorem Exec.bind_fault {α β : Type} {x : Exec α} {f : α → Exec β} {s s1 : Machine} {e : Fault}
    (h : x s = (Outcome.fault e, s1)) : (x >>= f) s = (Outcome.fault e, s1) := by
  rw [Exec.bind_apply, h]

theorem Keeps.pure {α : Type} (I : Machine → Prop) (a : α) : Keeps I (pure a : Exec α) :=
  fun _ h => h

theorem Keeps.raise {α : Type} (I : Machine → Prop) (f : Fault) : Keeps I (Exec.raise f : Exec α) :=
  fun _ h => h

theorem Keeps.bind {α β : Type} {I : Machine → Prop} {x : Exec α} {f : α → Exec β}
    (hx : Keeps I x) (hf : ∀ a, Keeps I (f a)) : Keeps I (x >>= f) := by
  intro s hs
  rw [Exec.bind_apply]
  have h1 := hx s hs
  rcases hxs : x s with ⟨o, s1⟩
  rw [hxs] at h1
  cases o with
  | done a => exact hf a s1 h1
  | fault e => exact h1

theorem Keeps.getObj (I : Machine → Prop) : Keeps I getObj := fun _ h => h

theorem Keeps.getSparse (I : Machine → Prop) : Keeps I getSparse := fun _ h => h

theorem Keeps.mul (I : Machine → Prop) (B : Backend) (X Y : Mat) : Keeps I (mul B X Y) := by
  unfold MatlabToArma.mul
  split
  · exact Keeps.pure I _
  · exact Keeps.raise I _

theorem Keeps.sub (I : Machine → Prop) (B : Backend) (X Y : Mat) : Keeps I (sub B X Y) := by
  unfold MatlabToArma.sub
  split
  · exact Keeps.pure I _
  · exact Keeps.raise I _

theorem Keeps.cols (I : Machine → Prop) (M : Mat) (a b : Nat) : Keeps I (cols M a b) := by
  unfold MatlabToArma.cols
  split
  · exact Keeps.raise I _
  · exact Keeps.pure I _

theorem Keeps.submatVec (I : Machine → Prop) (v : Vec) (r1 r2 c1 c2 : Nat) :
    Keeps I (submatVec v r1 r2 c1 c2) := by
  unfold MatlabToArma.submatVec
  split
  · exact Keeps.raise I _
  · exact Keeps.pure I _

theorem Keeps.centerLeft (I : Machine → Prop) (B : Backend) (m : Nat) (c : Dbl) (X Y : Mat) :
    Keeps I (centerLeft B m c X Y) :=
  Keeps.bind (Keeps.mul I B _ _) (fun _ => Keeps.sub I B _ _)

theorem Keeps.centerRight (I : Machine → Prop) (B : Backend) (m : Nat) (c : Dbl) (A R : Mat) :
    Keeps I (centerRight B m c A R) :=
  Keeps.bind (Keeps.mul I B _ _) (fun _ => Keeps.bind (Keeps.mul I B _ _) (fun _ => Keeps.sub I B _ _))

theorem Keeps.setU {I : Machine → Prop} {okS : Vec → Prop} (hI : Stable I okS) (X : Mat) : Keeps I (setU X) :=
  fun s h => hI.setU s X h

theorem Keeps.setV {I : Machine → Prop} {okS : Vec → Prop} (hI : Stable I okS) (X : Mat) : Keeps I (setV X) :=
  fun s h => hI.setV s X h

theorem Keeps.setS {I : Machine → Prop} {okS : Vec → Prop} (hI : Stable I okS) (v : Vec) (hv : okS v) : Keeps I (setS v) :=
  fun s h => hI.setS s v hv h

theorem Keeps.setDone {I : Machine → Prop} {okS : Vec → Prop} (hI : Stable I okS) (b : Bool) : Keeps I (setDone b) :=
  fun s h => hI.setDone s b h

theorem Keeps.tick {I : Machine → Prop} {okS : Vec → Prop} (hI : Stable I okS) : Keeps I tick :=
  fun s h => hI.tick s _ h

theorem Keeps.randn {I : Machine → Prop} {okS : Vec → Prop} (hI : Stable I okS) (B : Backend) (r c : Nat) : Keeps I (randn B r c) :=
  fun s h => hI.draw s _ h

theorem Keeps.rawTallLoop {I : Machine → Prop} {okS : Vec → Prop} (hI : Stable I okS) (B : Backend) (A : Mat) (its : Nat) :
    ∀ fuel i Q R, Keeps I (rawTallLoop B A its fuel i Q R) := by
  intro fuel
  induction fuel with
  | zero =>
    intro i Q R
    unfold MatlabToArma.rawTallLoop
    split
    · exact Keeps.raise I _
    · exact Keeps.pure I _
  | succ f ih =>
    intro i Q R
    unfold MatlabToArma.rawTallLoop
    split
    · exact Keeps.bind (Keeps.tick hI) (fun _ => Keeps.bind (Keeps.mul I B _ _)
        (fun _ => Keeps.bind (Keeps.mul I B _ _) (fun _ => ih _ _ _)))
    · exact Keeps.pure I _

theorem Keeps.rawWideLoop {I : Machine → Prop} {okS : Vec → Prop} (hI : Stable I okS) (B : Backend) (A : Mat) (its : Nat) :
    ∀ fuel i Q R, Keeps I (rawWideLoop B A its fuel i Q R) := by
  intro fuel
  induction fuel with
  | zero =>
    intro i Q R
    unfold MatlabToArma.rawWideLoop
    split
    · exact Keeps.raise I _
    · exact Keeps.pure I _
  | succ f ih =>
    intro i Q R
    unfold MatlabToArma.rawWideLoop
    split
    · exact Keeps.bind (Keeps.tick hI) (fun _ => Keeps.bind (Keeps.mul I B _ _)
        (fun _ => Keeps.bind (Keeps.mul I B _ _) (fun _ => ih _ _ _)))
    · exact Keeps.pure I _

theorem Keeps.centeredTallLoop {I : Machine → Prop} {okS : Vec → Prop} (hI : Stable I okS) (B : Backend) (A : Mat) (m : Nat) (c : Dbl)
    (its : Nat) : ∀ fuel i Q R, Keeps I (centeredTallLoop B A m c its fuel i Q R) := by
  intro fuel
  induction fuel with
  | zero =>
    intro i Q R
    unfold MatlabToArma.centeredTallLoop
    split
    · exact Keeps.raise I _
    · exact Keeps.pure I _
  | succ f ih =>
    intro i Q R
    unfold MatlabToArma.centeredTallLoop
    split
    · exact Keeps.bind (Keeps.tick hI) (fun _ => Keeps.bind (Keeps.centerRight I B _ _ _ _)
        (fun _ => Keeps.bind (Keeps.mul I B _ _)
          (fun _ => Keeps.bind (Keeps.centerLeft I B _ _ _ _) (fun _ => ih _ _ _))))
    · exact Keeps.pure I _

theorem Keeps.centeredWideLoop {I : Machine → Prop} {okS : Vec → Prop} (hI : Stable I okS) (B : Backend) (A : Mat) (m : Nat) (c : Dbl)
    (its : Nat) : ∀ fuel i Q R, Keeps I (centeredWideLoop B A m c its fuel i Q R) := by
  intro fuel
  induction fuel with
  | zero =>
    intro i Q R
    unfold MatlabToArma.centeredWideLoop
    split
    · exact Keeps.raise I _
    · exact Keeps.pure I _
  | succ f ih =>
    intro i Q R
    unfold MatlabToArma.centeredWideLoop
    split
    · exact Keeps.bind (Keeps.tick hI) (fun _ => Keeps.bind (Keeps.mul I B _ _)
        (fun _ => Keeps.bind (Keeps.centerLeft I B _ _ _ _)
          (fun _ => Keeps.bind (Keeps.centerRight I B _ _ _ _) (fun _ => ih _ _ _))))
    · exact Keeps.pure I _

theorem Keeps.svdDirect {I : Machine → Prop} {okS : Vec → Prop} (hI : Stable I okS) (B : Backend) (hsvd : ∀ X, okS (B.svd_econ X).2.1)
    (X : Mat) : Keeps I (svdDirect B X) :=
  Keeps.bind (Keeps.setU hI _) (fun _ => Keeps.bind (Keeps.setS hI _ (hsvd X))
    (fun _ => Keeps.setV hI _))

theorem Keeps.rawBranch {I : Machine → Prop} {okS : Vec → Prop} (hI : Stable I okS) (B : Backend) (hsvd : ∀ X, okS (B.svd_econ X).2.1)
    (fuel : Nat) : Keeps I (rawBranch B fuel) := by
  unfold MatlabToArma.rawBranch
  refine Keeps.bind (Keeps.getObj I) (fun o => ?_)
  split
  · refine Keeps.bind (Keeps.getSparse I) (fun b => ?_)
    split <;> exact Keeps.svdDirect hI B hsvd _
  · split
    · exact Keeps.bind (Keeps.randn hI B _ _) (fun _ => Keeps.bind (Keeps.sub I B _ _)
        (fun _ => Keeps.bind (Keeps.mul I B _ _)
          (fun _ => Keeps.bind (Keeps.rawTallLoop hI B _ _ _ _ _ _)
            (fun _ => Keeps.bind (Keeps.mul I B _ _)
              (fun _ => Keeps.bind (Keeps.setS hI _ (hsvd _))
                (fun _ => Keeps.bind (Keeps.setV hI _)
                  (fun _ => Keeps.bind (Keeps.mul I B _ _) (fun _ => Keeps.setU hI _))))))))
    · split
      · exact Keeps.bind (Keeps.randn hI B _ _) (fun _ => Keeps.bind (Keeps.sub I B _ _)
          (fun _ => Keeps.bind (Keeps.mul I B _ _)
            (fun _ => Keeps.bind (Keeps.rawWideLoop hI B _ _ _ _ _ _)
              (fun _ => Keeps.bind (Keeps.mul I B _ _)
                (fun _ => Keeps.bind (Keeps.setU hI _)
                  (fun _ => Keeps.bind (Keeps.setS hI _ (hsvd _))
                    (fun _ => Keeps.bind (Keeps.mul I B _ _) (fun _ => Keeps.setV hI _))))))))
      · exact Keeps.pure I _

theorem Keeps.centeredBranch {I : Machine → Prop} {okS : Vec → Prop} (hI : Stable I okS) (B : Backend)
    (hsvd : ∀ X, okS (B.svd_econ X).2.1) (fuel : Nat) : Keeps I (centeredBranch B fuel) := by
  unfold MatlabToArma.centeredBranch
  refine Keeps.bind (Keeps.getObj I) (fun o => ?_)
  split
  · refine Keeps.bind (Keeps.getSparse I) (fun b => ?_)
    split <;>
      exact Keeps.bind (Keeps.sub I B _ _) (fun _ => Keeps.svdDirect hI B hsvd _)
  · split
    · exact Keeps.bind (Keeps.randn hI B _ _) (fun _ => Keeps.bind (Keeps.sub I B _ _)
        (fun _ => Keeps.bind (Keeps.mul I B _ _)
          (fun _ => Keeps.bind (Keeps.centerLeft I B _ _ _ _)
            (fun _ => Keeps.bind (Keeps.centeredTallLoop hI B _ _ _ _ _ _ _ _)
              (fun _ => Keeps.bind (Keeps.centerRight I B _ _ _ _)
                (fun _ => Keeps.bind (Keeps.setS hI _ (hsvd _))
                  (fun _ => Keeps.bind (Keeps.setV hI _)
                    (fun _ => Keeps.bind (Keeps.mul I B _ _) (fun _ => Keeps.setU hI _)))))))))
    · split
      · exact Keeps.bind (Keeps.randn hI B _ _) (fun _ => Keeps.bind (Keeps.sub I B _ _)
          (fun _ => Keeps.bind (Keeps.centerRight I B _ _ _ _)
            (fun _ => Keeps.bind (Keeps.centeredWideLoop hI B _ _ _ _ _ _ _ _)
              (fun _ => Keeps.bind (Keeps.mul I B _ _)
                (fun _ => Keeps.bind (Keeps.centerLeft I B _ _ _ _)
                  (fun _ => Keeps.bind (Keeps.setU hI _)
                    (fun _ => Keeps.bind (Keeps.setS hI _ (hsvd _))
                      (fun _ => Keeps.bind (Keeps.mul I B _ _)
                        (fun _ => Keeps.setV hI _)))))))))
      · exact Keeps.pure I _

theorem Keeps.assignS {I : Machine → Prop} {okS : Vec → Prop} (hI : Stable I okS) (X : Mat) (hX : okS X.mem) : Keeps I (assignS X) := by
  unfold MatlabToArma.assignS
  split
  · exact Keeps.setS hI _ hX
  · exact Keeps.raise I _

theorem cols_cases (M : Mat) (a b : Nat) (s : Machine) :
    cols M a b s = (Outcome.fault Fault.logicError, s) ∨
      ∃ X, cols M a b s = (Outcome.done X, s) := by
  unfold cols
  split
  · exact Or.inl rfl
  · exact Or.inr ⟨_, rfl⟩

theorem submatVec_cases (v : Vec) (r2 c2 : Nat) (s : Machine) :
    submatVec v 0 r2 0 c2 s = (Outcome.fault Fault.logicError, s) ∨
      ∃ X, submatVec v 0 r2 0 c2 s = (Outcome.done X, s) ∧ X.mem = v.take (r2 + 1) := by
  unfold submatVec
  split
  · exact Or.inl rfl
  · exact Or.inr ⟨_, rfl, by simp⟩

theorem keeps_truncateOutputs {I : Machine → Prop} {okS : Vec → Prop} (hI : Stable I okS) : Keeps I truncateOutputs := by
  intro s hs
  have hS : okS s.obj.S := hI.getS s hs
  unfold truncateOutputs
  rw [Exec.bind_done (rfl : getObj s = (Outcome.done s.obj, s))]
  rcases cols_cases s.obj.U 0 ((s.obj.k + WORD - 1) % WORD) s with h | ⟨X, h⟩
  · rw [Exec.bind_fault h]; exact hs
  · rw [Exec.bind_done h, Exec.bind_apply]
    simp only [MatlabToArma.setU]
    rcases cols_cases s.obj.V 0 ((s.obj.k + WORD - 1) % WORD)
        { s with obj := { s.obj with U := X } } with h2 | ⟨Y, h2⟩
    · rw [Exec.bind_fault h2]; exact hI.setU s X hs
    · rw [Exec.bind_done h2, Exec.bind_apply]
      simp only [MatlabToArma.setV]
      rcases submatVec_cases s.obj.S ((s.obj.k + WORD - 1) % WORD) ((s.obj.k + WORD - 1) % WORD)
          { s with obj := { s.obj with U := X, V := Y } } with h3 | ⟨Z, h3, hZ⟩
      · rw [Exec.bind_fault h3]; exact hI.setV _ Y (hI.setU s X hs)
      · rw [Exec.bind_done h3]
        refine Keeps.assignS hI Z ?_ _ (hI.setV _ Y (hI.setU s X hs))
        rw [hZ]
        exact hI.take _ _ hS

theorem keeps_Run {I : Machine → Prop} {okS : Vec → Prop} (hI : Stable I okS) (B : Backend) (hsvd : ∀ X, okS (B.svd_econ X).2.1)
    (fuel : Nat) : Keeps I (RandPCA.Run B fuel) := by
  unfold RandPCA.Run
  refine Keeps.bind (Keeps.getObj I) (fun o => ?_)
  split
  · split
    · exact Keeps.raise I _
    · refine Keeps.bind ?_ (fun _ => Keeps.bind (keeps_truncateOutputs hI)
        (fun _ => Keeps.setDone hI _))
      split
      · exact Keeps.rawBranch hI B hsvd fuel
      · exact Keeps.centeredBranch hI B hsvd fuel
  · exact Keeps.pure I _

theorem keeps_GetOutputs {I : Machine → Prop} {okS : Vec → Prop} (hI : Stable I okS) (B : Backend)
    (hsvd : ∀ X, okS (B.svd_econ X).2.1) (fuel : Nat) : Keeps I (RandPCA.GetOutputs B fuel) := by
  unfold RandPCA.GetOutputs
  refine Keeps.bind (Keeps.getObj I) (fun o => Keeps.bind ?_
    (fun _ => Keeps.bind (Keeps.getObj I) (fun _ => Keeps.pure I _)))
  split
  · exact keeps_Run hI B hsvd fuel
  · exact Keeps.pure I _

/-! ## Facts about the member functions -/

theorem sampleBackend_shape : ShapeContract sampleBackend := by
  constructor <;> intros <;> first | rfl | simp [sampleBackend]

theorem sampleBackend_ordered : SvdOrdered sampleBackend := by
  intro X
  constructor
  · exact List.chain'_replicate_of_rel _ (by decide)
  · intro x hx
    rw [List.eq_of_mem_replicate hx]
    decide

theorem sameConfig_stable (s : Machine) : Stable (SameConfig s) (fun _ => True) :=
  { setU := fun _ _ h => h
    setV := fun _ _ h => h
    setS := fun _ _ _ h => h
    setDone := fun _ _ h => h
    draw := fun _ _ h => h
    tick := fun _ _ h => h
    getS := fun _ _ => trivial
    take := fun _ _ _ => trivial }

theorem Run_sameConfig (B : Backend) (fuel : Nat) (s : Machine) :
    SameConfig s (RandPCA.Run B fuel s).2 :=
  keeps_Run (sameConfig_stable s) B (fun _ => trivial) fuel s
    ⟨rfl, rfl, rfl, rfl, rfl, rfl, rfl, rfl⟩

theorem SetInputsAndRun_rejected (B : Backend) (fuel : Nat) (input_A : Mat) (input_k : Nat)
    (input_raw : Bool) (input_its input_l : Nat) (isSparse : Bool) (s : Machine)
    (h : sanityCheck_matrix input_A = false) :
    RandPCA.SetInputsAndRun B fuel input_A input_k input_raw input_its input_l isSparse s =
      (Outcome.fault Fault.exitFailure, s) := by
  unfold RandPCA.SetInputsAndRun
  simp [h, Exec.raise_apply]

theorem SetInputsAndRun_accepted (B : Backend) (fuel : Nat) (input_A : Mat) (input_k : Nat)
    (input_raw : Bool) (input_its input_l : Nat) (isSparse : Bool) (s : Machine)
    (h : sanityCheck_matrix input_A = true) :
    RandPCA.SetInputsAndRun B fuel input_A input_k input_raw input_its input_l isSparse s =
      RandPCA.Run B fuel
        (storeInputs input_A input_k input_raw input_its input_l isSparse s).2 := by
  unfold RandPCA.SetInputsAndRun
  simp only [h, Bool.not_true, Bool.false_eq_true, if_false]
  rw [Exec.bind_apply]
  rfl

theorem storeInputs_apply (input_A : Mat) (input_k : Nat) (input_raw : Bool)
    (input_its input_l : Nat) (isSparse : Bool) (s : Machine) :
    (storeInputs input_A input_k input_raw input_its input_l isSparse s).2 =
      { s with
        obj := { s.obj with
          A := input_A
          k := if input_k > min input_A.n_cols input_A.n_rows then
                 min input_A.n_cols input_A.n_rows else input_k
          m := input_A.n_rows
          n := input_A.n_cols
          raw := input_raw
          its := if input_its < 0 then 2 else input_its
          l := if input_l <
                (if input_k > min input_A.n_cols input_A.n_rows then
                  min input_A.n_cols input_A.n_rows else input_k) then
                 ((if input_k > min input_A.n_cols input_A.n_rows then
                  min input_A.n_cols input_A.n_rows else input_k) + 2) % WORD
               else input_l }
        sparseMatEnabled := isSparse } := rfl

theorem Dbl.lt_zero_of_ge_zero (x : Dbl) (h : Dbl.ge x Dbl.zero = true) :
    Dbl.lt x Dbl.zero = false := by
  cases x with
  | fin q =>
    simp only [Dbl.ge, Dbl.zero, decide_eq_true_eq] at h
    simp only [Dbl.lt, Dbl.zero, decide_eq_false_iff_not, not_lt]
    exact h
  | posInf => rfl
  | negInf => simp [Dbl.ge, Dbl.zero] at h
  | nan => simp [Dbl.ge, Dbl.zero] at h

theorem Mat.min_extent_small (M : Mat) (h : M.WF) : min M.n_cols M.n_rows + 2 < WORD := by
  have h2 := h.2
  unfold WORD at *
  by_contra hc
  have h3 : 2 ^ 32 ≤ min M.n_cols M.n_rows := by omega
  have h4 : 2 ^ 32 ≤ M.n_cols := le_trans h3 (min_le_left _ _)
  have h5 : 2 ^ 32 ≤ M.n_rows := le_trans h3 (min_le_right _ _)
  have h6 : 2 ^ 32 * 2 ^ 32 ≤ M.n_rows * M.n_cols := Nat.mul_le_mul h5 h4
  omega

theorem GetOutputs_done_eq (B : Backend) (fuel : Nat) (s s2 : Machine) (r : Mat × Vec × Mat)
    (h : RandPCA.GetOutputs B fuel s = (Outcome.done r, s2)) :
    r = (s2.obj.U, s2.obj.S, s2.obj.V) := by
  unfold RandPCA.GetOutputs at h
  rw [Exec.bind_done (rfl : getObj s = (Outcome.done s.obj, s)), Exec.bind_apply] at h
  rcases hx : (if (!s.obj.algorithmDone) = true then RandPCA.Run B fuel else pure ()) s
    with ⟨o, s1⟩
  rw [hx] at h
  cases o with
  | done a =>
    simp only [Exec.bind_apply, MatlabToArma.getObj, Exec.pure_apply, Prod.mk.injEq,
      Outcome.done.injEq] at h
    rw [← h.1, ← h.2]
  | fault e => simp at h

theorem ordered_stable :
    Stable (fun s => Descending s.obj.S ∧ NonNeg s.obj.S) (fun v => Descending v ∧ NonNeg v) :=
  { setU := fun _ _ h => h
    setV := fun _ _ h => h
    setS := fun _ _ hv _ => hv
    setDone := fun _ _ h => h
    draw := fun _ _ h => h
    tick := fun _ _ h => h
    getS := fun _ h => h
    take := fun _ n h => ⟨List.Chain'.take h.1 n, fun x hx => h.2 x (List.mem_of_mem_take hx)⟩ }

theorem mul_ok (B : Backend) (X Y : Mat) (s : Machine) (h : X.n_cols = Y.n_rows) :
    mul B X Y s = (Outcome.done (B.gemm X Y), s) := by
  unfold mul
  rw [if_pos h]
  rfl

theorem sub_ok (B : Backend) (X Y : Mat) (s : Machine) (h1 : X.n_rows = Y.n_rows)
    (h2 : X.n_cols = Y.n_cols) :
    sub B X Y s =
      (Outcome.done ⟨X.n_rows, X.n_cols, List.zipWith B.fsub X.mem Y.mem⟩, s) := by
  unfold sub
  rw [if_pos ⟨h1, h2⟩]
  rfl

theorem rawTallLoop_run (B : Backend) (hB : ShapeContract B) (A : Mat) (its : Nat)
    (hits : its + 1 < WORD) :
    ∀ (fuel i : Nat) (Q R : Mat) (s : Machine), i ≤ its + 1 → its + 1 ≤ i + fuel →
      Q.n_rows = A.n_rows → Q.n_cols = A.n_cols → A.n_cols ≤ A.n_rows →
      ∃ Q1 R1, rawTallLoop B A its fuel i Q R s =
          (Outcome.done (Q1, R1), { s with loopBodies := s.loopBodies + (its + 1 - i) }) ∧
        Q1.n_rows = A.n_rows ∧ Q1.n_cols = A.n_cols := by
  intro fuel
  induction fuel with
  | zero =>
    intro i Q R s hi hfuel hQ hQc _
    have hi2 : ¬ i ≤ its := by omega
    refine ⟨Q, R, ?_, hQ, hQc⟩
    unfold rawTallLoop
    rw [if_neg hi2]
    have h0 : its + 1 - i = 0 := by omega
    rw [h0]
    rfl
  | succ f ih =>
    intro i Q R s hi hfuel hQ hQc htall
    by_cases hle : i ≤ its
    · unfold rawTallLoop
      rw [if_pos hle]
      rw [Exec.bind_done (rfl : tick s = (Outcome.done (), { s with loopBodies := s.loopBodies + 1 }))]
      rw [Exec.bind_done (mul_ok B Q.t A _ hQ)]
      have hX : A.n_cols = (B.lu (B.gemm Q.t A).t).1.n_rows := by
        rw [hB.lu_L_rows]
        show A.n_cols = (B.gemm Q.t A).n_cols
        rw [hB.gemm_cols]
      rw [Exec.bind_done (mul_ok B A _ _ hX)]
      have hmod : (i + 1) % WORD = i + 1 := Nat.mod_eq_of_lt (by omega)
      rw [hmod]
      have hYr : (B.gemm A (B.lu (B.gemm Q.t A).t).1).n_rows = A.n_rows := hB.gemm_rows _ _
      have hYc : (B.gemm A (B.lu (B.gemm Q.t A).t).1).n_cols = A.n_cols := by
        rw [hB.gemm_cols, hB.lu_L_cols]
        show min (B.gemm Q.t A).n_cols (B.gemm Q.t A).n_rows = A.n_cols
        rw [hB.gemm_cols, hB.gemm_rows]
        show min A.n_cols Q.n_cols = A.n_cols
        rw [hQc, min_self]
      have hG1 : (if i < its then B.lu (B.gemm A (B.lu (B.gemm Q.t A).t).1)
          else B.qr_econ (B.gemm A (B.lu (B.gemm Q.t A).t).1)).1.n_rows = A.n_rows := by
        split
        · rw [hB.lu_L_rows, hYr]
        · rw [hB.qr_Q_rows, hYr]
      have hG2 : (if i < its then B.lu (B.gemm A (B.lu (B.gemm Q.t A).t).1)
          else B.qr_econ (B.gemm A (B.lu (B.gemm Q.t A).t).1)).1.n_cols = A.n_cols := by
        split
        · rw [hB.lu_L_cols, hYr, hYc, min_eq_right htall]
        · rw [hB.qr_Q_cols, hYr, hYc, min_eq_right htall]
      obtain ⟨Q1, R1, hrun, h1, h2⟩ := ih (i + 1) _
        (if i < its then B.lu (B.gemm A (B.lu (B.gemm Q.t A).t).1)
          else B.qr_econ (B.gemm A (B.lu (B.gemm Q.t A).t).1)).2
        { s with loopBodies := s.loopBodies + 1 } (by omega) (by omega) hG1 hG2 htall
      refine ⟨Q1, R1, ?_, h1, h2⟩
      rw [hrun]
      have hcount : s.loopBodies + 1 + (its + 1 - (i + 1)) = s.loopBodies + (its + 1 - i) := by
        omega
      simp only [hcount]
    · refine ⟨Q, R, ?_, hQ, hQc⟩
      unfold rawTallLoop
      rw [if_neg hle]
      have h0 : its + 1 - i = 0 := by omega
      rw [h0]
      rfl

theorem svdDirect_apply (B : Backend) (X : Mat) (s : Machine) :
    svdDirect B X s =
      (Outcome.done (),
        { s with obj := { s.obj with U := (B.svd_econ X).1, S := (B.svd_econ X).2.1,
                                     V := (B.svd_econ X).2.2 } }) := rfl

theorem rawBranch_direct (B : Backend) (fuel : Nat) (s : Machine)
    (hdir : directPath s.obj.l s.obj.m s.obj.n = true) :
    rawBranch B fuel s =
      (Outcome.done (),
        { s with obj := { s.obj with U := (B.svd_econ s.obj.A).1, S := (B.svd_econ s.obj.A).2.1,
                                     V := (B.svd_econ s.obj.A).2.2 } }) := by
  unfold rawBranch
  rw [Exec.bind_done (rfl : getObj s = (Outcome.done s.obj, s))]
  simp only [hdir, if_true]
  rw [Exec.bind_done (rfl : getSparse s = (Outcome.done s.sparseMatEnabled, s))]
  split <;> exact svdDirect_apply B _ s

theorem rawBranch_tall (B : Backend) (hB : ShapeContract B) (fuel : Nat) (s : Machine)
    (hm : s.obj.m = s.obj.A.n_rows) (hn : s.obj.n = s.obj.A.n_cols)
    (hdir : directPath s.obj.l s.obj.m s.obj.n = false) (htall : s.obj.n ≤ s.obj.m)
    (hits : s.obj.its + 1 < WORD) (hfuel : s.obj.its < fuel) :
    ∃ U V S, rawBranch B fuel s =
        (Outcome.done (),
          { s with obj := { s.obj with U := U, S := S, V := V }
                   draws := (s.obj.n, s.obj.n) :: s.draws
                   loopBodies := s.loopBodies + (s.obj.its + 1) }) ∧
      U.n_rows = s.obj.m ∧ U.n_cols = s.obj.n ∧ V.n_rows = s.obj.n ∧ V.n_cols = s.obj.n ∧
      S.length = s.obj.n := by
  have htall2 : s.obj.A.n_cols ≤ s.obj.A.n_rows := by rw [← hm, ← hn]; exact htall
  unfold rawBranch
  rw [Exec.bind_done (rfl : getObj s = (Outcome.done s.obj, s))]
  simp only [hdir, Bool.false_eq_true, if_false]
  rw [if_pos (show s.obj.m ≥ s.obj.n from htall)]
  rw [Exec.bind_done (rfl : randn B s.obj.n s.obj.n s =
    (Outcome.done (B.randn s.obj.n s.obj.n s.draws),
      { s with draws := (s.obj.n, s.obj.n) :: s.draws }))]
  rw [Exec.bind_done (sub_ok B (scalarTimes B Dbl.two (B.randn s.obj.n s.obj.n s.draws))
    (Mat.ones s.obj.n s.obj.n) _
    (show (B.randn s.obj.n s.obj.n s.draws).n_rows = s.obj.n from hB.randn_rows _ _ _)
    (show (B.randn s.obj.n s.obj.n s.draws).n_cols = s.obj.n from hB.randn_cols _ _ _))]
  rw [Exec.bind_done (mul_ok B s.obj.A _ _ (by
    show s.obj.A.n_cols = (B.randn s.obj.n s.obj.n s.draws).n_rows
    rw [hB.randn_rows, hn]))]
  have hF1 : (if s.obj.its = 0 then B.qr_econ s.obj.A else B.lu s.obj.A).1.n_rows =
      s.obj.A.n_rows := by
    split
    · exact hB.qr_Q_rows _
    · exact hB.lu_L_rows _
  have hF2 : (if s.obj.its = 0 then B.qr_econ s.obj.A else B.lu s.obj.A).1.n_cols =
      s.obj.A.n_cols := by
    split
    · rw [hB.qr_Q_cols, min_eq_right htall2]
    · rw [hB.lu_L_cols, min_eq_right htall2]
  obtain ⟨Q1, R1, hrun, h1, h2⟩ := rawTallLoop_run B hB s.obj.A s.obj.its hits fuel 0
    (if s.obj.its = 0 then B.qr_econ s.obj.A else B.lu s.obj.A).1
    (if s.obj.its = 0 then B.qr_econ s.obj.A else B.lu s.obj.A).2
    { s with draws := (s.obj.n, s.obj.n) :: s.draws } (by omega) (by omega) hF1 hF2 htall2
  rw [Exec.bind_done hrun]
  rw [Exec.bind_done (mul_ok B Q1.t s.obj.A _ h1)]
  rw [Exec.bind_apply]
  simp only [setS]
  rw [Exec.bind_apply]
  simp only [setV]
  rw [Exec.bind_done (mul_ok B Q1 _ _ (by
    rw [hB.svd_U_rows, hB.gemm_rows]
    rfl))]
  refine ⟨_, _, _, rfl, ?_, ?_, ?_, ?_, ?_⟩
  · rw [hB.gemm_rows, h1, hm]
  · rw [hB.gemm_cols, hB.svd_U_cols, hB.gemm_rows, hB.gemm_cols]
    show min Q1.n_cols s.obj.A.n_cols = s.obj.n
    rw [h2, min_self, hn]
  · rw [hB.svd_V_rows, hB.gemm_cols, hn]
  · rw [hB.svd_V_cols, hB.gemm_rows, hB.gemm_cols]
    show min Q1.n_cols s.obj.A.n_cols = s.obj.n
    rw [h2, min_self, hn]
  · rw [hB.svd_S_len, hB.gemm_rows, hB.gemm_cols]
    show min Q1.n_cols s.obj.A.n_cols = s.obj.n
    rw [h2, min_self, hn]

theorem pred_word (k : Nat) (h1 : 1 ≤ k) (hW : k < WORD) : (k + WORD - 1) % WORD = k - 1 := by
  have h : k + WORD - 1 = (k - 1) + WORD := by omega
  rw [h, Nat.add_mod_right, Nat.mod_eq_of_lt (by omega)]

theorem cols_head (M : Mat) (k : Nat) (s : Machine) (h1 : 1 ≤ k) (hk : k ≤ M.n_cols) :
    cols M 0 (k - 1) s = (Outcome.done (M.head_cols k), s) := by
  unfold cols
  rw [if_neg (by omega)]
  have h : k - 1 - 0 + 1 = k := by omega
  simp only [h, Nat.zero_mul, List.drop_zero]
  rfl

theorem truncateOutputs_apply (s : Machine) (hk1 : 1 ≤ s.obj.k) (hkU : s.obj.k ≤ s.obj.U.n_cols)
    (hkV : s.obj.k ≤ s.obj.V.n_cols) (hkW : s.obj.k < WORD) :
    truncateOutputs s =
      if s.obj.k = 1 ∧ 1 ≤ s.obj.S.length then
        (Outcome.done (),
          { truncatedUV s with obj := { (truncatedUV s).obj with S := s.obj.S.take 1 } })
      else (Outcome.fault Fault.logicError, truncatedUV s) := by
  unfold truncateOutputs
  rw [Exec.bind_done (rfl : getObj s = (Outcome.done s.obj, s))]
  simp only [pred_word s.obj.k hk1 hkW]
  rw [Exec.bind_done (cols_head s.obj.U s.obj.k s hk1 hkU), Exec.bind_apply]
  simp only [setU]
  rw [Exec.bind_done (cols_head s.obj.V s.obj.k _ hk1 hkV), Exec.bind_apply]
  simp only [setV]
  by_cases h : s.obj.k = 1 ∧ 1 ≤ s.obj.S.length
  · rw [if_pos h]
    obtain ⟨hk, hlen⟩ := h
    have hsub : ∀ t : Machine, submatVec s.obj.S 0 (s.obj.k - 1) 0 (s.obj.k - 1) t =
        (Outcome.done ⟨1, 1, s.obj.S.take 1⟩, t) := by
      intro t
      unfold submatVec
      rw [hk]
      rw [if_neg (by omega)]
      rfl
    rw [Exec.bind_done (hsub _)]
    unfold assignS
    rw [if_pos rfl]
    rfl
  · rw [if_neg h]
    have hsub : ∀ t : Machine, submatVec s.obj.S 0 (s.obj.k - 1) 0 (s.obj.k - 1) t =
        (Outcome.fault Fault.logicError, t) := by
      intro t
      unfold submatVec
      rw [if_pos (by omega)]
      rfl
    rw [Exec.bind_fault (hsub _)]
    rfl

theorem Run_of_branch (B : Backend) (fuel : Nat) (s s1 : Machine)
    (hdone : s.obj.algorithmDone = false) (hA : sanityCheck_matrix s.obj.A = true)
    (hbranch : (if s.obj.raw = true then rawBranch B fuel else centeredBranch B fuel) s =
      (Outcome.done (), s1))
    (hk1 : 1 ≤ s1.obj.k) (hkU : s1.obj.k ≤ s1.obj.U.n_cols) (hkV : s1.obj.k ≤ s1.obj.V.n_cols)
    (hkW : s1.obj.k < WORD) :
    RandPCA.Run B fuel s =
      if s1.obj.k = 1 ∧ 1 ≤ s1.obj.S.length then
        (Outcome.done (),
          { truncatedUV s1 with
            obj := { (truncatedUV s1).obj with S := s1.obj.S.take 1, algorithmDone := true } })
      else (Outcome.fault Fault.logicError, truncatedUV s1) := by
  unfold RandPCA.Run
  rw [Exec.bind_done (rfl : getObj s = (Outcome.done s.obj, s))]
  simp only [hdone, hA, Bool.not_false, Bool.not_true, if_true, Bool.false_eq_true, if_false]
  rw [Exec.bind_done hbranch, Exec.bind_apply, truncateOutputs_apply s1 hk1 hkU hkV hkW]
  by_cases h : s1.obj.k = 1 ∧ 1 ≤ s1.obj.S.length
  · rw [if_pos h, if_pos h]
    rfl
  · rw [if_neg h, if_neg h]

/-- What `Run` does on a raw input whose matrix is at least as tall as wide, for a rank
between 1 and the smaller extent: the state it leaves and the way it ends. -/
theorem Run_raw_tall (B : Backend) (hB : ShapeContract B) (fuel : Nat) (s : Machine)
    (hdone : s.obj.algorithmDone = false) (hWF : s.obj.A.WF)
    (hA : sanityCheck_matrix s.obj.A = true)
    (hm : s.obj.m = s.obj.A.n_rows) (hn : s.obj.n = s.obj.A.n_cols)
    (hraw : s.obj.raw = true) (htall : s.obj.n ≤ s.obj.m)
    (hk1 : 1 ≤ s.obj.k) (hk2 : s.obj.k ≤ min s.obj.m s.obj.n)
    (hits : directPath s.obj.l s.obj.m s.obj.n = false →
      s.obj.its + 1 < WORD ∧ s.obj.its < fuel) :
    ∃ s1 : Machine,
      s1.obj.k = s.obj.k ∧ s1.obj.U.n_rows = s.obj.m ∧ s1.obj.V.n_rows = s.obj.n ∧
      s1.obj.S.length = s.obj.n ∧ s1.obj.algorithmDone = s.obj.algorithmDone ∧
      RandPCA.Run B fuel s =
        if s.obj.k = 1 then
          (Outcome.done (),
            { truncatedUV s1 with
              obj := { (truncatedUV s1).obj with S := s1.obj.S.take 1, algorithmDone := true } })
        else (Outcome.fault Fault.logicError, truncatedUV s1) := by
  have hsmall := Mat.min_extent_small s.obj.A hWF
  have hmin : min s.obj.m s.obj.n = s.obj.n := min_eq_right htall
  have hkn : s.obj.k ≤ s.obj.n := by rw [hmin] at hk2; exact hk2
  have hkW : s.obj.k < WORD := by
    have : s.obj.k ≤ min s.obj.A.n_cols s.obj.A.n_rows := by
      rw [← hm, ← hn, min_comm]; exact hk2
    omega
  have hminA : min s.obj.A.n_rows s.obj.A.n_cols = s.obj.n := by rw [← hm, ← hn]; exact hmin
  have hbr : ∃ s1 : Machine,
      (if s.obj.raw = true then rawBranch B fuel else centeredBranch B fuel) s =
        (Outcome.done (), s1) ∧
      s1.obj.k = s.obj.k ∧ s1.obj.U.n_rows = s.obj.m ∧ s1.obj.U.n_cols = s.obj.n ∧
      s1.obj.V.n_rows = s.obj.n ∧ s1.obj.V.n_cols = s.obj.n ∧ s1.obj.S.length = s.obj.n ∧
      s1.obj.algorithmDone = s.obj.algorithmDone := by
    rw [if_pos hraw]
    cases hdir : directPath s.obj.l s.obj.m s.obj.n with
    | true =>
      refine ⟨_, rawBranch_direct B fuel s hdir, rfl, ?_, ?_, ?_, ?_, ?_, rfl⟩
      · show (B.svd_econ s.obj.A).1.n_rows = s.obj.m
        rw [hB.svd_U_rows, hm]
      · show (B.svd_econ s.obj.A).1.n_cols = s.obj.n
        rw [hB.svd_U_cols, hminA]
      · show (B.svd_econ s.obj.A).2.2.n_rows = s.obj.n
        rw [hB.svd_V_rows, hn]
      · show (B.svd_econ s.obj.A).2.2.n_cols = s.obj.n
        rw [hB.svd_V_cols, hminA]
      · show (B.svd_econ s.obj.A).2.1.length = s.obj.n
        rw [hB.svd_S_len, hminA]
    | false =>
      obtain ⟨U, V, S, hrun, h1, h2, h3, h4, h5⟩ :=
        rawBranch_tall B hB fuel s hm hn hdir htall (hits hdir).1 (hits hdir).2
      exact ⟨_, hrun, rfl, h1, h2, h3, h4, h5, rfl⟩
  obtain ⟨s1, hrun, hk, hUr, hUc, hVr, hVc, hSl, hd⟩ := hbr
  refine ⟨s1, hk, hUr, hVr, hSl, hd, ?_⟩
  rw [Run_of_branch B fuel s s1 hdone hA hrun (by omega) (by omega) (by omega) (by omega)]
  have hiff : (s1.obj.k = 1 ∧ 1 ≤ s1.obj.S.length) ↔ s.obj.k = 1 := by
    rw [hk, hSl]
    constructor
    · exact fun h => h.1
    · exact fun h => ⟨h, by omega⟩
  by_cases h : s.obj.k = 1
  · rw [if_pos h, if_pos (hiff.2 h)]
  · rw [if_neg h, if_neg (fun h2 => h (hiff.1 h2))]

theorem truncateOutputs_fault (s : Machine) (hkW : s.obj.k < WORD) (hk : s.obj.k ≠ 1) :
    (truncateOutputs s).1 = Outcome.fault Fault.logicError := by
  have hp : 1 ≤ (s.obj.k + WORD - 1) % WORD := by
    by_cases h0 : s.obj.k = 0
    · rw [h0]
      unfold WORD
      decide
    · rw [pred_word s.obj.k (by omega) hkW]
      omega
  unfold truncateOutputs
  rw [Exec.bind_done (rfl : getObj s = (Outcome.done s.obj, s))]
  rcases cols_cases s.obj.U 0 ((s.obj.k + WORD - 1) % WORD) s with h | ⟨X, h⟩
  · rw [Exec.bind_fault h]
  · rw [Exec.bind_done h, Exec.bind_apply]
    simp only [setU]
    rcases cols_cases s.obj.V 0 ((s.obj.k + WORD - 1) % WORD)
        { s with obj := { s.obj with U := X } } with h2 | ⟨Y, h2⟩
    · rw [Exec.bind_fault h2]
    · rw [Exec.bind_done h2, Exec.bind_apply]
      simp only [setV]
      have hsub : ∀ t : Machine,
          submatVec s.obj.S 0 ((s.obj.k + WORD - 1) % WORD) 0 ((s.obj.k + WORD - 1) % WORD) t =
            (Outcome.fault Fault.logicError, t) := by
        intro t
        unfold submatVec
        rw [if_pos (Or.inr (Or.inr hp))]
        rfl
      rw [Exec.bind_fault (hsub _)]

theorem Run_returns_only_rank_one (B : Backend) (fuel : Nat) (s : Machine)
    (hdone : s.obj.algorithmDone = false) (hkW : s.obj.k < WORD) (hk : s.obj.k ≠ 1) :
    (RandPCA.Run B fuel s).1 ≠ Outcome.done () := by
  unfold RandPCA.Run
  rw [Exec.bind_done (rfl : getObj s = (Outcome.done s.obj, s))]
  simp only [hdone, Bool.not_false, if_true]
  cases hA : sanityCheck_matrix s.obj.A with
  | false =>
    simp [Exec.raise_apply]
  | true =>
    simp only [Bool.not_true, Bool.false_eq_true, if_false]
    have hkeep : SameConfig s
        ((if s.obj.raw = true then rawBranch B fuel else centeredBranch B fuel) s).2 := by
      split
      · exact Keeps.rawBranch (sameConfig_stable s) B (fun _ => trivial) fuel s
          ⟨rfl, rfl, rfl, rfl, rfl, rfl, rfl, rfl⟩
      · exact Keeps.centeredBranch (sameConfig_stable s) B (fun _ => trivial) fuel s
          ⟨rfl, rfl, rfl, rfl, rfl, rfl, rfl, rfl⟩
    rcases hbr : (if s.obj.raw = true then rawBranch B fuel else centeredBranch B fuel) s
      with ⟨o, s1⟩
    rw [hbr] at hkeep
    cases o with
    | fault e =>
      rw [Exec.bind_fault hbr]
      simp
    | done a =>
      rw [Exec.bind_done hbr, Exec.bind_apply]
      have hk1 : s1.obj.k = s.obj.k := hkeep.2.1
      have htr := truncateOutputs_fault s1 (by rw [hk1]; exact hkW) (by rw [hk1]; exact hk)
      rcases htr2 : truncateOutputs s1 with ⟨o2, s2⟩
      rw [htr2] at htr
      simp only at htr
      rw [htr]
      simp

theorem GetOutputs_of_Run_fault (B : Backend) (fuel : Nat) (s s1 : Machine) (e : Fault)
    (hdone : s.obj.algorithmDone = false)
    (hrun : RandPCA.Run B fuel s = (Outcome.fault e, s1)) :
    RandPCA.GetOutputs B fuel s = (Outcome.fault e, s1) := by
  unfold RandPCA.GetOutputs
  rw [Exec.bind_done (rfl : getObj s = (Outcome.done s.obj, s))]
  simp only [hdone, Bool.not_false, if_true]
  rw [Exec.bind_fault hrun]

theorem Run_raw_direct (B : Backend) (hB : ShapeContract B) (fuel : Nat) (s : Machine)
    (hdone : s.obj.algorithmDone = false) (hWF : s.obj.A.WF)
    (hA : sanityCheck_matrix s.obj.A = true)
    (hm : s.obj.m = s.obj.A.n_rows) (hn : s.obj.n = s.obj.A.n_cols)
    (hraw : s.obj.raw = true) (hdir : directPath s.obj.l s.obj.m s.obj.n = true)
    (hk1 : 1 ≤ s.obj.k) (hk2 : s.obj.k ≤ min s.obj.m s.obj.n) :
    RandPCA.Run B fuel s =
      if s.obj.k = 1 then
        (Outcome.done (),
          { s with obj := { s.obj with U := (B.svd_econ s.obj.A).1.head_cols s.obj.k
                                       V := (B.svd_econ s.obj.A).2.2.head_cols s.obj.k
                                       S := (B.svd_econ s.obj.A).2.1.take 1
                                       algorithmDone := true } })
      else
        (Outcome.fault Fault.logicError,
          { s with obj := { s.obj with U := (B.svd_econ s.obj.A).1.head_cols s.obj.k
                                       V := (B.svd_econ s.obj.A).2.2.head_cols s.obj.k
                                       S := (B.svd_econ s.obj.A).2.1 } }) := by
  have hsmall := Mat.min_extent_small s.obj.A hWF
  have hminA : min s.obj.A.n_rows s.obj.A.n_cols = min s.obj.m s.obj.n := by rw [← hm, ← hn]
  have hkW : s.obj.k < WORD := by
    have : s.obj.k ≤ min s.obj.A.n_cols s.obj.A.n_rows := by
      rw [← hm, ← hn, min_comm]; exact hk2
    omega
  have hbranch : (if s.obj.raw = true then rawBranch B fuel else centeredBranch B fuel) s =
      (Outcome.done (),
        { s with obj := { s.obj with U := (B.svd_econ s.obj.A).1, S := (B.svd_econ s.obj.A).2.1,
                                     V := (B.svd_econ s.obj.A).2.2 } }) := by
    rw [if_pos hraw]
    exact rawBranch_direct B fuel s hdir
  rw [Run_of_branch B fuel s _ hdone hA hbranch hk1
    (by show s.obj.k ≤ (B.svd_econ s.obj.A).1.n_cols
        rw [hB.svd_U_cols, hminA]; exact hk2)
    (by show s.obj.k ≤ (B.svd_econ s.obj.A).2.2.n_cols
        rw [hB.svd_V_cols, hminA]; exact hk2)
    hkW]
  have hlen : (B.svd_econ s.obj.A).2.1.length = min s.obj.m s.obj.n := by
    rw [hB.svd_S_len, hminA]
  by_cases h : s.obj.k = 1
  · rw [if_pos h, if_pos ⟨h, by show 1 ≤ (B.svd_econ s.obj.A).2.1.length; omega⟩]
    rfl
  · rw [if_neg h, if_neg (fun h2 => h h2.1)]
    rfl


theorem mul_fault (B : Backend) (X Y : Mat) (s : Machine) (h : X.n_cols ≠ Y.n_rows) :
    mul B X Y s = (Outcome.fault Fault.logicError, s) := by
  unfold mul
  rw [if_neg h]
  rfl

theorem sub_fault (B : Backend) (X Y : Mat) (s : Machine)
    (h : ¬ (X.n_rows = Y.n_rows ∧ X.n_cols = Y.n_cols)) :
    sub B X Y s = (Outcome.fault Fault.logicError, s) := by
  unfold sub
  rw [if_neg h]
  rfl

theorem Run_of_branch_fault (B : Backend) (fuel : Nat) (s s1 : Machine) (e : Fault)
    (hdone : s.obj.algorithmDone = false) (hA : sanityCheck_matrix s.obj.A = true)
    (hbranch : (if s.obj.raw = true then rawBranch B fuel else centeredBranch B fuel) s =
      (Outcome.fault e, s1)) :
    RandPCA.Run B fuel s = (Outcome.fault e, s1) := by
  unfold RandPCA.Run
  rw [Exec.bind_done (rfl : getObj s = (Outcome.done s.obj, s))]
  simp only [hdone, hA, Bool.not_false, Bool.not_true, if_true, Bool.false_eq_true, if_false]
  rw [Exec.bind_fault hbranch]

theorem zipWith_replicate_eq_map {α β γ : Type} (f : α → β → γ) (b : β) :
    ∀ (l : List α) (n : Nat), l.length ≤ n →
      List.zipWith f l (List.replicate n b) = l.map (fun x => f x b) := by
  intro l
  induction l with
  | nil => intro n _; simp
  | cons a t ih =>
    intro n hn
    cases n with
    | zero => simp at hn
    | succ n =>
      rw [List.replicate_succ, List.zipWith_cons_cons, List.map_cons, ih n (by simpa using hn)]

theorem centeredBranch_direct (B : Backend) (fuel : Nat) (s : Machine)
    (hm : s.obj.m = s.obj.A.n_rows) (hn : s.obj.n = s.obj.A.n_cols)
    (hdir : directPath s.obj.l s.obj.m s.obj.n = true) :
    centeredBranch B fuel s =
      if s.obj.m = s.obj.n then svdDirect B (centeredMatrix B s.obj.A s.obj.m) s
      else (Outcome.fault Fault.logicError, s) := by
  unfold centeredBranch
  rw [Exec.bind_done (rfl : getObj s = (Outcome.done s.obj, s))]
  simp only [hdir, if_true]
  rw [Exec.bind_done (rfl : getSparse s = (Outcome.done s.sparseMatEnabled, s))]
  by_cases hsq : s.obj.m = s.obj.n
  · rw [if_pos hsq]
    have hok := sub_ok B s.obj.A
      (scalarTimes B (B.fdiv (B.accu s.obj.A) (B.ofUword s.obj.m)) (Mat.ones s.obj.m s.obj.m)) s
      (show s.obj.A.n_rows = s.obj.m from hm.symm)
      (show s.obj.A.n_cols = s.obj.m by rw [← hn, hsq])
    split <;> (rw [Exec.bind_done hok]; rfl)
  · rw [if_neg hsq]
    have hbad := sub_fault B s.obj.A
      (scalarTimes B (B.fdiv (B.accu s.obj.A) (B.ofUword s.obj.m)) (Mat.ones s.obj.m s.obj.m)) s
      (fun h => hsq (by
        have h2 : s.obj.A.n_cols = s.obj.m := h.2
        omega))
    split <;> rw [Exec.bind_fault hbad]

theorem rawWideLoop_first_fault (B : Backend) (A : Mat) (its fuel : Nat) (Q R : Mat)
    (s : Machine) (h : A.n_cols ≠ Q.n_rows) :
    rawWideLoop B A its (fuel + 1) 0 Q R s =
      (Outcome.fault Fault.logicError, { s with loopBodies := s.loopBodies + 1 }) := by
  unfold rawWideLoop
  rw [if_pos (Nat.zero_le its)]
  rw [Exec.bind_done (rfl : tick s = (Outcome.done (), { s with loopBodies := s.loopBodies + 1 }))]
  rw [Exec.bind_fault (mul_fault B A Q _ h)]

theorem rawBranch_wide (B : Backend) (hB : ShapeContract B) (fuel : Nat) (s : Machine)
    (hm : s.obj.m = s.obj.A.n_rows) (hn : s.obj.n = s.obj.A.n_cols)
    (hdir : directPath s.obj.l s.obj.m s.obj.n = false) (hwide : s.obj.m < s.obj.n)
    (hfuel : 0 < fuel) :
    rawBranch B fuel s =
      (Outcome.fault Fault.logicError,
        { s with draws := (s.obj.m, s.obj.m) :: s.draws, loopBodies := s.loopBodies + 1 }) := by
  obtain ⟨f, hf⟩ : ∃ f, fuel = f + 1 := ⟨fuel - 1, by omega⟩
  unfold rawBranch
  rw [Exec.bind_done (rfl : getObj s = (Outcome.done s.obj, s))]
  simp only [hdir, Bool.false_eq_true, if_false]
  rw [if_neg (show ¬ s.obj.m ≥ s.obj.n by omega), if_pos hwide]
  rw [Exec.bind_done (rfl : randn B s.obj.m s.obj.m s =
    (Outcome.done (B.randn s.obj.m s.obj.m s.draws),
      { s with draws := (s.obj.m, s.obj.m) :: s.draws }))]
  rw [Exec.bind_done (sub_ok B (scalarTimes B Dbl.two (B.randn s.obj.m s.obj.m s.draws))
    (Mat.ones s.obj.m s.obj.m) _
    (show (B.randn s.obj.m s.obj.m s.draws).n_rows = s.obj.m from hB.randn_rows _ _ _)
    (show (B.randn s.obj.m s.obj.m s.draws).n_cols = s.obj.m from hB.randn_cols _ _ _))]
  rw [Exec.bind_done (mul_ok B _ s.obj.A _ (by
    show (B.randn s.obj.m s.obj.m s.draws).n_cols = s.obj.A.n_rows
    rw [hB.randn_cols, hm]))]
  have hQ : s.obj.A.n_cols ≠
      (if s.obj.its = 0 then B.qr_econ s.obj.A else B.lu s.obj.A).1.n_rows := by
    split
    · rw [hB.qr_Q_rows]; omega
    · rw [hB.lu_L_rows]; omega
  rw [hf, Exec.bind_fault (rawWideLoop_first_fault B s.obj.A s.obj.its f _ _ _ hQ)]

theorem centeredBranch_nonsquare (B : Backend) (hB : ShapeContract B) (fuel : Nat) (s : Machine)
    (hm : s.obj.m = s.obj.A.n_rows) (hn : s.obj.n = s.obj.A.n_cols)
    (hdir : directPath s.obj.l s.obj.m s.obj.n = false) (hne : s.obj.m ≠ s.obj.n) :
    centeredBranch B fuel s =
      (Outcome.fault Fault.logicError,
        { s with draws := (min s.obj.m s.obj.n, min s.obj.m s.obj.n) :: s.draws }) := by
  unfold centeredBranch
  rw [Exec.bind_done (rfl : getObj s = (Outcome.done s.obj, s))]
  simp only [hdir, Bool.false_eq_true, if_false]
  by_cases htall : s.obj.m ≥ s.obj.n
  · rw [if_pos htall, min_eq_right htall]
    rw [Exec.bind_done (rfl : randn B s.obj.n s.obj.n s =
      (Outcome.done (B.randn s.obj.n s.obj.n s.draws),
        { s with draws := (s.obj.n, s.obj.n) :: s.draws }))]
    rw [Exec.bind_done (sub_ok B (scalarTimes B Dbl.two (B.randn s.obj.n s.obj.n s.draws))
      (Mat.ones s.obj.n s.obj.n) _
      (show (B.randn s.obj.n s.obj.n s.draws).n_rows = s.obj.n from hB.randn_rows _ _ _)
      (show (B.randn s.obj.n s.obj.n s.draws).n_cols = s.obj.n from hB.randn_cols _ _ _))]
    rw [Exec.bind_done (mul_ok B s.obj.A _ _ (by
      show s.obj.A.n_cols = (B.randn s.obj.n s.obj.n s.draws).n_rows
      rw [hB.randn_rows, hn]))]
    have hbad : ∀ (X : Mat) (t : Machine),
        centerLeft B s.obj.m (B.fdiv (B.accu s.obj.A) (B.ofUword s.obj.m)) X
          ⟨(scalarTimes B Dbl.two (B.randn s.obj.n s.obj.n s.draws)).n_rows,
            (scalarTimes B Dbl.two (B.randn s.obj.n s.obj.n s.draws)).n_cols,
            List.zipWith B.fsub (scalarTimes B Dbl.two (B.randn s.obj.n s.obj.n s.draws)).mem
              (Mat.ones s.obj.n s.obj.n).mem⟩ t =
          (Outcome.fault Fault.logicError, t) := by
      intro X t
      unfold centerLeft
      rw [Exec.bind_fault (mul_fault B _ _ t (by
        show s.obj.m ≠ (B.randn s.obj.n s.obj.n s.draws).n_rows
        rw [hB.randn_rows]; exact hne))]
    rw [Exec.bind_fault (hbad _ _)]
  · rw [if_neg htall, if_pos (show s.obj.m < s.obj.n by omega),
      min_eq_left (show s.obj.m ≤ s.obj.n by omega)]
    rw [Exec.bind_done (rfl : randn B s.obj.m s.obj.m s =
      (Outcome.done (B.randn s.obj.m s.obj.m s.draws),
        { s with draws := (s.obj.m, s.obj.m) :: s.draws }))]
    rw [Exec.bind_done (sub_ok B (scalarTimes B Dbl.two (B.randn s.obj.m s.obj.m s.draws))
      (Mat.ones s.obj.m s.obj.m) _
      (show (B.randn s.obj.m s.obj.m s.draws).n_rows = s.obj.m from hB.randn_rows _ _ _)
      (show (B.randn s.obj.m s.obj.m s.draws).n_cols = s.obj.m from hB.randn_cols _ _ _))]
    have hbad : ∀ t : Machine,
        centerRight B s.obj.m (B.fdiv (B.accu s.obj.A) (B.ofUword s.obj.m)) s.obj.A
          ⟨(scalarTimes B Dbl.two (B.randn s.obj.m s.obj.m s.draws)).n_rows,
            (scalarTimes B Dbl.two (B.randn s.obj.m s.obj.m s.draws)).n_cols,
            List.zipWith B.fsub (scalarTimes B Dbl.two (B.randn s.obj.m s.obj.m s.draws)).mem
              (Mat.ones s.obj.m s.obj.m).mem⟩ t =
          (Outcome.fault Fault.logicError, t) := by
      intro t
      unfold centerRight
      rw [Exec.bind_done (mul_ok B _ s.obj.A t (by
        show (B.randn s.obj.m s.obj.m s.draws).n_cols = s.obj.A.n_rows
        rw [hB.randn_cols, hm]))]
      rw [Exec.bind_done (mul_ok B _ (Mat.ones s.obj.m s.obj.m) t (by
        show (B.randn s.obj.m s.obj.m s.draws).n_cols = s.obj.m
        rw [hB.randn_cols]))]
      refine sub_fault B _ _ t (fun h => hne ?_)
      have h2 := h.2
      rw [hB.gemm_cols] at h2
      have h3 : s.obj.A.n_cols = s.obj.m := by
        rw [h2]
        show (B.gemm _ (Mat.ones s.obj.m s.obj.m)).n_cols = s.obj.m
        rw [hB.gemm_cols]
        rfl
      omega
    rw [Exec.bind_fault (hbad _)]

theorem Run_raw_tall_trace (B : Backend) (hB : ShapeContract B) (fuel : Nat) (s : Machine)
    (hdone : s.obj.algorithmDone = false) (hWF : s.obj.A.WF)
    (hA : sanityCheck_matrix s.obj.A = true)
    (hm : s.obj.m = s.obj.A.n_rows) (hn : s.obj.n = s.obj.A.n_cols)
    (hraw : s.obj.raw = true) (hdir : directPath s.obj.l s.obj.m s.obj.n = false)
    (htall : s.obj.n ≤ s.obj.m) (hk1 : 1 ≤ s.obj.k) (hk2 : s.obj.k ≤ min s.obj.m s.obj.n)
    (hits : s.obj.its + 1 < WORD) (hfuel : s.obj.its < fuel) :
    (RandPCA.Run B fuel s).2.draws = (s.obj.n, s.obj.n) :: s.draws ∧
    (RandPCA.Run B fuel s).2.loopBodies = s.loopBodies + (s.obj.its + 1) := by
  have hsmall := Mat.min_extent_small s.obj.A hWF
  have hkn : s.obj.k ≤ s.obj.n := by rw [min_eq_right htall] at hk2; exact hk2
  have hkW : s.obj.k < WORD := by
    have : s.obj.k ≤ min s.obj.A.n_cols s.obj.A.n_rows := by
      rw [← hm, ← hn, min_comm]; exact hk2
    omega
  obtain ⟨U, V, S, hrun, _, hUc, _, hVc, _⟩ :=
    rawBranch_tall B hB fuel s hm hn hdir htall hits hfuel
  have hbranch : (if s.obj.raw = true then rawBranch B fuel else centeredBranch B fuel) s =
      (Outcome.done (),
        { s with obj := { s.obj with U := U, S := S, V := V }
                 draws := (s.obj.n, s.obj.n) :: s.draws
                 loopBodies := s.loopBodies + (s.obj.its + 1) }) := by
    rw [if_pos hraw]
    exact hrun
  rw [Run_of_branch B fuel s _ hdone hA hbranch hk1
    (by show s.obj.k ≤ U.n_cols; omega) (by show s.obj.k ≤ V.n_cols; omega) hkW]
  split <;> exact ⟨rfl, rfl⟩

theorem directPath_false_lt (l m n : Nat) (h : directPath l m n = false) : l < m ∧ l < n := by
  unfold directPath at h
  simp only [Bool.or_eq_false_iff, decide_eq_false_iff_not, not_le] at h
  omega

theorem Run_when_done (B : Backend) (fuel : Nat) (s : Machine)
    (hdone : s.obj.algorithmDone = true) : RandPCA.Run B fuel s = (Outcome.done (), s) := by
  unfold RandPCA.Run
  rw [Exec.bind_done (rfl : getObj s = (Outcome.done s.obj, s))]
  simp [hdone, Exec.pure_apply]

theorem GetOutputs_when_done (B : Backend) (fuel : Nat) (s : Machine)
    (hdone : s.obj.algorithmDone = true) :
    RandPCA.GetOutputs B fuel s = (Outcome.done (s.obj.U, s.obj.S, s.obj.V), s) := by
  unfold RandPCA.GetOutputs
  rw [Exec.bind_done (rfl : getObj s = (Outcome.done s.obj, s))]
  simp [hdone, Exec.pure_apply, Exec.bind_apply, getObj]

theorem echoBackend_shape : ShapeContract echoBackend := by
  constructor <;> intros <;> first | rfl | simp [echoBackend, sampleBackend]

/-- The raw tall branch computes the sketch, drops it, and enters the loop with the
first factor of the decomposition of `A`. -/
theorem rawBranch_tall_from (B : Backend) (hB : ShapeContract B) (fuel : Nat) (s : Machine)
    (hn : s.obj.n = s.obj.A.n_cols)
    (hdir : directPath s.obj.l s.obj.m s.obj.n = false) (htall : s.obj.n ≤ s.obj.m) :
    rawBranch B fuel s =
      rawTallFrom B fuel s.obj.A s.obj.its
        (if s.obj.its = 0 then B.qr_econ s.obj.A else B.lu s.obj.A).1
        (if s.obj.its = 0 then B.qr_econ s.obj.A else B.lu s.obj.A).2
        { s with draws := (s.obj.n, s.obj.n) :: s.draws } := by
  unfold rawBranch
  rw [Exec.bind_done (rfl : getObj s = (Outcome.done s.obj, s))]
  simp only [hdir, Bool.false_eq_true, if_false]
  rw [if_pos (show s.obj.m ≥ s.obj.n from htall)]
  rw [Exec.bind_done (rfl : randn B s.obj.n s.obj.n s =
    (Outcome.done (B.randn s.obj.n s.obj.n s.draws),
      { s with draws := (s.obj.n, s.obj.n) :: s.draws }))]
  rw [Exec.bind_done (sub_ok B (scalarTimes B Dbl.two (B.randn s.obj.n s.obj.n s.draws))
    (Mat.ones s.obj.n s.obj.n) _
    (show (B.randn s.obj.n s.obj.n s.draws).n_rows = s.obj.n from hB.randn_rows _ _ _)
    (show (B.randn s.obj.n s.obj.n s.draws).n_cols = s.obj.n from hB.randn_cols _ _ _))]
  rw [Exec.bind_done (mul_ok B s.obj.A _ _ (by
    show s.obj.A.n_cols = (B.randn s.obj.n s.obj.n s.draws).n_rows
    rw [hB.randn_rows, hn]))]
  rfl

/-- The raw wide branch computes the sketch, drops it, and enters the loop with the
first factor of the decomposition of `A`. -/
theorem rawBranch_wide_from (B : Backend) (hB : ShapeContract B) (fuel : Nat) (s : Machine)
    (hm : s.obj.m = s.obj.A.n_rows)
    (hdir : directPath s.obj.l s.obj.m s.obj.n = false) (hwide : s.obj.m < s.obj.n) :
    rawBranch B fuel s =
      rawWideFrom B fuel s.obj.A s.obj.its
        (if s.obj.its = 0 then B.qr_econ s.obj.A else B.lu s.obj.A).1
        (if s.obj.its = 0 then B.qr_econ s.obj.A else B.lu s.obj.A).2
        { s with draws := (s.obj.m, s.obj.m) :: s.draws } := by
  unfold rawBranch
  rw [Exec.bind_done (rfl : getObj s = (Outcome.done s.obj, s))]
  simp only [hdir, Bool.false_eq_true, if_false]
  rw [if_neg (show ¬ s.obj.m ≥ s.obj.n by omega), if_pos hwide]
  rw [Exec.bind_done (rfl : randn B s.obj.m s.obj.m s =
    (Outcome.done (B.randn s.obj.m s.obj.m s.draws),
      { s with draws := (s.obj.m, s.obj.m) :: s.draws }))]
  rw [Exec.bind_done (sub_ok B (scalarTimes B Dbl.two (B.randn s.obj.m s.obj.m s.draws))
    (Mat.ones s.obj.m s.obj.m) _
    (show (B.randn s.obj.m s.obj.m s.draws).n_rows = s.obj.m from hB.randn_rows _ _ _)
    (show (B.randn s.obj.m s.obj.m s.draws).n_cols = s.obj.m from hB.randn_cols _ _ _))]
  rw [Exec.bind_done (mul_ok B _ s.obj.A _ (by
    show (B.randn s.obj.m s.obj.m s.draws).n_cols = s.obj.A.n_rows
    rw [hB.randn_cols, hm]))]
  rfl

/-- With the largest iteration count the test `i <= its` holds for every value of the
counter: the loop of the raw tall branch uses up every budget of steps. -/
theorem rawTallLoop_never_exits (B : Backend) (hB : ShapeContract B) (A : Mat)
    (htall : A.n_cols ≤ A.n_rows) :
    ∀ (fuel i : Nat) (Q R : Mat) (s : Machine), i < WORD →
      Q.n_rows = A.n_rows → Q.n_cols = A.n_cols →
      rawTallLoop B A (WORD - 1) fuel i Q R s =
        (Outcome.fault Fault.outOfFuel, { s with loopBodies := s.loopBodies + fuel }) := by
  intro fuel
  induction fuel with
  | zero =>
    intro i Q R s hi _ _
    unfold rawTallLoop
    rw [if_pos (by omega)]
    rfl
  | succ f ih =>
    intro i Q R s hi hQ hQc
    unfold rawTallLoop
    rw [if_pos (by omega)]
    rw [Exec.bind_done (rfl : tick s = (Outcome.done (), { s with loopBodies := s.loopBodies + 1 }))]
    rw [Exec.bind_done (mul_ok B Q.t A _ hQ)]
    have hX : A.n_cols = (B.lu (B.gemm Q.t A).t).1.n_rows := by
      rw [hB.lu_L_rows]
      show A.n_cols = (B.gemm Q.t A).n_cols
      rw [hB.gemm_cols]
    rw [Exec.bind_done (mul_ok B A _ _ hX)]
    have hYr : (B.gemm A (B.lu (B.gemm Q.t A).t).1).n_rows = A.n_rows := hB.gemm_rows _ _
    have hYc : (B.gemm A (B.lu (B.gemm Q.t A).t).1).n_cols = A.n_cols := by
      rw [hB.gemm_cols, hB.lu_L_cols]
      show min (B.gemm Q.t A).n_cols (B.gemm Q.t A).n_rows = A.n_cols
      rw [hB.gemm_cols, hB.gemm_rows]
      show min A.n_cols Q.n_cols = A.n_cols
      rw [hQc, min_self]
    have hG1 : (if i < WORD - 1 then B.lu (B.gemm A (B.lu (B.gemm Q.t A).t).1)
        else B.qr_econ (B.gemm A (B.lu (B.gemm Q.t A).t).1)).1.n_rows = A.n_rows := by
      split
      · rw [hB.lu_L_rows, hYr]
      · rw [hB.qr_Q_rows, hYr]
    have hG2 : (if i < WORD - 1 then B.lu (B.gemm A (B.lu (B.gemm Q.t A).t).1)
        else B.qr_econ (B.gemm A (B.lu (B.gemm Q.t A).t).1)).1.n_cols = A.n_cols := by
      split
      · rw [hB.lu_L_cols, hYr, hYc, min_eq_right htall]
      · rw [hB.qr_Q_cols, hYr, hYc, min_eq_right htall]
    rw [ih ((i + 1) % WORD) _ _ _ (Nat.mod_lt _ (by unfold WORD; decide)) hG1 hG2]
    have hcount : s.loopBodies + 1 + f = s.loopBodies + (f + 1) := by omega
    simp only [hcount]

/-- The loop of the raw tall branch does not consult the source of random matrices. -/
theorem rawTallLoop_randn (B : Backend) (r2 : Nat → Nat → List (Nat × Nat) → Mat) (A : Mat)
    (its : Nat) :
    ∀ (fuel i : Nat) (Q R : Mat),
      rawTallLoop { B with randn := r2 } A its fuel i Q R = rawTallLoop B A its fuel i Q R := by
  intro fuel
  induction fuel with
  | zero =>
    intro i Q R
    rfl
  | succ f ih =>
    intro i Q R
    unfold rawTallLoop
    simp only [ih]
    rfl

/-- When the branch taken gives the same result for two backends, so does `Run`. -/
theorem Run_congr_branch (B B2 : Backend) (fuel : Nat) (s : Machine)
    (h : (if s.obj.raw = true then rawBranch B2 fuel else centeredBranch B2 fuel) s =
      (if s.obj.raw = true then rawBranch B fuel else centeredBranch B fuel) s) :
    RandPCA.Run B2 fuel s = RandPCA.Run B fuel s := by
  unfold RandPCA.Run
  rw [Exec.bind_done (rfl : getObj s = (Outcome.done s.obj, s)),
    Exec.bind_done (rfl : getObj s = (Outcome.done s.obj, s))]
  cases hd : s.obj.algorithmDone with
  | true => simp only [Bool.not_true, Bool.false_eq_true, if_false]
  | false =>
    cases hA : sanityCheck_matrix s.obj.A with
    | false => simp only [Bool.not_false, if_true]
    | true =>
      simp only [Bool.not_false, Bool.not_true, if_true, Bool.false_eq_true, if_false]
      rw [Exec.bind_apply, Exec.bind_apply, h]

/-- When `Run` gives the same result for two backends, so does `GetOutputs`. -/
theorem GetOutputs_congr_Run (B B2 : Backend) (fuel : Nat) (s : Machine)
    (h : RandPCA.Run B2 fuel s = RandPCA.Run B fuel s) :
    RandPCA.GetOutputs B2 fuel s = RandPCA.GetOutputs B fuel s := by
  unfold RandPCA.GetOutputs
  rw [Exec.bind_done (rfl : getObj s = (Outcome.done s.obj, s)),
    Exec.bind_done (rfl : getObj s = (Outcome.done s.obj, s))]
  cases hd : s.obj.algorithmDone with
  | true => simp only [Bool.not_true, Bool.false_eq_true, if_false]
  | false =>
    simp only [Bool.not_false, if_true]
    rw [Exec.bind_apply, Exec.bind_apply, h]

/-- When the truncation completes, it leaves exactly one entry in `S`. -/
theorem truncateOutputs_done_S (s : Machine)
    (h : (truncateOutputs s).1 = Outcome.done ()) :
    (truncateOutputs s).2.obj.S.length = 1 := by
  unfold truncateOutputs at h ⊢
  rw [Exec.bind_done (rfl : getObj s = (Outcome.done s.obj, s))] at h ⊢
  rcases cols_cases s.obj.U 0 ((s.obj.k + WORD - 1) % WORD) s with h1 | ⟨X, h1⟩
  · rw [Exec.bind_fault h1] at h
    simp at h
  · rw [Exec.bind_done h1, Exec.bind_apply] at h ⊢
    simp only [setU] at h ⊢
    rcases cols_cases s.obj.V 0 ((s.obj.k + WORD - 1) % WORD)
        { s with obj := { s.obj with U := X } } with h2 | ⟨Y, h2⟩
    · rw [Exec.bind_fault h2] at h
      simp at h
    · rw [Exec.bind_done h2, Exec.bind_apply] at h ⊢
      simp only [setV] at h ⊢
      by_cases hc : (0 > (s.obj.k + WORD - 1) % WORD ∨
          (s.obj.k + WORD - 1) % WORD ≥ s.obj.S.length) ∨
          (0 > (s.obj.k + WORD - 1) % WORD ∨ (s.obj.k + WORD - 1) % WORD ≥ 1)
      · have hsub : ∀ t : Machine,
            submatVec s.obj.S 0 ((s.obj.k + WORD - 1) % WORD) 0
              ((s.obj.k + WORD - 1) % WORD) t = (Outcome.fault Fault.logicError, t) := by
          intro t
          unfold submatVec
          rw [if_pos hc]
          rfl
        rw [Exec.bind_fault (hsub _)] at h
        simp at h
      · have h0 : (s.obj.k + WORD - 1) % WORD = 0 := by omega
        have hlen : 1 ≤ s.obj.S.length := by omega
        have hsub : ∀ t : Machine,
            submatVec s.obj.S 0 ((s.obj.k + WORD - 1) % WORD) 0
              ((s.obj.k + WORD - 1) % WORD) t =
              (Outcome.done ⟨1, 1, s.obj.S.take 1⟩, t) := by
          intro t
          unfold submatVec
          rw [h0, if_neg (by omega)]
          rfl
        rw [Exec.bind_done (hsub _)]
        unfold assignS
        rw [if_pos rfl]
        show (s.obj.S.take 1).length = 1
        rw [List.length_take]
        omega

/-- When `Run` starts with the flag unset and returns, `S` holds exactly one entry. -/
theorem Run_done_S (B : Backend) (fuel : Nat) (s : Machine)
    (hdone : s.obj.algorithmDone = false)
    (h : (RandPCA.Run B fuel s).1 = Outcome.done ()) :
    (RandPCA.Run B fuel s).2.obj.S.length = 1 := by
  unfold RandPCA.Run at h ⊢
  rw [Exec.bind_done (rfl : getObj s = (Outcome.done s.obj, s))] at h ⊢
  simp only [hdone, Bool.not_false, if_true] at h ⊢
  cases hA : sanityCheck_matrix s.obj.A with
  | false =>
    rw [hA] at h
    simp [Exec.raise_apply] at h
  | true =>
    rw [hA] at h
    simp only [Bool.not_true, Bool.false_eq_true, if_false] at h ⊢
    rcases hbr : (if s.obj.raw = true then rawBranch B fuel else centeredBranch B fuel) s
      with ⟨o, s1⟩
    cases o with
    | fault e =>
      rw [Exec.bind_fault hbr] at h
      simp at h
    | done a =>
      rw [Exec.bind_done hbr, Exec.bind_apply] at h ⊢
      rcases htr : truncateOutputs s1 with ⟨o2, s2⟩
      rw [htr] at h
      cases o2 with
      | fault e =>
        simp at h
      | done b =>
        have hlen := truncateOutputs_done_S s1 (by rw [htr])
        rw [htr] at hlen
        exact hlen

theorem GetOutputs_of_Run_done (B : Backend) (fuel : Nat) (s s1 : Machine)
    (hdone : s.obj.algorithmDone = false)
    (hrun : RandPCA.Run B fuel s = (Outcome.done (), s1)) :
    RandPCA.GetOutputs B fuel s = (Outcome.done (s1.obj.U, s1.obj.S, s1.obj.V), s1) := by
  unfold RandPCA.GetOutputs
  rw [Exec.bind_done (rfl : getObj s = (Outcome.done s.obj, s))]
  simp only [hdone, Bool.not_false, if_true]
  rw [Exec.bind_done hrun]
  rfl

/-- From an unset flag `GetOutputs` returns exactly when `Run` does, in the same state. -/
theorem Run_of_GetOutputs_done (B : Backend) (fuel : Nat) (s s2 : Machine)
    (r : Mat × Vec × Mat) (hdone : s.obj.algorithmDone = false)
    (h : RandPCA.GetOutputs B fuel s = (Outcome.done r, s2)) :
    RandPCA.Run B fuel s = (Outcome.done (), s2) := by
  rcases hrun : RandPCA.Run B fuel s with ⟨o, s1⟩
  cases o with
  | fault e =>
    rw [GetOutputs_of_Run_fault B fuel s s1 e hdone hrun] at h
    simp at h
  | done a =>
    rw [GetOutputs_of_Run_done B fuel s s1 hdone hrun] at h
    simp only [Prod.mk.injEq] at h
    rw [h.2]

/-! ## The claims -/

/-- C1 (the code does the opposite): a matrix with at least one row and one column whose
entries are all finite and all at least zero is rejected. `sanityCheck_matrix` returns
false on it, and `SetInputsAndRun` ends with `exit(EXIT_FAILURE)` before it stores
anything. -/
theorem sanityCheck_rejects_nonnegative (M : Mat) (_hrows : 0 < M.n_rows) (_hcols : 0 < M.n_cols)
    (hfin : M.is_finite = true) (hpos : M.mem.all (fun x => Dbl.ge x Dbl.zero) = true) :
    sanityCheck_matrix M = false ∧
      ∀ (B : Backend) (fuel input_k : Nat) (input_raw : Bool) (input_its input_l : Nat)
        (isSparse : Bool) (s : Machine),
        RandPCA.SetInputsAndRun B fuel M input_k input_raw input_its input_l isSparse s =
          (Outcome.fault Fault.exitFailure, s) := by
  have hany : M.any_lt_zero = false := by
    unfold Mat.any_lt_zero
    rw [List.any_eq_false]
    intro x hx
    rw [List.all_eq_true] at hpos
    simp [Dbl.lt_zero_of_ge_zero x (hpos x hx)]
  have hs : sanityCheck_matrix M = false := by
    unfold sanityCheck_matrix
    simp [hfin, hany]
  exact ⟨hs, fun B fuel k raw its l sp s =>
    SetInputsAndRun_rejected B fuel M k raw its l sp s hs⟩

/-- Witness of C1: the 5 x 3 matrix of small positive integers. -/
theorem sanityCheck_rejects_nonnegative_witness :
    (0 < A5x3.n_rows ∧ 0 < A5x3.n_cols ∧ A5x3.is_finite = true ∧
      A5x3.mem.all (fun x => Dbl.ge x Dbl.zero) = true) ∧
    sanityCheck_matrix A5x3 = false ∧
    RandPCA.SetInputsAndRun sampleBackend 3 A5x3 2 true 2 4 true machine0 =
      (Outcome.fault Fault.exitFailure, machine0) :=
  ⟨by decide,
    (sanityCheck_rejects_nonnegative A5x3 (by decide) (by decide) (by decide) (by decide)).1,
    (sanityCheck_rejects_nonnegative A5x3 (by decide) (by decide) (by decide) (by decide)).2
      sampleBackend 3 2 true 2 4 true machine0⟩

/-- C2 (the code does the opposite): a finite matrix with at least one row and one column
that contains a negative entry is accepted. `sanityCheck_matrix` returns true on it, and
`SetInputsAndRun` stores the inputs and goes on to `Run`. -/
theorem sanityCheck_accepts_negative (M : Mat) (hrows : 0 < M.n_rows) (hcols : 0 < M.n_cols)
    (hfin : M.is_finite = true) (hneg : M.mem.any (fun x => Dbl.lt x Dbl.zero) = true) :
    sanityCheck_matrix M = true ∧
      ∀ (B : Backend) (fuel input_k : Nat) (input_raw : Bool) (input_its input_l : Nat)
        (isSparse : Bool) (s : Machine),
        RandPCA.SetInputsAndRun B fuel M input_k input_raw input_its input_l isSparse s =
          RandPCA.Run B fuel
            (storeInputs M input_k input_raw input_its input_l isSparse s).2 := by
  have hs : sanityCheck_matrix M = true := by
    unfold sanityCheck_matrix
    have h1 : M.any_lt_zero = true := hneg
    have h2 : (M.n_cols == 0) = false := by simp; omega
    have h3 : (M.n_rows == 0) = false := by simp; omega
    simp [hfin, h1, h2, h3]
  exact ⟨hs, fun B fuel k raw its l sp s =>
    SetInputsAndRun_accepted B fuel M k raw its l sp s hs⟩

/-- Witness of C2: the 1 x 1 matrix with the entry -1. -/
theorem sanityCheck_accepts_negative_witness :
    (0 < Aneg1x1.n_rows ∧ 0 < Aneg1x1.n_cols ∧ Aneg1x1.is_finite = true ∧
      Aneg1x1.mem.any (fun x => Dbl.lt x Dbl.zero) = true) ∧
    sanityCheck_matrix Aneg1x1 = true :=
  ⟨by decide,
    (sanityCheck_accepts_negative Aneg1x1 (by decide) (by decide) (by decide) (by decide)).1⟩

/-- C3 (outputs exist for rank 1 only): for a valid matrix with `m >= n` (accepted by the
sanity check, with `m` and `n` its extents), `raw = true`, a rank `1 <= k <= min(m, n)`
and any block size `l`, in the direct path and in the tall randomized branch alike (there
with an iteration count below the largest `size_t` value and a step budget that covers
the `its + 1` loop bodies): for `k = 1` `GetOutputs` returns `U` with `m` rows and one
column and `V` with `n` rows and one column; for `k >= 2` `Run` ends with the exception
of the truncation of `S` and `GetOutputs` ends with it too, so no output is returned; the
members `U` and `V`, truncated before the exception, are left with `k` columns. -/
theorem raw_tall_outputs_only_for_rank_one (B : Backend) (hB : ShapeContract B) (fuel : Nat)
    (s : Machine) (hdone : s.obj.algorithmDone = false) (hWF : s.obj.A.WF)
    (hA : sanityCheck_matrix s.obj.A = true)
    (hm : s.obj.m = s.obj.A.n_rows) (hn : s.obj.n = s.obj.A.n_cols)
    (hraw : s.obj.raw = true) (htall : s.obj.n ≤ s.obj.m)
    (hk1 : 1 ≤ s.obj.k) (hk2 : s.obj.k ≤ min s.obj.m s.obj.n)
    (hits : directPath s.obj.l s.obj.m s.obj.n = false →
      s.obj.its + 1 < WORD ∧ s.obj.its < fuel) :
    (s.obj.k = 1 →
      ∃ (U : Mat) (S : Vec) (V : Mat) (s2 : Machine),
        RandPCA.GetOutputs B fuel s = (Outcome.done (U, S, V), s2) ∧
        U.n_rows = s.obj.m ∧ U.n_cols = 1 ∧ V.n_rows = s.obj.n ∧ V.n_cols = 1) ∧
    (2 ≤ s.obj.k →
      (RandPCA.Run B fuel s).1 = Outcome.fault Fault.logicError ∧
      (RandPCA.GetOutputs B fuel s).1 = Outcome.fault Fault.logicError ∧
      (∀ r, (RandPCA.GetOutputs B fuel s).1 ≠ Outcome.done r) ∧
      (RandPCA.Run B fuel s).2.obj.U.n_cols = s.obj.k ∧
      (RandPCA.Run B fuel s).2.obj.V.n_cols = s.obj.k) := by
  obtain ⟨s1, hk, hUr, hVr, _, _, hrun⟩ :=
    Run_raw_tall B hB fuel s hdone hWF hA hm hn hraw htall hk1 hk2 hits
  constructor
  · intro h1
    rw [if_pos h1] at hrun
    refine ⟨_, _, _, _, GetOutputs_of_Run_done B fuel s _ hdone hrun, hUr, ?_, hVr, ?_⟩
    · show s1.obj.k = 1
      rw [hk, h1]
    · show s1.obj.k = 1
      rw [hk, h1]
  · intro h2
    rw [if_neg (by omega)] at hrun
    have hget := GetOutputs_of_Run_fault B fuel s _ _ hdone hrun
    rw [hget, hrun]
    refine ⟨rfl, rfl, fun r hr => ?_, hk, hk⟩
    simp at hr

/-- Witness of C3: rank 2 on the 3 x 3 sample matrix with `l = 4` (the direct path): no
output is returned. Rank 1 on the same matrix: the outputs are returned. -/
theorem raw_tall_outputs_only_for_rank_one_witness :
    (machineStored3.obj.algorithmDone = false ∧ machineStored3.obj.A.WF ∧
      sanityCheck_matrix machineStored3.obj.A = true ∧
      machineStored3.obj.m = machineStored3.obj.A.n_rows ∧
      machineStored3.obj.n = machineStored3.obj.A.n_cols ∧
      machineStored3.obj.raw = true ∧ machineStored3.obj.n ≤ machineStored3.obj.m ∧
      1 ≤ machineStored3.obj.k ∧
      machineStored3.obj.k ≤ min machineStored3.obj.m machineStored3.obj.n ∧
      machineStored3.obj.its + 1 < WORD ∧ machineStored3.obj.its < 3) ∧
    machineStored3.obj.k = 2 ∧
    (RandPCA.GetOutputs sampleBackend 3 machineStored3k1).1 =
      Outcome.done (machineDone.obj.U, machineDone.obj.S, machineDone.obj.V) ∧
    machineDone.obj.U.n_cols = 1 ∧
    ((RandPCA.Run sampleBackend 3 machineStored3).1 = Outcome.fault Fault.logicError ∧
      (RandPCA.GetOutputs sampleBackend 3 machineStored3).1 =
        Outcome.fault Fault.logicError ∧
      (∀ r, (RandPCA.GetOutputs sampleBackend 3 machineStored3).1 ≠ Outcome.done r) ∧
      (RandPCA.Run sampleBackend 3 machineStored3).2.obj.U.n_cols = machineStored3.obj.k ∧
      (RandPCA.Run sampleBackend 3 machineStored3).2.obj.V.n_cols = machineStored3.obj.k) :=
  ⟨⟨by decide, ⟨by decide, by decide⟩, by decide, by decide, by decide, by decide, by decide,
      by decide, by decide, by decide, by decide⟩,
    by decide, by decide, by decide,
    (raw_tall_outputs_only_for_rank_one sampleBackend sampleBackend_shape 3 machineStored3
      (by decide) ⟨by decide, by decide⟩ (by decide) (by decide) (by decide) (by decide)
      (by decide) (by decide) (by decide) (fun _ => ⟨by decide, by decide⟩)).2 (by decide)⟩

/-- C4 (the code throws instead): on a raw input with `m >= n` and a rank
`2 <= k <= min(m, n)`, in the direct path and in the tall randomized branch alike, the
statement `S = S(span(0, k - 1), span(0, k - 1))` addresses `k` columns of the one-column
vector `S` and throws. `Run` ends with that exception, `S` keeps all `min(m, n)` singular
values of the final SVD, `algorithmDone` stays false, and `GetOutputs` ends with the same
exception and returns nothing. -/
theorem S_truncation_throws (B : Backend) (hB : ShapeContract B) (fuel : Nat) (s : Machine)
    (hdone : s.obj.algorithmDone = false) (hWF : s.obj.A.WF)
    (hA : sanityCheck_matrix s.obj.A = true)
    (hm : s.obj.m = s.obj.A.n_rows) (hn : s.obj.n = s.obj.A.n_cols)
    (hraw : s.obj.raw = true) (htall : s.obj.n ≤ s.obj.m)
    (hk1 : 2 ≤ s.obj.k) (hk2 : s.obj.k ≤ min s.obj.m s.obj.n)
    (hits : directPath s.obj.l s.obj.m s.obj.n = false →
      s.obj.its + 1 < WORD ∧ s.obj.its < fuel) :
    (RandPCA.Run B fuel s).1 = Outcome.fault Fault.logicError ∧
    (RandPCA.Run B fuel s).2.obj.S.length = min s.obj.m s.obj.n ∧
    (RandPCA.Run B fuel s).2.obj.algorithmDone = false ∧
    (RandPCA.GetOutputs B fuel s).1 = Outcome.fault Fault.logicError := by
  obtain ⟨s1, _, _, _, hSl, hd, hrun⟩ :=
    Run_raw_tall B hB fuel s hdone hWF hA hm hn hraw htall (by omega) hk2 hits
  rw [if_neg (by omega)] at hrun
  rw [GetOutputs_of_Run_fault B fuel s _ _ hdone hrun, hrun]
  refine ⟨rfl, ?_, ?_, rfl⟩
  · show s1.obj.S.length = min s.obj.m s.obj.n
    rw [hSl, min_eq_right htall]
  · show s1.obj.algorithmDone = false
    rw [hd, hdone]

/-- Witness of C4: rank 2 on the 3 x 3 sample matrix; `S` is left with 3 entries. -/
theorem S_truncation_throws_witness :
    (machineStored3.obj.algorithmDone = false ∧ machineStored3.obj.A.WF ∧
      sanityCheck_matrix machineStored3.obj.A = true ∧
      machineStored3.obj.m = machineStored3.obj.A.n_rows ∧
      machineStored3.obj.n = machineStored3.obj.A.n_cols ∧
      machineStored3.obj.raw = true ∧ machineStored3.obj.n ≤ machineStored3.obj.m ∧
      2 ≤ machineStored3.obj.k ∧
      machineStored3.obj.k ≤ min machineStored3.obj.m machineStored3.obj.n ∧
      machineStored3.obj.its + 1 < WORD ∧ machineStored3.obj.its < 3) ∧
    machineStored3.obj.k = 2 ∧
    (RandPCA.Run sampleBackend 3 machineStored3).1 = Outcome.fault Fault.logicError ∧
    (RandPCA.Run sampleBackend 3 machineStored3).2.obj.S.length = 3 ∧
    (RandPCA.Run sampleBackend 3 machineStored3).2.obj.algorithmDone = false ∧
    (RandPCA.GetOutputs sampleBackend 3 machineStored3).1 = Outcome.fault Fault.logicError :=
  ⟨⟨by decide, ⟨by decide, by decide⟩, by decide, by decide, by decide, by decide, by decide,
      by decide, by decide, by decide, by decide⟩,
    by decide,
    S_truncation_throws sampleBackend sampleBackend_shape 3 machineStored3 (by decide)
      ⟨by decide, by decide⟩ (by decide) (by decide) (by decide) (by decide) (by decide)
      (by decide) (by decide) (fun _ => ⟨by decide, by decide⟩)⟩

/-- C5 (the code misses `S` for `k >= 2`): on a raw input with `l >= m / 1.25` or
`l >= n / 1.25` and a rank `1 <= k <= min(m, n)`, `Run` draws no random matrix and leaves in
`U` and `V` the leftmost `k` columns of the factors of the economy SVD of `A`. For `k = 1` it
leaves in `S` the first singular value and returns. For `k >= 2` it leaves in `S` all the
singular values, not the first `k`, and ends with the exception of the truncation of `S`. -/
theorem direct_path_result (B : Backend) (hB : ShapeContract B) (fuel : Nat) (s : Machine)
    (hdone : s.obj.algorithmDone = false) (hWF : s.obj.A.WF)
    (hA : sanityCheck_matrix s.obj.A = true)
    (hm : s.obj.m = s.obj.A.n_rows) (hn : s.obj.n = s.obj.A.n_cols)
    (hraw : s.obj.raw = true) (hdir : directPath s.obj.l s.obj.m s.obj.n = true)
    (hk1 : 1 ≤ s.obj.k) (hk2 : s.obj.k ≤ min s.obj.m s.obj.n) :
    (RandPCA.Run B fuel s).2.draws = s.draws ∧
    (RandPCA.Run B fuel s).2.obj.U = (B.svd_econ s.obj.A).1.head_cols s.obj.k ∧
    (RandPCA.Run B fuel s).2.obj.V = (B.svd_econ s.obj.A).2.2.head_cols s.obj.k ∧
    (RandPCA.Run B fuel s).2.obj.S =
      (if s.obj.k = 1 then (B.svd_econ s.obj.A).2.1.take s.obj.k
        else (B.svd_econ s.obj.A).2.1) ∧
    (RandPCA.Run B fuel s).1 =
      if s.obj.k = 1 then Outcome.done () else Outcome.fault Fault.logicError := by
  rw [Run_raw_direct B hB fuel s hdone hWF hA hm hn hraw hdir hk1 hk2]
  by_cases h : s.obj.k = 1
  · rw [if_pos h, if_pos h, if_pos h]
    refine ⟨rfl, rfl, rfl, ?_, rfl⟩
    show List.take 1 _ = List.take s.obj.k _
    rw [h]
  · rw [if_neg h, if_neg h, if_neg h]
    exact ⟨rfl, rfl, rfl, rfl, rfl⟩

/-- Witness of C5: rank 2 on the 3 x 3 sample matrix with `l = 4`; `S` is left with the
three singular values of the sample SVD, and their first two are another vector. -/
theorem direct_path_result_witness :
    (machineStored3.obj.algorithmDone = false ∧ machineStored3.obj.A.WF ∧
      sanityCheck_matrix machineStored3.obj.A = true ∧
      machineStored3.obj.m = machineStored3.obj.A.n_rows ∧
      machineStored3.obj.n = machineStored3.obj.A.n_cols ∧
      machineStored3.obj.raw = true ∧
      directPath machineStored3.obj.l machineStored3.obj.m machineStored3.obj.n = true ∧
      1 ≤ machineStored3.obj.k ∧
      machineStored3.obj.k ≤ min machineStored3.obj.m machineStored3.obj.n) ∧
    (RandPCA.Run sampleBackend 3 machineStored3).2.obj.S = [Dbl.one, Dbl.one, Dbl.one] ∧
    (sampleBackend.svd_econ machineStored3.obj.A).2.1.take 2 = [Dbl.one, Dbl.one] ∧
    (RandPCA.Run sampleBackend 3 machineStored3).1 = Outcome.fault Fault.logicError :=
  ⟨⟨by decide, ⟨by decide, by decide⟩, by decide, by decide, by decide, by decide, by decide,
      by decide, by decide⟩,
    (direct_path_result sampleBackend sampleBackend_shape 3 machineStored3 (by decide)
      ⟨by decide, by decide⟩ (by decide) (by decide) (by decide) (by decide) (by decide)
      (by decide) (by decide)).2.2.2.1,
    by decide,
    (direct_path_result sampleBackend sampleBackend_shape 3 machineStored3 (by decide)
      ⟨by decide, by decide⟩ (by decide) (by decide) (by decide) (by decide) (by decide)
      (by decide) (by decide)).2.2.2.2⟩

/-- C6: once `algorithmDone` is true, `Run` returns at once and leaves the whole state as
it is (every member of the object, the record of random draws, the loop count), and
`GetOutputs` returns the stored `(U, S, V)` and leaves the whole state as it is. The state
after the call is the state before it, so the same holds for every later call. -/
theorem done_makes_calls_inert (B : Backend) (fuel : Nat) (s : Machine)
    (hdone : s.obj.algorithmDone = true) :
    RandPCA.Run B fuel s = (Outcome.done (), s) ∧
      RandPCA.GetOutputs B fuel s = (Outcome.done (s.obj.U, s.obj.S, s.obj.V), s) := by
  constructor
  · unfold RandPCA.Run
    rw [Exec.bind_done (rfl : getObj s = (Outcome.done s.obj, s))]
    simp [hdone, Exec.pure_apply]
  · unfold RandPCA.GetOutputs
    rw [Exec.bind_done (rfl : getObj s = (Outcome.done s.obj, s))]
    simp [hdone, Exec.pure_apply, Exec.bind_apply, getObj]

/-- Witness of C6: the state left by a completed run. -/
theorem done_makes_calls_inert_witness :
    machineDone.obj.algorithmDone = true ∧
    RandPCA.Run sampleBackend 3 machineDone = (Outcome.done (), machineDone) ∧
    RandPCA.GetOutputs sampleBackend 3 machineDone =
      (Outcome.done (machineDone.obj.U, machineDone.obj.S, machineDone.obj.V), machineDone) :=
  ⟨by decide, done_makes_calls_inert sampleBackend 3 machineDone (by decide)⟩

/-- C7 (no ordered vector of `k` values is returned): from an unset flag and with any
stored rank other than 1 (so for every valid `k >= 2`), in every branch, `Run` does not
return and `GetOutputs` does not return, so no `S` is returned; every `S` that `GetOutputs`
does return belongs to rank 1 and has exactly one entry, which is not negative when the
economy SVD returns its singular values in descending order, none of them negative, and the
member `S` was so ordered before the call (a new object has the empty `S`). -/
theorem returned_S_single_entry (B : Backend) (hB : SvdOrdered B) (fuel : Nat) (s : Machine)
    (hdone : s.obj.algorithmDone = false) (hkW : s.obj.k < WORD)
    (hS : Descending s.obj.S ∧ NonNeg s.obj.S) :
    (s.obj.k ≠ 1 →
      (RandPCA.Run B fuel s).1 ≠ Outcome.done () ∧
      ∀ r, (RandPCA.GetOutputs B fuel s).1 ≠ Outcome.done r) ∧
    (∀ (U : Mat) (S : Vec) (V : Mat) (s2 : Machine),
      RandPCA.GetOutputs B fuel s = (Outcome.done (U, S, V), s2) →
        s.obj.k = 1 ∧ S.length = 1 ∧ NonNeg S) := by
  constructor
  · intro hk
    have hrun := Run_returns_only_rank_one B fuel s hdone hkW hk
    refine ⟨hrun, fun r hr => ?_⟩
    have hget : RandPCA.GetOutputs B fuel s =
        (Outcome.done r, (RandPCA.GetOutputs B fuel s).2) := by
      rw [← hr]
    apply hrun
    rw [Run_of_GetOutputs_done B fuel s _ r hdone hget]
  · intro U S V s2 hget
    have hrun := Run_of_GetOutputs_done B fuel s s2 (U, S, V) hdone hget
    have hk : s.obj.k = 1 := by
      by_contra hk
      exact Run_returns_only_rank_one B fuel s hdone hkW hk (by rw [hrun])
    have h3 := GetOutputs_done_eq B fuel s s2 (U, S, V) hget
    have h4 : S = s2.obj.S := congrArg (fun r => r.2.1) h3
    have hlen := Run_done_S B fuel s hdone (by rw [hrun])
    have hord := keeps_Run ordered_stable B hB fuel s hS
    rw [hrun] at hlen hord
    rw [h4]
    exact ⟨hk, hlen, hord.2⟩

/-- Witness of C7: rank 2 on the 3 x 3 sample matrix, from a newly constructed object:
nothing is returned. Rank 1 on the same matrix: the single value 1 is returned. -/
theorem returned_S_single_entry_witness :
    (machineStored3.obj.algorithmDone = false ∧ machineStored3.obj.k < WORD ∧
      Descending machineStored3.obj.S ∧ NonNeg machineStored3.obj.S) ∧
    machineStored3.obj.k = 2 ∧
    (RandPCA.GetOutputs sampleBackend 3 machineStored3k1).1 =
      Outcome.done (machineDone.obj.U, [Dbl.one], machineDone.obj.V) ∧
    ((RandPCA.Run sampleBackend 3 machineStored3).1 ≠ Outcome.done () ∧
      ∀ r, (RandPCA.GetOutputs sampleBackend 3 machineStored3).1 ≠ Outcome.done r) :=
  ⟨⟨by decide, by decide, by decide, by decide⟩, by decide, by decide,
    (returned_S_single_entry sampleBackend sampleBackend_ordered 3 machineStored3 (by decide)
      (by decide) ⟨by decide, by decide⟩).1 (by decide)⟩

/-- C8: on an accepted matrix `SetInputsAndRun` stores `k = input_k` when `input_k` is at
most the smaller extent of the matrix and the smaller extent otherwise, for every way the
call ends afterwards. -/
theorem stored_rank (B : Backend) (fuel : Nat) (input_A : Mat) (input_k : Nat)
    (input_raw : Bool) (input_its input_l : Nat) (isSparse : Bool) (s : Machine)
    (hA : sanityCheck_matrix input_A = true) :
    (RandPCA.SetInputsAndRun B fuel input_A input_k input_raw input_its input_l isSparse
        s).2.obj.k =
      if input_k ≤ min input_A.n_rows input_A.n_cols then input_k
      else min input_A.n_rows input_A.n_cols := by
  rw [SetInputsAndRun_accepted B fuel input_A input_k input_raw input_its input_l isSparse s hA]
  rw [(Run_sameConfig B fuel _).2.1, storeInputs_apply]
  simp only [min_comm input_A.n_cols input_A.n_rows]
  split <;> split <;> first | rfl | omega

/-- Witness of C8: the requested rank 1000 on a 10 x 10 matrix gives `k = 10`. -/
theorem stored_rank_witness :
    sanityCheck_matrix A10x10 = true ∧
    (RandPCA.SetInputsAndRun sampleBackend 4 A10x10 1000 true 2 12 true machine0).2.obj.k =
      10 :=
  ⟨by decide, by
    have h := stored_rank sampleBackend 4 A10x10 1000 true 2 12 true machine0 (by decide)
    rw [h]
    decide⟩

/-- C9 (the code misses the case): on an accepted matrix the requested rank 0 is stored as
`k = 0`, below the least valid rank 1; the index `k - 1` of the truncation in `Run` then
wraps around, and when the algorithm had not run before the call does not return. -/
theorem stored_rank_zero (B : Backend) (fuel : Nat) (input_A : Mat) (input_raw : Bool)
    (input_its input_l : Nat) (isSparse : Bool) (s : Machine)
    (hA : sanityCheck_matrix input_A = true) :
    (RandPCA.SetInputsAndRun B fuel input_A 0 input_raw input_its input_l isSparse
        s).2.obj.k = 0 ∧
    (s.obj.algorithmDone = false →
      (RandPCA.SetInputsAndRun B fuel input_A 0 input_raw input_its input_l isSparse s).1 ≠
        Outcome.done ()) := by
  rw [SetInputsAndRun_accepted B fuel input_A 0 input_raw input_its input_l isSparse s hA]
  constructor
  · rw [(Run_sameConfig B fuel _).2.1, storeInputs_apply]
    simp
  · intro hdone
    refine Run_returns_only_rank_one B fuel _ ?_ ?_ ?_
    · rw [storeInputs_apply]
      exact hdone
    · rw [storeInputs_apply]
      simp [WORD]
    · rw [storeInputs_apply]
      simp

/-- Witness of C9: the requested rank 0 on the 3 x 3 sample matrix. -/
theorem stored_rank_zero_witness :
    sanityCheck_matrix A3x3 = true ∧
    (RandPCA.SetInputsAndRun sampleBackend 3 A3x3 0 true 2 4 true machine0).2.obj.k = 0 ∧
    (RandPCA.SetInputsAndRun sampleBackend 3 A3x3 0 true 2 4 true machine0).1 =
      Outcome.fault Fault.logicError :=
  ⟨by decide,
    (stored_rank_zero sampleBackend 3 A3x3 true 2 4 true machine0 (by decide)).1, by decide⟩

/-- C10: on an accepted matrix `SetInputsAndRun` stores `l = input_l` when `input_l` is at
least the stored (already clamped) rank `k` and `l = k + 2` otherwise, so the stored `l` is
at least the stored `k`, for every way the call ends afterwards. -/
theorem stored_block_size (B : Backend) (fuel : Nat) (input_A : Mat) (input_k : Nat)
    (input_raw : Bool) (input_its input_l : Nat) (isSparse : Bool) (s : Machine)
    (hWF : input_A.WF) (hA : sanityCheck_matrix input_A = true) :
    (RandPCA.SetInputsAndRun B fuel input_A input_k input_raw input_its input_l isSparse
        s).2.obj.l =
      (if input_l ≥
          (RandPCA.SetInputsAndRun B fuel input_A input_k input_raw input_its input_l isSparse
            s).2.obj.k
        then input_l
        else (RandPCA.SetInputsAndRun B fuel input_A input_k input_raw input_its input_l
            isSparse s).2.obj.k + 2) ∧
    (RandPCA.SetInputsAndRun B fuel input_A input_k input_raw input_its input_l isSparse
        s).2.obj.k ≤
      (RandPCA.SetInputsAndRun B fuel input_A input_k input_raw input_its input_l isSparse
        s).2.obj.l := by
  rw [SetInputsAndRun_accepted B fuel input_A input_k input_raw input_its input_l isSparse s hA]
  rw [(Run_sameConfig B fuel _).2.1, (Run_sameConfig B fuel _).2.2.2.1, storeInputs_apply]
  have hsmall := Mat.min_extent_small input_A hWF
  simp only
  generalize hk : (if input_k > min input_A.n_cols input_A.n_rows then
      min input_A.n_cols input_A.n_rows else input_k) = k
  have hk2 : k + 2 < WORD := by
    rw [← hk]
    split <;> omega
  rw [Nat.mod_eq_of_lt hk2]
  constructor
  · split <;> split <;> first | rfl | omega
  · split <;> omega

/-- Witness of C10: `input_l = 0` with `k = 6` on a 6 x 6 matrix gives `l = 8`. -/
theorem stored_block_size_witness :
    (A6x6.WF ∧ sanityCheck_matrix A6x6 = true) ∧
    (RandPCA.SetInputsAndRun sampleBackend 4 A6x6 6 true 2 0 true machine0).2.obj.k = 6 ∧
    (RandPCA.SetInputsAndRun sampleBackend 4 A6x6 6 true 2 0 true machine0).2.obj.l = 8 ∧
    (RandPCA.SetInputsAndRun sampleBackend 4 A6x6 6 true 2 0 true machine0).2.obj.k ≤
      (RandPCA.SetInputsAndRun sampleBackend 4 A6x6 6 true 2 0 true machine0).2.obj.l :=
  ⟨⟨⟨by decide, by decide⟩, by decide⟩, by decide, by decide,
    (stored_block_size sampleBackend 4 A6x6 6 true 2 0 true machine0
      ⟨by decide, by decide⟩ (by decide)).2⟩

/-- C11 (the code contradicts its doc comment): without an explicit block size the
argument is the constant 8, so on an accepted matrix the stored `l` is `k + 2` when the
stored rank `k` is above 8 and 8 otherwise; it equals `k + 2` only for `k = 6` and for
`k > 8`. -/
theorem default_block_size (B : Backend) (fuel : Nat) (input_A : Mat) (input_k : Nat)
    (input_raw : Bool) (input_its : Nat) (isSparse : Bool) (s : Machine)
    (hWF : input_A.WF) (hA : sanityCheck_matrix input_A = true) :
    (RandPCA.SetInputsAndRun B fuel input_A input_k input_raw input_its default_input_l
        isSparse s).2.obj.l =
      (if 8 <
          (RandPCA.SetInputsAndRun B fuel input_A input_k input_raw input_its default_input_l
            isSparse s).2.obj.k
        then (RandPCA.SetInputsAndRun B fuel input_A input_k input_raw input_its
            default_input_l isSparse s).2.obj.k + 2
        else 8) ∧
    ((RandPCA.SetInputsAndRun B fuel input_A input_k input_raw input_its default_input_l
        isSparse s).2.obj.l =
      (RandPCA.SetInputsAndRun B fuel input_A input_k input_raw input_its default_input_l
        isSparse s).2.obj.k + 2 ↔
      ((RandPCA.SetInputsAndRun B fuel input_A input_k input_raw input_its default_input_l
          isSparse s).2.obj.k = 6 ∨
        8 < (RandPCA.SetInputsAndRun B fuel input_A input_k input_raw input_its
          default_input_l isSparse s).2.obj.k)) := by
  rw [SetInputsAndRun_accepted B fuel input_A input_k input_raw input_its default_input_l
    isSparse s hA]
  rw [(Run_sameConfig B fuel _).2.1, (Run_sameConfig B fuel _).2.2.2.1, storeInputs_apply]
  have hsmall := Mat.min_extent_small input_A hWF
  simp only [default_input_l]
  generalize hk : (if input_k > min input_A.n_cols input_A.n_rows then
      min input_A.n_cols input_A.n_rows else input_k) = k
  have hk2 : k + 2 < WORD := by
    rw [← hk]
    split <;> omega
  rw [Nat.mod_eq_of_lt hk2]
  constructor
  · split <;> rfl
  · split <;> omega

/-- Witness of C11: the 3 x 3 sample matrix with the default rank 6 (clamped to 3) and the
default block size; the stored `l` is 8, not 5. -/
theorem default_block_size_witness :
    (A3x3.WF ∧ sanityCheck_matrix A3x3 = true) ∧
    (RandPCA.SetInputsAndRun sampleBackend 3 A3x3 default_input_k true default_input_its
        default_input_l default_isSparse machine0).2.obj.k = 3 ∧
    (RandPCA.SetInputsAndRun sampleBackend 3 A3x3 default_input_k true default_input_its
        default_input_l default_isSparse machine0).2.obj.l = 8 ∧
    ((RandPCA.SetInputsAndRun sampleBackend 3 A3x3 default_input_k true default_input_its
        default_input_l default_isSparse machine0).2.obj.l =
      (RandPCA.SetInputsAndRun sampleBackend 3 A3x3 default_input_k true default_input_its
        default_input_l default_isSparse machine0).2.obj.k + 2 ↔
      ((RandPCA.SetInputsAndRun sampleBackend 3 A3x3 default_input_k true default_input_its
          default_input_l default_isSparse machine0).2.obj.k = 6 ∨
        8 < (RandPCA.SetInputsAndRun sampleBackend 3 A3x3 default_input_k true
          default_input_its default_input_l default_isSparse machine0).2.obj.k)) :=
  ⟨⟨by decide, by decide⟩, by decide, by decide,
    (default_block_size sampleBackend 3 A3x3 default_input_k true default_input_its
      default_isSparse machine0 (by decide) (by decide)).2⟩

/-- C12 (the test can never fire): the parameter `input_its` has the type `size_t`, so a
negative argument `z` arrives as `2^64 + z` and the test `input_its < 0` is false; on an
accepted matrix that value is stored as `its`, and it is at least `2^63`, never 2. -/
theorem negative_its_stored_wrapped (B : Backend) (fuel : Nat) (input_A : Mat) (input_k : Nat)
    (input_raw : Bool) (z : Int) (input_l : Nat) (isSparse : Bool) (s : Machine)
    (hA : sanityCheck_matrix input_A = true) (hneg : z < 0) (hmin : -(2 ^ 63 : Int) ≤ z) :
    (RandPCA.SetInputsAndRun B fuel input_A input_k input_raw (to_size_t z) input_l isSparse
        s).2.obj.its = to_size_t z ∧
    ((to_size_t z : Nat) : Int) = 2 ^ 64 + z ∧
    2 ^ 63 ≤ (RandPCA.SetInputsAndRun B fuel input_A input_k input_raw (to_size_t z) input_l
        isSparse s).2.obj.its := by
  have hz : ((to_size_t z : Nat) : Int) = 2 ^ 64 + z := by
    unfold to_size_t WORD
    omega
  have hstored : (RandPCA.SetInputsAndRun B fuel input_A input_k input_raw (to_size_t z)
      input_l isSparse s).2.obj.its = to_size_t z := by
    rw [SetInputsAndRun_accepted B fuel input_A input_k input_raw (to_size_t z) input_l
      isSparse s hA]
    rw [(Run_sameConfig B fuel _).2.2.1, storeInputs_apply]
    simp
  refine ⟨hstored, hz, ?_⟩
  rw [hstored]
  omega

/-- Witness of C12: the argument -1 on the 3 x 3 sample matrix is stored as `2^64 - 1`. -/
theorem negative_its_stored_wrapped_witness :
    (sanityCheck_matrix A3x3 = true ∧ (-1 : Int) < 0 ∧ -(2 ^ 63 : Int) ≤ -1) ∧
    to_size_t (-1) = 18446744073709551615 ∧
    (RandPCA.SetInputsAndRun sampleBackend 3 A3x3 1 true (to_size_t (-1)) 4 true
        machine0).2.obj.its = to_size_t (-1) :=
  ⟨⟨by decide, by decide, by decide⟩, by decide,
    (negative_its_stored_wrapped sampleBackend 3 A3x3 1 true (-1) 4 true machine0 (by decide)
      (by decide) (by decide)).1⟩

/-- C13: a matrix with a NaN or an infinite entry fails the sanity check, and
`SetInputsAndRun` ends with `exit(EXIT_FAILURE)` in the state in which it was called: the
stored matrix, the parameters, the outputs and everything else are as before. -/
theorem nonfinite_matrix_rejected_first (M : Mat)
    (hbad : ∃ x ∈ M.mem, x = Dbl.nan ∨ x = Dbl.posInf ∨ x = Dbl.negInf) :
    sanityCheck_matrix M = false ∧
      ∀ (B : Backend) (fuel input_k : Nat) (input_raw : Bool) (input_its input_l : Nat)
        (isSparse : Bool) (s : Machine),
        RandPCA.SetInputsAndRun B fuel M input_k input_raw input_its input_l isSparse s =
          (Outcome.fault Fault.exitFailure, s) := by
  have hfin : M.is_finite = false := by
    unfold Mat.is_finite
    rw [List.all_eq_false]
    obtain ⟨x, hx, hcase⟩ := hbad
    refine ⟨x, hx, ?_⟩
    rcases hcase with h | h | h <;> rw [h] <;> simp [Dbl.isFinite]
  have hs : sanityCheck_matrix M = false := by
    unfold sanityCheck_matrix
    simp [hfin]
  exact ⟨hs, fun B fuel k raw its l sp s =>
    SetInputsAndRun_rejected B fuel M k raw its l sp s hs⟩

/-- Witness of C13: a 2 x 2 matrix with a NaN entry, offered to an object that holds the
results of an earlier run. -/
theorem nonfinite_matrix_rejected_first_witness :
    (∃ x ∈ Anan2x2.mem, x = Dbl.nan ∨ x = Dbl.posInf ∨ x = Dbl.negInf) ∧
    sanityCheck_matrix Anan2x2 = false ∧
    RandPCA.SetInputsAndRun sampleBackend 3 Anan2x2 1 true 2 4 true machineDone =
      (Outcome.fault Fault.exitFailure, machineDone) :=
  ⟨⟨Dbl.nan, by decide, Or.inl rfl⟩,
    (nonfinite_matrix_rejected_first Anan2x2 ⟨Dbl.nan, by decide, Or.inl rfl⟩).1,
    (nonfinite_matrix_rejected_first Anan2x2 ⟨Dbl.nan, by decide, Or.inl rfl⟩).2
      sampleBackend 3 1 true 2 4 true machineDone⟩

/-- C14: a matrix with zero rows or zero columns fails the sanity check, whatever its
memory holds. -/
theorem empty_matrix_rejected (M : Mat) (hempty : M.n_rows = 0 ∨ M.n_cols = 0) :
    sanityCheck_matrix M = false := by
  unfold sanityCheck_matrix
  split
  · rfl
  · split
    · rfl
    · have h : (M.n_cols == 0 || M.n_rows == 0) = true := by
        rcases hempty with h | h <;> simp [h]
      rw [if_pos h]

/-- Witness of C14: the default-constructed 0 x 0 matrix. -/
theorem empty_matrix_rejected_witness :
    (Mat.empty.n_rows = 0 ∨ Mat.empty.n_cols = 0) ∧ sanityCheck_matrix Mat.empty = false :=
  ⟨Or.inl rfl, empty_matrix_rejected Mat.empty (Or.inl rfl)⟩

/-- C15 (the code throws on a matrix that is not square): with `raw = false` in the direct
path the code forms `A - arma::ones(m, m) * c` with `c = arma::accu(A) / m`. For `m = n` the
economy SVD receives the matrix with the extents of `A` whose entries are those of `A`
minus `c * 1`. For `m != n` the difference of an `m x n` and an `m x m` matrix throws:
`Run` ends with that exception in the state in which it was called, and the SVD receives
nothing. -/
theorem centered_direct_path (B : Backend) (fuel : Nat) (s : Machine)
    (hdone : s.obj.algorithmDone = false) (hWF : s.obj.A.WF)
    (hA : sanityCheck_matrix s.obj.A = true)
    (hm : s.obj.m = s.obj.A.n_rows) (hn : s.obj.n = s.obj.A.n_cols)
    (hraw : s.obj.raw = false) (hdir : directPath s.obj.l s.obj.m s.obj.n = true) :
    (s.obj.m ≠ s.obj.n → RandPCA.Run B fuel s = (Outcome.fault Fault.logicError, s)) ∧
    (s.obj.m = s.obj.n →
      centeredBranch B fuel s = svdDirect B (centeredMatrix B s.obj.A s.obj.m) s ∧
      (centeredMatrix B s.obj.A s.obj.m).n_rows = s.obj.m ∧
      (centeredMatrix B s.obj.A s.obj.m).n_cols = s.obj.n ∧
      (centeredMatrix B s.obj.A s.obj.m).mem =
        s.obj.A.mem.map (fun x =>
          B.fsub x (B.fmul (B.fdiv (B.accu s.obj.A) (B.ofUword s.obj.m)) Dbl.one))) := by
  constructor
  · intro hne
    refine Run_of_branch_fault B fuel s s Fault.logicError hdone hA ?_
    rw [hraw]
    simp only [Bool.false_eq_true, if_false]
    rw [centeredBranch_direct B fuel s hm hn hdir, if_neg hne]
  · intro hsq
    refine ⟨?_, hm.symm, hn.symm, ?_⟩
    · rw [centeredBranch_direct B fuel s hm hn hdir, if_pos hsq]
    · unfold centeredMatrix scalarTimes Mat.ones Mat.const
      simp only [List.map_replicate]
      refine zipWith_replicate_eq_map B.fsub _ s.obj.A.mem _ ?_
      rw [hWF.1, ← hm, ← hn, ← hsq]

/-- Witness of C15: rank 1 on the 2 x 3 sample matrix with `raw = false` and `l = 4`. -/
theorem centered_direct_path_witness :
    (machineCenteredDirect2x3.obj.algorithmDone = false ∧ machineCenteredDirect2x3.obj.A.WF ∧
      sanityCheck_matrix machineCenteredDirect2x3.obj.A = true ∧
      machineCenteredDirect2x3.obj.m = machineCenteredDirect2x3.obj.A.n_rows ∧
      machineCenteredDirect2x3.obj.n = machineCenteredDirect2x3.obj.A.n_cols ∧
      machineCenteredDirect2x3.obj.raw = false ∧
      directPath machineCenteredDirect2x3.obj.l machineCenteredDirect2x3.obj.m
        machineCenteredDirect2x3.obj.n = true ∧
      machineCenteredDirect2x3.obj.m ≠ machineCenteredDirect2x3.obj.n) ∧
    RandPCA.Run sampleBackend 3 machineCenteredDirect2x3 =
      (Outcome.fault Fault.logicError, machineCenteredDirect2x3) :=
  ⟨⟨by decide, by decide, by decide, by decide, by decide, by decide, by decide, by decide⟩,
    (centered_direct_path sampleBackend 3 machineCenteredDirect2x3 (by decide) (by decide)
      (by decide) (by decide) (by decide) (by decide) (by decide)).1 (by decide)⟩

/-- C16 (the code throws in the first loop body): on an accepted matrix with `m < n`,
`raw = true` and `l` below the threshold of the direct path, the wide branch draws an
`m x m` matrix, replaces `Q` by the `m x m` factor of `A` (`lu(Q, R, A)` or
`qr_econ(Q, R, A)`) and enters the loop, whose first statement `Q = A * Q` multiplies an
`m x n` by an `m x m` matrix and throws. `Run` ends with that exception; `U`, `V`, `S` and
`algorithmDone` are as before the call. -/
theorem raw_wide_product_mismatch (B : Backend) (hB : ShapeContract B) (fuel : Nat)
    (s : Machine) (hdone : s.obj.algorithmDone = false)
    (hA : sanityCheck_matrix s.obj.A = true)
    (hm : s.obj.m = s.obj.A.n_rows) (hn : s.obj.n = s.obj.A.n_cols)
    (hraw : s.obj.raw = true) (hdir : directPath s.obj.l s.obj.m s.obj.n = false)
    (hwide : s.obj.m < s.obj.n) (hfuel : 0 < fuel) :
    RandPCA.Run B fuel s =
      (Outcome.fault Fault.logicError,
        { s with draws := (s.obj.m, s.obj.m) :: s.draws, loopBodies := s.loopBodies + 1 }) := by
  refine Run_of_branch_fault B fuel s _ Fault.logicError hdone hA ?_
  rw [if_pos hraw]
  exact rawBranch_wide B hB fuel s hm hn hdir hwide hfuel

/-- Witness of C16: rank 1 on the 2 x 3 sample matrix with `raw = true` and `l = 1`. -/
theorem raw_wide_product_mismatch_witness :
    (machineWide2x3.obj.algorithmDone = false ∧
      sanityCheck_matrix machineWide2x3.obj.A = true ∧
      machineWide2x3.obj.m = machineWide2x3.obj.A.n_rows ∧
      machineWide2x3.obj.n = machineWide2x3.obj.A.n_cols ∧
      machineWide2x3.obj.raw = true ∧
      directPath machineWide2x3.obj.l machineWide2x3.obj.m machineWide2x3.obj.n = false ∧
      machineWide2x3.obj.m < machineWide2x3.obj.n ∧ 0 < 3) ∧
    RandPCA.Run sampleBackend 3 machineWide2x3 =
      (Outcome.fault Fault.logicError,
        { machineWide2x3 with draws := [(2, 2)], loopBodies := 1 }) :=
  ⟨⟨by decide, by decide, by decide, by decide, by decide, by decide, by decide, by decide⟩,
    raw_wide_product_mismatch sampleBackend sampleBackend_shape 3 machineWide2x3 (by decide)
      (by decide) (by decide) (by decide) (by decide) (by decide) (by decide) (by decide)⟩

/-- C17 (the code throws on a matrix that is not square): on an accepted matrix with
`m != n`, `raw = false` and `l` below the threshold of the direct path, the first centering
expression after the random draw throws. In the tall branch `arma::ones(m, m) * (c * R)`
multiplies an `m x m` by an `n x n` matrix; in the wide branch
`R * A - (R * arma::ones(m, m)) * c` subtracts an `m x m` from an `m x n` matrix. `Run` ends
with that exception; `U`, `V`, `S` and `algorithmDone` are as before the call. -/
theorem centered_nonsquare_mismatch (B : Backend) (hB : ShapeContract B) (fuel : Nat)
    (s : Machine) (hdone : s.obj.algorithmDone = false)
    (hA : sanityCheck_matrix s.obj.A = true)
    (hm : s.obj.m = s.obj.A.n_rows) (hn : s.obj.n = s.obj.A.n_cols)
    (hraw : s.obj.raw = false) (hdir : directPath s.obj.l s.obj.m s.obj.n = false)
    (hne : s.obj.m ≠ s.obj.n) :
    RandPCA.Run B fuel s =
      (Outcome.fault Fault.logicError,
        { s with draws := (min s.obj.m s.obj.n, min s.obj.m s.obj.n) :: s.draws }) := by
  refine Run_of_branch_fault B fuel s _ Fault.logicError hdone hA ?_
  rw [hraw]
  simp only [Bool.false_eq_true, if_false]
  exact centeredBranch_nonsquare B hB fuel s hm hn hdir hne

/-- Witness of C17: rank 1 on the 3 x 2 sample matrix with `raw = false` and `l = 1`. -/
theorem centered_nonsquare_mismatch_witness :
    (machineCentered3x2.obj.algorithmDone = false ∧
      sanityCheck_matrix machineCentered3x2.obj.A = true ∧
      machineCentered3x2.obj.m = machineCentered3x2.obj.A.n_rows ∧
      machineCentered3x2.obj.n = machineCentered3x2.obj.A.n_cols ∧
      machineCentered3x2.obj.raw = false ∧
      directPath machineCentered3x2.obj.l machineCentered3x2.obj.m
        machineCentered3x2.obj.n = false ∧
      machineCentered3x2.obj.m ≠ machineCentered3x2.obj.n) ∧
    RandPCA.Run sampleBackend 3 machineCentered3x2 =
      (Outcome.fault Fault.logicError, { machineCentered3x2 with draws := [(2, 2)] }) :=
  ⟨⟨by decide, by decide, by decide, by decide, by decide, by decide, by decide⟩,
    centered_nonsquare_mismatch sampleBackend sampleBackend_shape 3 machineCentered3x2
      (by decide) (by decide) (by decide) (by decide) (by decide) (by decide) (by decide)⟩

/-- C18 (the loop runs once more): on a valid raw input with `m >= n` and `l` below the
threshold of the direct path, the loop `for (size_t i = 0; i <= its; i++)` executes its
body `its + 1` times; with `its = 0` it executes the body once. -/
theorem loop_body_runs_its_plus_one (B : Backend) (hB : ShapeContract B) (fuel : Nat)
    (s : Machine) (hdone : s.obj.algorithmDone = false) (hWF : s.obj.A.WF)
    (hA : sanityCheck_matrix s.obj.A = true)
    (hm : s.obj.m = s.obj.A.n_rows) (hn : s.obj.n = s.obj.A.n_cols)
    (hraw : s.obj.raw = true) (hdir : directPath s.obj.l s.obj.m s.obj.n = false)
    (htall : s.obj.n ≤ s.obj.m) (hk1 : 1 ≤ s.obj.k) (hk2 : s.obj.k ≤ min s.obj.m s.obj.n)
    (hits : s.obj.its + 1 < WORD) (hfuel : s.obj.its < fuel) :
    (RandPCA.Run B fuel s).2.loopBodies = s.loopBodies + (s.obj.its + 1) :=
  (Run_raw_tall_trace B hB fuel s hdone hWF hA hm hn hraw hdir htall hk1 hk2 hits hfuel).2

/-- Witness of C18: `its = 0` on the 10 x 10 sample matrix; the body is executed once. -/
theorem loop_body_runs_its_plus_one_witness :
    (machineStored10its0.obj.algorithmDone = false ∧ machineStored10its0.obj.A.WF ∧
      sanityCheck_matrix machineStored10its0.obj.A = true ∧
      machineStored10its0.obj.m = machineStored10its0.obj.A.n_rows ∧
      machineStored10its0.obj.n = machineStored10its0.obj.A.n_cols ∧
      machineStored10its0.obj.raw = true ∧
      directPath machineStored10its0.obj.l machineStored10its0.obj.m
        machineStored10its0.obj.n = false ∧
      machineStored10its0.obj.n ≤ machineStored10its0.obj.m ∧
      1 ≤ machineStored10its0.obj.k ∧
      machineStored10its0.obj.k ≤ min machineStored10its0.obj.m machineStored10its0.obj.n ∧
      machineStored10its0.obj.its + 1 < WORD ∧ machineStored10its0.obj.its < 3) ∧
    machineStored10its0.obj.its = 0 ∧ machineStored10its0.loopBodies = 0 ∧
    (RandPCA.Run sampleBackend 3 machineStored10its0).2.loopBodies = 1 :=
  ⟨⟨by decide, by decide, by decide, by decide, by decide, by decide, by decide, by decide,
      by decide, by decide, by decide, by decide⟩,
    by decide, by decide,
    loop_body_runs_its_plus_one sampleBackend sampleBackend_shape 3 machineStored10its0
      (by decide) (by decide) (by decide) (by decide) (by decide) (by decide) (by decide)
      (by decide) (by decide) (by decide) (by decide) (by decide)⟩

/-- C19 (the block size does not reach the sketch): on a valid raw input with `m >= n` and
`l` below the threshold of the direct path, the random matrix drawn is `n x n`, whatever
`l` is: the same run with another block size `l2` below the threshold draws a matrix of the
same extents, and both block sizes are below the `n` columns drawn. -/
theorem sketch_width_ignores_l (B : Backend) (hB : ShapeContract B) (fuel : Nat) (s : Machine)
    (l2 : Nat) (hdone : s.obj.algorithmDone = false) (hWF : s.obj.A.WF)
    (hA : sanityCheck_matrix s.obj.A = true)
    (hm : s.obj.m = s.obj.A.n_rows) (hn : s.obj.n = s.obj.A.n_cols)
    (hraw : s.obj.raw = true) (hdir : directPath s.obj.l s.obj.m s.obj.n = false)
    (hdir2 : directPath l2 s.obj.m s.obj.n = false)
    (htall : s.obj.n ≤ s.obj.m) (hk1 : 1 ≤ s.obj.k) (hk2 : s.obj.k ≤ min s.obj.m s.obj.n)
    (hits : s.obj.its + 1 < WORD) (hfuel : s.obj.its < fuel) :
    (RandPCA.Run B fuel s).2.draws = (s.obj.n, s.obj.n) :: s.draws ∧
    (RandPCA.Run B fuel { s with obj := { s.obj with l := l2 } }).2.draws =
      (s.obj.n, s.obj.n) :: s.draws ∧
    s.obj.l < s.obj.n ∧ l2 < s.obj.n :=
  ⟨(Run_raw_tall_trace B hB fuel s hdone hWF hA hm hn hraw hdir htall hk1 hk2 hits hfuel).1,
    (Run_raw_tall_trace B hB fuel { s with obj := { s.obj with l := l2 } } hdone hWF hA hm hn
      hraw hdir2 htall hk1 hk2 hits hfuel).1,
    (directPath_false_lt _ _ _ hdir).2, (directPath_false_lt _ _ _ hdir2).2⟩

/-- Witness of C19: the 10 x 10 sample matrix with `l = 4` and with `l = 7`; both runs draw
a 10 x 10 matrix. -/
theorem sketch_width_ignores_l_witness :
    (machineStored10.obj.algorithmDone = false ∧ machineStored10.obj.A.WF ∧
      sanityCheck_matrix machineStored10.obj.A = true ∧
      machineStored10.obj.m = machineStored10.obj.A.n_rows ∧
      machineStored10.obj.n = machineStored10.obj.A.n_cols ∧
      machineStored10.obj.raw = true ∧
      directPath machineStored10.obj.l machineStored10.obj.m machineStored10.obj.n = false ∧
      directPath 7 machineStored10.obj.m machineStored10.obj.n = false ∧
      machineStored10.obj.n ≤ machineStored10.obj.m ∧
      1 ≤ machineStored10.obj.k ∧
      machineStored10.obj.k ≤ min machineStored10.obj.m machineStored10.obj.n ∧
      machineStored10.obj.its + 1 < WORD ∧ machineStored10.obj.its < 3) ∧
    machineStored10.obj.l = 4 ∧
    (RandPCA.Run sampleBackend 3 machineStored10).2.draws = [(10, 10)] ∧
    (RandPCA.Run sampleBackend 3
      { machineStored10 with obj := { machineStored10.obj with l := 7 } }).2.draws =
      [(10, 10)] :=
  ⟨⟨by decide, by decide, by decide, by decide, by decide, by decide, by decide, by decide,
      by decide, by decide, by decide, by decide, by decide⟩,
    by decide,
    (sketch_width_ignores_l sampleBackend sampleBackend_shape 3 machineStored10 7 (by decide)
      (by decide) (by decide) (by decide) (by decide) (by decide) (by decide) (by decide)
      (by decide) (by decide) (by decide) (by decide) (by decide)).1,
    (sketch_width_ignores_l sampleBackend sampleBackend_shape 3 machineStored10 7 (by decide)
      (by decide) (by decide) (by decide) (by decide) (by decide) (by decide) (by decide)
      (by decide) (by decide) (by decide) (by decide) (by decide)).2.1⟩

/-- C20 (the constructor does not set the flag): the default constructor has an empty
body, so `algorithmDone` holds whatever its storage holds. When that value is true, the
first `SetInputsAndRun` with an accepted matrix stores the inputs, `Run` returns at once
without drawing or iterating, `U`, `S` and `V` stay empty, and `GetOutputs` returns the
empty outputs. -/
theorem unset_flag_skips_run (B : Backend) (fuel : Nat) (input_A : Mat) (input_k : Nat)
    (input_raw : Bool) (input_its input_l : Nat) (isSparse : Bool)
    (k0 its0 l0 m0 n0 : Nat) (raw0 sparse0 : Bool) (draws0 : List (Nat × Nat)) (bodies0 : Nat)
    (hA : sanityCheck_matrix input_A = true) :
    RandPCA.SetInputsAndRun B fuel input_A input_k input_raw input_its input_l isSparse
        { obj := RandPCA.RandPCA k0 its0 l0 m0 n0 raw0 true, sparseMatEnabled := sparse0,
          draws := draws0, loopBodies := bodies0 } =
      (Outcome.done (),
        (storeInputs input_A input_k input_raw input_its input_l isSparse
          { obj := RandPCA.RandPCA k0 its0 l0 m0 n0 raw0 true, sparseMatEnabled := sparse0,
            draws := draws0, loopBodies := bodies0 }).2) ∧
    (storeInputs input_A input_k input_raw input_its input_l isSparse
        { obj := RandPCA.RandPCA k0 its0 l0 m0 n0 raw0 true, sparseMatEnabled := sparse0,
          draws := draws0, loopBodies := bodies0 }).2.obj.U = Mat.empty ∧
    (storeInputs input_A input_k input_raw input_its input_l isSparse
        { obj := RandPCA.RandPCA k0 its0 l0 m0 n0 raw0 true, sparseMatEnabled := sparse0,
          draws := draws0, loopBodies := bodies0 }).2.obj.S = [] ∧
    (storeInputs input_A input_k input_raw input_its input_l isSparse
        { obj := RandPCA.RandPCA k0 its0 l0 m0 n0 raw0 true, sparseMatEnabled := sparse0,
          draws := draws0, loopBodies := bodies0 }).2.obj.V = Mat.empty ∧
    (storeInputs input_A input_k input_raw input_its input_l isSparse
        { obj := RandPCA.RandPCA k0 its0 l0 m0 n0 raw0 true, sparseMatEnabled := sparse0,
          draws := draws0, loopBodies := bodies0 }).2.draws = draws0 ∧
    (storeInputs input_A input_k input_raw input_its input_l isSparse
        { obj := RandPCA.RandPCA k0 its0 l0 m0 n0 raw0 true, sparseMatEnabled := sparse0,
          draws := draws0, loopBodies := bodies0 }).2.loopBodies = bodies0 ∧
    RandPCA.GetOutputs B fuel
        (storeInputs input_A input_k input_raw input_its input_l isSparse
          { obj := RandPCA.RandPCA k0 its0 l0 m0 n0 raw0 true, sparseMatEnabled := sparse0,
            draws := draws0, loopBodies := bodies0 }).2 =
      (Outcome.done (Mat.empty, [], Mat.empty),
        (storeInputs input_A input_k input_raw input_its input_l isSparse
          { obj := RandPCA.RandPCA k0 its0 l0 m0 n0 raw0 true, sparseMatEnabled := sparse0,
            draws := draws0, loopBodies := bodies0 }).2) := by
  refine ⟨?_, rfl, rfl, rfl, rfl, rfl, ?_⟩
  · rw [SetInputsAndRun_accepted B fuel input_A input_k input_raw input_its input_l isSparse _
      hA]
    exact Run_when_done B fuel _ rfl
  · exact GetOutputs_when_done B fuel _ rfl

/-- Witness of C20: rank 1 on the 3 x 3 sample matrix offered to a default-constructed
object whose flag storage reads true. -/
theorem unset_flag_skips_run_witness :
    sanityCheck_matrix A3x3 = true ∧
    (RandPCA.SetInputsAndRun sampleBackend 3 A3x3 1 true 2 4 true machineFlagSet).1 =
      Outcome.done () ∧
    (RandPCA.SetInputsAndRun sampleBackend 3 A3x3 1 true 2 4 true machineFlagSet).2.obj.U =
      Mat.empty ∧
    (RandPCA.SetInputsAndRun sampleBackend 3 A3x3 1 true 2 4 true machineFlagSet).2.obj.S =
      [] :=
  ⟨by decide,
    congrArg Prod.fst (unset_flag_skips_run sampleBackend 3 A3x3 1 true 2 4 true 0 0 0 0 0
      false false [] 0 (by decide)).1,
    by decide, by decide⟩

/-- Claim C25, as the code has it: in the raw randomized branches (no direct path) the
sketch is computed and then dropped; the decomposition (QR when `its = 0`, LU otherwise) is
applied to `A`, and the basis that enters the power iterations is the first factor of `A`:
the branch is the loop and what follows it, entered with the factors of `A`, in the tall
case and in the wide case alike. -/
theorem initial_basis_is_factor_of_A (B : Backend) (hB : ShapeContract B) (fuel : Nat)
    (s : Machine) (hm : s.obj.m = s.obj.A.n_rows) (hn : s.obj.n = s.obj.A.n_cols)
    (hdir : directPath s.obj.l s.obj.m s.obj.n = false) :
    (s.obj.n ≤ s.obj.m →
      rawBranch B fuel s =
        rawTallFrom B fuel s.obj.A s.obj.its
          (if s.obj.its = 0 then B.qr_econ s.obj.A else B.lu s.obj.A).1
          (if s.obj.its = 0 then B.qr_econ s.obj.A else B.lu s.obj.A).2
          { s with draws := (s.obj.n, s.obj.n) :: s.draws }) ∧
    (s.obj.m < s.obj.n →
      rawBranch B fuel s =
        rawWideFrom B fuel s.obj.A s.obj.its
          (if s.obj.its = 0 then B.qr_econ s.obj.A else B.lu s.obj.A).1
          (if s.obj.its = 0 then B.qr_econ s.obj.A else B.lu s.obj.A).2
          { s with draws := (s.obj.m, s.obj.m) :: s.draws }) :=
  ⟨fun htall => rawBranch_tall_from B hB fuel s hn hdir htall,
    fun hwide => rawBranch_wide_from B hB fuel s hm hdir hwide⟩

/-- Witness of C25: the 2 x 2 sample matrix with `its = 2` and the backend whose
decompositions show their argument. The first factor of `A` differs from the first factor
of the sketch, and the loop is entered with the former. -/
theorem initial_basis_is_factor_of_A_witness :
    (machineStored2.obj.m = machineStored2.obj.A.n_rows ∧
      machineStored2.obj.n = machineStored2.obj.A.n_cols ∧
      directPath machineStored2.obj.l machineStored2.obj.m machineStored2.obj.n = false ∧
      machineStored2.obj.n ≤ machineStored2.obj.m ∧ machineStored2.obj.its = 2) ∧
    (echoBackend.lu machineStored2.obj.A).1 ≠
      (echoBackend.lu (sketchTall echoBackend machineStored2.obj.A 2 [])).1 ∧
    rawBranch echoBackend 3 machineStored2 =
      rawTallFrom echoBackend 3 A2x2 2 (echoBackend.lu A2x2).1 (echoBackend.lu A2x2).2
        { machineStored2 with draws := [(2, 2)] } :=
  ⟨⟨by decide, by decide, by decide, by decide, by decide⟩, by decide,
    (initial_basis_is_factor_of_A echoBackend echoBackend_shape 3 machineStored2
      (by decide) (by decide) (by decide)).1 (by decide)⟩

/-- Claim C26, as the code has it: with the largest iteration count `2^64 - 1` (what a
caller's `-1` becomes) the loop test `i <= its` holds for every value of the counter, so
the loop of the raw tall branch never exits: whatever the budget of steps, `Run` uses it
up inside the loop, having executed the loop body as many times as the budget allows. -/
theorem max_its_loop_never_exits (B : Backend) (hB : ShapeContract B) (fuel : Nat)
    (s : Machine) (hdone : s.obj.algorithmDone = false)
    (hA : sanityCheck_matrix s.obj.A = true)
    (hm : s.obj.m = s.obj.A.n_rows) (hn : s.obj.n = s.obj.A.n_cols)
    (hraw : s.obj.raw = true) (hdir : directPath s.obj.l s.obj.m s.obj.n = false)
    (htall : s.obj.n ≤ s.obj.m) (hits : s.obj.its = WORD - 1) :
    RandPCA.Run B fuel s =
      (Outcome.fault Fault.outOfFuel,
        { s with draws := (s.obj.n, s.obj.n) :: s.draws
                 loopBodies := s.loopBodies + fuel }) := by
  have htall2 : s.obj.A.n_cols ≤ s.obj.A.n_rows := by rw [← hm, ← hn]; exact htall
  have hF1 : (if s.obj.its = 0 then B.qr_econ s.obj.A else B.lu s.obj.A).1.n_rows =
      s.obj.A.n_rows := by
    split
    · exact hB.qr_Q_rows _
    · exact hB.lu_L_rows _
  have hF2 : (if s.obj.its = 0 then B.qr_econ s.obj.A else B.lu s.obj.A).1.n_cols =
      s.obj.A.n_cols := by
    split
    · rw [hB.qr_Q_cols, min_eq_right htall2]
    · rw [hB.lu_L_cols, min_eq_right htall2]
  apply Run_of_branch_fault B fuel s _ _ hdone hA
  rw [if_pos hraw, rawBranch_tall_from B hB fuel s hn hdir htall]
  unfold rawTallFrom
  rw [hits] at hF1 hF2 ⊢
  rw [Exec.bind_fault (rawTallLoop_never_exits B hB s.obj.A htall2 fuel 0 _ _ _
    (by unfold WORD; decide) hF1 hF2)]

/-- Witness of C26: the 10 x 10 sample matrix stored with the iteration count that `-1`
becomes and a budget of 5 steps: the budget is used up after 5 loop bodies. -/
theorem max_its_loop_never_exits_witness :
    (machineStored10itsMax.obj.algorithmDone = false ∧
      sanityCheck_matrix machineStored10itsMax.obj.A = true ∧
      machineStored10itsMax.obj.m = machineStored10itsMax.obj.A.n_rows ∧
      machineStored10itsMax.obj.n = machineStored10itsMax.obj.A.n_cols ∧
      machineStored10itsMax.obj.raw = true ∧
      directPath machineStored10itsMax.obj.l machineStored10itsMax.obj.m
        machineStored10itsMax.obj.n = false ∧
      machineStored10itsMax.obj.n ≤ machineStored10itsMax.obj.m ∧
      machineStored10itsMax.obj.its = WORD - 1) ∧
    to_size_t (-1) = WORD - 1 ∧
    RandPCA.Run sampleBackend 5 machineStored10itsMax =
      (Outcome.fault Fault.outOfFuel,
        { machineStored10itsMax with
          draws := (machineStored10itsMax.obj.n, machineStored10itsMax.obj.n) ::
            machineStored10itsMax.draws
          loopBodies := machineStored10itsMax.loopBodies + 5 }) :=
  ⟨⟨by decide, by decide, by decide, by decide, by decide, by decide, by decide, by decide⟩,
    by decide,
    max_its_loop_never_exits sampleBackend sampleBackend_shape 5 machineStored10itsMax
      (by decide) (by decide) (by decide) (by decide) (by decide) (by decide) (by decide)
      (by decide)⟩

/-- Claim C27: in the raw tall branch (`raw = true`, `m >= n`, `l` below the threshold of
the direct path) the result does not depend on the random matrix drawn: with any other
source `r2` of random matrices of the requested extents, `Run` ends the same way in the
same state (the same `U`, `S`, `V`), and `GetOutputs` returns the same triple. -/
theorem raw_tall_outputs_ignore_random_matrix (B : Backend) (hB : ShapeContract B)
    (r2 : Nat → Nat → List (Nat × Nat) → Mat)
    (hr2 : ∀ r c h, (r2 r c h).n_rows = r ∧ (r2 r c h).n_cols = c)
    (fuel : Nat) (s : Machine) (hn : s.obj.n = s.obj.A.n_cols) (hraw : s.obj.raw = true)
    (hdir : directPath s.obj.l s.obj.m s.obj.n = false) (htall : s.obj.n ≤ s.obj.m) :
    RandPCA.Run { B with randn := r2 } fuel s = RandPCA.Run B fuel s ∧
    RandPCA.GetOutputs { B with randn := r2 } fuel s = RandPCA.GetOutputs B fuel s := by
  have hB2 : ShapeContract { B with randn := r2 } :=
    { hB with
      randn_rows := fun r c h => (hr2 r c h).1
      randn_cols := fun r c h => (hr2 r c h).2 }
  have hbranch : rawBranch { B with randn := r2 } fuel s = rawBranch B fuel s := by
    rw [rawBranch_tall_from B hB fuel s hn hdir htall,
      rawBranch_tall_from { B with randn := r2 } hB2 fuel s hn hdir htall]
    unfold rawTallFrom
    rw [rawTallLoop_randn]
    rfl
  have hrun : RandPCA.Run { B with randn := r2 } fuel s = RandPCA.Run B fuel s := by
    apply Run_congr_branch
    rw [if_pos hraw, if_pos hraw, hbranch]
  exact ⟨hrun, GetOutputs_congr_Run B _ fuel s hrun⟩

/-- Witness of C27: the 10 x 10 sample matrix with `k = 2`, `its = 2`, `l = 4`, once with
draws whose entries are 0 and once with draws whose entries are 1. -/
theorem raw_tall_outputs_ignore_random_matrix_witness :
    (machineStored10.obj.n = machineStored10.obj.A.n_cols ∧
      machineStored10.obj.raw = true ∧
      directPath machineStored10.obj.l machineStored10.obj.m machineStored10.obj.n = false ∧
      machineStored10.obj.n ≤ machineStored10.obj.m) ∧
    drawOnes 10 10 [] ≠ sampleBackend.randn 10 10 [] ∧
    (RandPCA.Run { sampleBackend with randn := drawOnes } 3 machineStored10 =
        RandPCA.Run sampleBackend 3 machineStored10 ∧
      RandPCA.GetOutputs { sampleBackend with randn := drawOnes } 3 machineStored10 =
        RandPCA.GetOutputs sampleBackend 3 machineStored10) :=
  ⟨⟨by decide, by decide, by decide, by decide⟩, by decide,
    raw_tall_outputs_ignore_random_matrix sampleBackend sampleBackend_shape drawOnes
      (fun _ _ _ => ⟨rfl, rfl⟩) 3 machineStored10 (by decide) (by decide) (by decide)
      (by decide)⟩

end MatlabToArma

/-! ## Claims about the utilities -/

namespace Cbica

theorem findIdx_first {α : Type} (p : α → Bool) :
    ∀ (l : List α), l.findIdx p ≠ l.length →
      (∃ x, l.get? (l.findIdx p) = some x ∧ p x = true) ∧
      ∀ j, j < l.findIdx p → ∀ y, l.get? j = some y → p y = false := by
  intro l
  induction l with
  | nil => intro h; simp at h
  | cons a t ih =>
    intro h
    by_cases ha : p a = true
    · rw [List.findIdx_cons, ha]
      simp only [cond_true]
      exact ⟨⟨a, rfl, ha⟩, fun j hj => absurd hj (Nat.not_lt_zero j)⟩
    · have ha2 : p a = false := by simpa using ha
      rw [List.findIdx_cons, ha2] at h ⊢
      simp only [cond_false] at h ⊢
      have ht : t.findIdx p ≠ t.length := by
        intro hc
        apply h
        rw [hc, List.length_cons]
      obtain ⟨⟨x, hx, hpx⟩, hfirst⟩ := ih ht
      refine ⟨⟨x, ?_, hpx⟩, ?_⟩
      · rw [List.get?_cons_succ]
        exact hx
      · intro j hj y hy
        cases j with
        | zero =>
          simp only [List.get?_cons_zero, Option.some.injEq] at hy
          rw [← hy]
          exact ha2
        | succ j =>
          rw [List.get?_cons_succ] at hy
          exact hfirst j (by omega) y hy

theorem findIdx_absent {α : Type} (p : α → Bool) (l : List α)
    (h : ∀ x, x ∈ l → p x = false) : l.findIdx p = l.length := by
  induction l with
  | nil => rfl
  | cons a t ih =>
    rw [List.findIdx_cons, h a (List.mem_cons_self a t)]
    simp only [cond_false, List.length_cons]
    rw [ih (fun x hx => h x (List.mem_cons_of_mem a hx))]

theorem findIdx_present {α : Type} (p : α → Bool) (l : List α) (x : α)
    (hx : x ∈ l) (hp : p x = true) : l.findIdx p ≠ l.length := by
  have hlt : l.findIdx p < l.length := List.findIdx_lt_length_of_exists ⟨x, hx, hp⟩
  omega

theorem to_int_small (p : Nat) (h : p < 2 ^ 31) : to_int (p : Int) = (p : Int) := by
  unfold to_int
  have h2 : ((p : Int)) < 2 ^ 31 := by exact_mod_cast h
  have h3 : (0 : Int) ≤ (p : Int) := Int.ofNat_nonneg p
  rw [Int.emod_eq_of_lt (by omega) (by omega)]
  omega

/-- Claim C23, as the code has it: for a vector of fewer than 2^31 elements,
`findInVector` returns `(true, p)` with `p` the FIRST position that holds the element (the
element is at `p` and at no position before `p`) when the element occurs, and
`(false, -1)` when it does not occur. The documented "last position" is returned only
when the element occurs once. -/
theorem findInVector_returns_first_position {α : Type} [DecidableEq α]
    (vector_to_search_in : List α) (element_to_search_for : α)
    (hlen : vector_to_search_in.length < 2 ^ 31) :
    (element_to_search_for ∈ vector_to_search_in →
      ∃ p : Nat, findInVector vector_to_search_in element_to_search_for = (true, (p : Int)) ∧
        vector_to_search_in.get? p = some element_to_search_for ∧
        ∀ j, j < p → vector_to_search_in.get? j ≠ some element_to_search_for) ∧
    (element_to_search_for ∉ vector_to_search_in →
      findInVector vector_to_search_in element_to_search_for = (false, -1)) := by
  constructor
  · intro hmem
    have hne := findIdx_present (fun x => decide (x = element_to_search_for))
      vector_to_search_in element_to_search_for hmem (by simp)
    obtain ⟨⟨x, hx, hpx⟩, hfirst⟩ := findIdx_first _ vector_to_search_in hne
    have hxe : x = element_to_search_for := by simpa using hpx
    have hlt : vector_to_search_in.findIdx (fun x => decide (x = element_to_search_for))
        < vector_to_search_in.length :=
      List.findIdx_lt_length_of_exists ⟨element_to_search_for, hmem, by simp⟩
    refine ⟨vector_to_search_in.findIdx (fun x => decide (x = element_to_search_for)),
      ?_, ?_, ?_⟩
    · unfold findInVector
      simp only []
      rw [if_pos hne, to_int_small _ (by omega)]
    · rw [hx, hxe]
    · intro j hj hc
      have := hfirst j hj element_to_search_for hc
      simp at this
  · intro hnot
    have he := findIdx_absent (fun x => decide (x = element_to_search_for))
      vector_to_search_in (by
        intro x hx
        have : x ≠ element_to_search_for := fun hc => hnot (hc ▸ hx)
        simpa using this)
    unfold findInVector
    simp only []
    rw [if_neg (fun hc => hc he)]

/-- On the vector `a, b, a` the element `a` is reported at position 0, although it also
stands at position 2, which is its last position. -/
theorem findInVector_returns_first_position_witness :
    ["a", "b", "a"].length < 2 ^ 31 ∧
    findInVector ["a", "b", "a"] "a" = (true, 0) ∧
    ["a", "b", "a"].get? 2 = some "a" ∧
    findInVector ["a", "b", "a"] "c" = (false, -1) ∧
    (("a" ∈ ["a", "b", "a"] →
      ∃ p : Nat, findInVector ["a", "b", "a"] "a" = (true, (p : Int)) ∧
        ["a", "b", "a"].get? p = some "a" ∧
        ∀ j, j < p → ["a", "b", "a"].get? j ≠ some "a") ∧
    ("a" ∉ ["a", "b", "a"] → findInVector ["a", "b", "a"] "a" = (false, -1))) :=
  ⟨by decide, by decide, by decide, by decide,
    findInVector_returns_first_position ["a", "b", "a"] "a" (by decide)⟩

end Cbica

/-! ## Claims about the DICOM conversion programs -/

namespace DicomHandling

/-- Claim C29, as the code has it: whatever the modality tag holds, both conversion
programs take the branch that prints that only MRI data is supported and exits with
failure; in particular a series tagged `MR` or `MRI` is rejected as well, because a string
cannot be equal to both. -/
theorem modality_check_rejects_every_series (modality : String) :
    dwiConversion_rejects modality = true ∧ simpleConversion_rejects modality = true ∧
    dwiConversion_rejects "MR" = true ∧ dwiConversion_rejects "MRI" = true ∧
    simpleConversion_rejects "MR" = true ∧ simpleConversion_rejects "MRI" = true := by
  have key : ((modality != "MR") || (modality != "MRI")) = true := by
    by_cases h : modality = "MR"
    · subst h
      decide
    · simp [h]
  exact ⟨key, key, by decide, by decide, by decide, by decide⟩

end DicomHandling

/-! ## Claims about the Fibonacci functions -/

namespace Cpp11

theorem lfib_eq_fib_recursive :
    ∀ (k : Nat) (n : Int), n.toNat ≤ k → lfib n = fib_recursive n := by
  intro k
  induction k with
  | zero =>
    intro n h
    have h2 : n < 2 := by omega
    rw [lfib, fib_recursive, if_pos h2, if_pos h2]
  | succ k ih =>
    intro n h
    rw [lfib, fib_recursive]
    by_cases h2 : n < 2
    · rw [if_pos h2, if_pos h2]
    · rw [if_neg h2, if_neg h2, ih (n - 1) (by omega), ih (n - 2) (by omega)]

theorem to_int_of_range (z : Int) (h1 : -(2 ^ 31) ≤ z) (h2 : z < 2 ^ 31) :
    Cbica.to_int z = z := by
  unfold Cbica.to_int
  rw [Int.emod_eq_of_lt (by omega) (by omega)]
  omega

theorem fib_46 : Nat.fib 46 = 1836311903 := by norm_num [Nat.fib]
theorem fib_47 : Nat.fib 47 = 2971215073 := by norm_num [Nat.fib]

/-- Up to the 46th the Fibonacci numbers fit the 32-bit `int`. -/
theorem fib_fits (k : Nat) (h : k ≤ 46) : (Nat.fib k : Int) < 2 ^ 31 := by
  have h1 : Nat.fib k ≤ Nat.fib 46 := Nat.fib_mono h
  rw [fib_46] at h1
  have : (Nat.fib k : Int) ≤ 1836311903 := by exact_mod_cast h1
  omega

/-- From the 47th on they do not. -/
theorem le_46_of_fib_fits (k : Nat) (h : (Nat.fib k : Int) < 2 ^ 31) : k ≤ 46 := by
  by_contra hc
  have h1 : Nat.fib 47 ≤ Nat.fib k := Nat.fib_mono (by omega)
  rw [fib_47] at h1
  have : (2971215073 : Int) ≤ (Nat.fib k : Int) := by exact_mod_cast h1
  omega

/-- Without overflow `fib_recursive` gives the Fibonacci numbers, shifted by one. -/
theorem fib_recursive_exact :
    ∀ k : Nat, (k ≤ 45 → fib_recursive (k : Int) = (Nat.fib (k + 1) : Int)) ∧
      (k + 1 ≤ 45 → fib_recursive ((k : Int) + 1) = (Nat.fib (k + 2) : Int)) := by
  intro k
  induction k with
  | zero =>
    constructor
    · intro _
      rw [fib_recursive, if_pos (by decide)]
      rfl
    · intro _
      rw [fib_recursive, if_pos (by decide)]
      rfl
  | succ k ih =>
    constructor
    · intro h
      have := ih.2 (by omega)
      rw [Nat.cast_succ]
      exact this
    · intro h
      have e1 := ih.1 (by omega)
      have e2 := ih.2 (by omega)
      rw [fib_recursive, if_neg (by omega)]
      have a1 : ((k + 1 : Nat) : Int) + 1 - 1 = (k : Int) + 1 := by push_cast; omega
      have a2 : ((k + 1 : Nat) : Int) + 1 - 2 = (k : Int) := by push_cast; omega
      rw [a1, a2, e1, e2]
      have hsum : (Nat.fib (k + 2) : Int) + (Nat.fib (k + 1) : Int) =
          (Nat.fib (k + 1 + 2) : Int) := by
        rw [Nat.fib_add_two (n := k + 1)]
        push_cast
        ring
      rw [hsum]
      apply to_int_of_range
      · have : (0 : Int) ≤ (Nat.fib (k + 1 + 2) : Int) := Int.ofNat_nonneg _
        omega
      · exact fib_fits _ (by omega)

/-- The loop of `fib`, entered with the counter at `i`, `first` and `second` holding two
consecutive values of `fib_recursive`, returns `fib_recursive (n - 1)`. -/
theorem fibLoop_eq (n : Int) (hn : n < 2 ^ 31 - 1) :
    ∀ (fuel : Nat) (i first second return_val : Int),
    n + 1 - i ≤ fuel → 3 ≤ i → i ≤ n + 1 →
    first = fib_recursive (i - 3) → second = fib_recursive (i - 2) →
    (i ≤ n ∨ return_val = second) →
    fibLoop n fuel i first second return_val = some (fib_recursive (n - 1)) := by
  intro fuel
  induction fuel with
  | zero =>
    intro i f s r hk h3 hle hf hs hr
    have hi : i = n + 1 := by omega
    have hn2 : ¬ i ≤ n := by omega
    unfold fibLoop
    rw [if_neg hn2]
    rcases hr with hr | hr
    · exact absurd hr hn2
    · rw [hr, hs, hi]
      congr 2
      omega
  | succ k ih =>
    intro i f s r hk h3 hle hf hs hr
    unfold fibLoop
    by_cases hi : i ≤ n
    · rw [if_pos hi]
      have hwrap : Cbica.to_int (i + 1) = i + 1 := to_int_of_range _ (by omega) (by omega)
      rw [hwrap]
      have e : fib_recursive (i + 1 - 2) =
          Cbica.to_int (fib_recursive (i + 1 - 2 - 1) + fib_recursive (i + 1 - 2 - 2)) := by
        rw [fib_recursive, if_neg (by omega)]
      have e1 : i + 1 - 2 - 1 = i - 2 := by omega
      have e2 : i + 1 - 2 - 2 = i - 3 := by omega
      rw [e1, e2, ← hs, ← hf] at e
      apply ih
      · omega
      · omega
      · omega
      · rw [hs]
        congr 1
        omega
      · rw [add_comm f s]
        exact e.symm
      · right
        rfl
    · rw [if_neg hi]
      have hi2 : i = n + 1 := by omega
      rcases hr with hr | hr
      · exact absurd hr hi
      · rw [hr, hs, hi2]
        congr 2
        omega

/-- Claim C30: for every `n ≥ 1` whose Fibonacci number fits the 32-bit `int` (so that no
sum overflows: the arithmetic is exact), whatever the uninitialised local `return_val`
holds and for every step budget of at least `n`, the iterative `fib n` returns
`fib_recursive (n - 1)`; `lfib (n - 1)` is the same number, and it is the `n`-th Fibonacci
number. -/
theorem fib_eq_fib_recursive_pred (fuel : Nat) (garbage n : Int) (h : 1 ≤ n)
    (hexact : (Nat.fib n.toNat : Int) < 2 ^ 31) (hfuel : n ≤ fuel) :
    fib fuel garbage n = some (fib_recursive (n - 1)) ∧
    lfib (n - 1) = fib_recursive (n - 1) ∧
    fib_recursive (n - 1) = (Nat.fib n.toNat : Int) := by
  have h46 : n.toNat ≤ 46 := le_46_of_fib_fits _ hexact
  have hn : n ≤ 46 := by omega
  refine ⟨?_, lfib_eq_fib_recursive _ _ (le_refl _), ?_⟩
  · unfold fib
    by_cases h1 : n = 1
    · rw [if_pos h1, h1, fib_recursive, if_pos (by decide)]
    · rw [if_neg h1]
      by_cases h2 : n = 2
      · rw [if_pos h2, h2, fib_recursive, if_pos (by decide)]
      · rw [if_neg h2]
        apply fibLoop_eq n (by omega) fuel 3 1 1 garbage (by omega) (le_refl 3) (by omega)
        · rw [fib_recursive, if_pos (by decide)]
        · rw [fib_recursive, if_pos (by decide)]
        · left
          omega
  · obtain ⟨k, hk⟩ : ∃ k : Nat, n = (k : Int) + 1 := ⟨(n - 1).toNat, by omega⟩
    have hk45 : k ≤ 45 := by omega
    have := (fib_recursive_exact k).1 hk45
    rw [hk]
    have e1 : (k : Int) + 1 - 1 = (k : Int) := by omega
    have e2 : ((k : Int) + 1).toNat = k + 1 := by omega
    rw [e1, e2]
    exact this

/-- The three calls of `main`: `fib(10)`, `lfib(9)` and `fib_recursive(9)` all give 55.
At `n = 47` the Fibonacci number 2971215073 no longer fits and `fib` gives the wrapped
-1323752223. -/
theorem fib_eq_fib_recursive_pred_witness :
    ((1 : Int) ≤ 10 ∧ (Nat.fib (10 : Int).toNat : Int) < 2 ^ 31 ∧ (10 : Int) ≤ (10 : Nat)) ∧
    fib 10 0 10 = some 55 ∧ fib_recursive 9 = 55 ∧ lfib 9 = 55 ∧
    fib 47 0 47 = some (-1323752223) ∧ Nat.fib 47 = 2971215073 ∧
    (fib 10 0 10 = some (fib_recursive (10 - 1)) ∧
      lfib (10 - 1) = fib_recursive (10 - 1) ∧
      fib_recursive (10 - 1) = (Nat.fib (10 : Int).toNat : Int)) :=
  ⟨⟨by decide, by decide, by decide⟩, by decide, by simp [fib_recursive, Cbica.to_int],
    by simp [lfib, Cbica.to_int], by decide, fib_47,
    fib_eq_fib_recursive_pred 10 0 10 (by decide) (by decide) (by decide)⟩

end Cpp11

/-! ## Claims about the image scaling class -/

namespace UnitTesting

open MatlabToArma (Dbl)

/-- A loop of pixel writes leaves the geometry of the image as it is. -/
theorem foldl_SetPixel_geometry {P : Type} (f : List Int → P) :
    ∀ (l : List (List Int)) (o : Image P),
      (l.foldl (fun o idx => o.SetPixel idx (f idx)) o).spacing = o.spacing ∧
      (l.foldl (fun o idx => o.SetPixel idx (f idx)) o).origin = o.origin ∧
      (l.foldl (fun o idx => o.SetPixel idx (f idx)) o).largestPossibleRegion =
        o.largestPossibleRegion ∧
      (l.foldl (fun o idx => o.SetPixel idx (f idx)) o).requestedRegion = o.requestedRegion ∧
      (l.foldl (fun o idx => o.SetPixel idx (f idx)) o).bufferedRegion = o.bufferedRegion := by
  intro l
  induction l with
  | nil =>
    intro o
    exact ⟨rfl, rfl, rfl, rfl, rfl⟩
  | cons a l ih =>
    intro o
    rw [List.foldl_cons]
    exact ih (o.SetPixel a (f a))

theorem lastPlace_eq (a : ℚ) :
    ∀ (fuel : Nat) (e0 e : Int), e0 ≤ e → e < e0 + fuel →
      (e0 < e → (2 : ℚ) ^ (e + 23) ≤ a) → a < (2 : ℚ) ^ (e + 24) →
      lastPlace a fuel e0 = some e := by
  intro fuel
  induction fuel with
  | zero =>
    intro e0 e h1 h2 _ _
    simp at h2
    omega
  | succ n ih =>
    intro e0 e h1 h2 hlow hup
    unfold lastPlace
    by_cases hc : a < (2 : ℚ) ^ (e0 + 24)
    · rw [if_pos hc]
      by_cases he : e0 = e
      · rw [he]
      · exfalso
        have hlt : e0 < e := by omega
        have h3 := hlow hlt
        have h4 : (2 : ℚ) ^ (e0 + 24) ≤ (2 : ℚ) ^ (e + 23) :=
          zpow_le_zpow_right₀ (by norm_num) (by omega)
        exact absurd (lt_of_lt_of_le hc (le_trans h4 h3)) (lt_irrefl _)
    · rw [if_neg hc]
      have he : e0 ≠ e := by
        intro he
        rw [he] at hc
        exact hc hup
      apply ih (e0 + 1) e (by omega) (by push_cast at h2 ⊢; omega) _ hup
      intro _
      exact hlow (by omega)

/-- The rounding is the one of `float`: one tenth becomes 13421773 / 2^27. -/
theorem roundFloat32_tenth :
    roundFloat32 (1 / 10) = Dbl.fin (13421773 / 134217728) := by
  have hl : lastPlace |(1 / 10 : ℚ)| 254 (-149) = some (-27) := by
    apply lastPlace_eq _ 254 (-149) (-27) (by norm_num) (by norm_num)
    · intro _
      rw [abs_of_nonneg (by norm_num)]
      norm_num
    · rw [abs_of_nonneg (by norm_num)]
      norm_num
  unfold roundFloat32
  rw [hl]
  have hfl : ⌊|(1 / 10 : ℚ)| / (2 : ℚ) ^ (-27 : Int)⌋ = 13421772 := by
    rw [Int.floor_eq_iff, abs_of_nonneg (by norm_num)]
    norm_num
  have hne : nearestEven (|(1 / 10 : ℚ)| / (2 : ℚ) ^ (-27 : Int)) = 13421773 := by
    unfold nearestEven
    rw [hfl, abs_of_nonneg (by norm_num)]
    norm_num
  simp only [hne]
  norm_num

/-- Claim C22: after `Run`, whatever the scale factor, the output image has the buffered
region of the input image (the same size along every dimension, and the same start), the
same spacing and the same origin, entry by entry. -/
theorem run_copies_geometry {P : Type} (scaled : P → Dbl → P) (fresh : List Int → P)
    (app : BasicApp P) :
    (BasicApp.Run scaled fresh app).GetOutput.bufferedRegion.size =
      app.m_inputImage.bufferedRegion.size ∧
    (BasicApp.Run scaled fresh app).GetOutput.bufferedRegion.index =
      app.m_inputImage.bufferedRegion.index ∧
    (BasicApp.Run scaled fresh app).GetOutput.spacing = app.m_inputImage.spacing ∧
    (BasicApp.Run scaled fresh app).GetOutput.origin = app.m_inputImage.origin ∧
    ∀ i : Nat,
      (BasicApp.Run scaled fresh app).GetOutput.bufferedRegion.size.get? i =
        app.m_inputImage.bufferedRegion.size.get? i ∧
      (BasicApp.Run scaled fresh app).GetOutput.spacing.get? i =
        app.m_inputImage.spacing.get? i ∧
      (BasicApp.Run scaled fresh app).GetOutput.origin.get? i =
        app.m_inputImage.origin.get? i := by
  obtain ⟨h1, h2, _, _, h5⟩ := foldl_SetPixel_geometry
    (fun i => scaled (app.m_inputImage.GetPixel i) app.m_scaleFactor)
    app.m_inputImage.bufferedRegion.indices
    ((((((app.m_outputImage.SetSpacing app.m_inputImage.spacing).SetOrigin
      app.m_inputImage.origin).SetLargestPossibleRegion
      app.m_inputImage.largestPossibleRegion).SetBufferedRegion
      app.m_inputImage.bufferedRegion).SetRequestedRegionToLargestPossibleRegion).Allocate
      fresh)
  have hs : (BasicApp.Run scaled fresh app).GetOutput.spacing = app.m_inputImage.spacing := h1
  have ho : (BasicApp.Run scaled fresh app).GetOutput.origin = app.m_inputImage.origin := h2
  have hb : (BasicApp.Run scaled fresh app).GetOutput.bufferedRegion =
      app.m_inputImage.bufferedRegion := h5
  refine ⟨by rw [hb], by rw [hb], hs, ho, fun i => ?_⟩
  rw [hb, hs, ho]
  exact ⟨rfl, rfl, rfl⟩

end UnitTesting

/-! ## Claims about the command line parser -/

namespace Cbica

open MatlabToArma (Dbl)

/-- Claim C24, as the code has it: when the parameter has the type asked for and is not
found on the command line (`compareParameter` returns false), the `int` overload of
`getParameterValue` assigns -1 to the caller's variable and the `float` overload assigns
-1 as well, whatever the variable held before the call, so a default set by the caller is
lost; the `bool` overload, in the same situation, leaves the variable as it was. -/
theorem absent_numeric_parameter_becomes_minus_one (E : Library) (fuel : Nat)
    (execParamToCheck : String) (p p1 p2 : CmdParser) (code : Int) (position : Option Int)
    (intValue : Int) (floatValue : Dbl) (boolValue : Bool)
    (htype : getDataTypeAsEnumCode E fuel execParamToCheck p = Result.done (code, p1))
    (habsent : compareParameter E fuel execParamToCheck none p1 =
      Result.done ((false, position), p2)) :
    (code = Parameter.INTEGER →
      getParameterValue_int E fuel execParamToCheck intValue p = Result.done (-1, p2)) ∧
    (code = Parameter.FLOAT →
      getParameterValue_float E fuel execParamToCheck floatValue p =
        Result.done (Dbl.fin (-1), p2)) ∧
    (code = Parameter.BOOLEAN →
      getParameterValue_bool E fuel execParamToCheck boolValue p =
        Result.done (boolValue, p2)) := by
  refine ⟨?_, ?_, ?_⟩
  · intro hc
    unfold getParameterValue_int
    rw [htype]
    simp only [hc, ne_eq, not_true_eq_false, if_false]
    rw [habsent]
  · intro hc
    unfold getParameterValue_float
    rw [htype]
    simp only [hc, ne_eq, not_true_eq_false, if_false]
    rw [habsent]
  · intro hc
    unfold getParameterValue_bool
    rw [htype]
    simp only [hc, ne_eq, not_true_eq_false, if_false]
    rw [habsent]

/-- Witness of C24: the parser of the documented usage on the command line `exe -p Bob`.
The parameters `m` and `d` are absent; the variable set to 5 before the call holds -1
after it, and so does the variable set to 5.15. -/
theorem absent_numeric_parameter_becomes_minus_one_witness :
    (getDataTypeAsEnumCode sampleLibrary 1 "m" usageState =
        Result.done (Parameter.INTEGER, usageStateChecked) ∧
      compareParameter sampleLibrary 1 "m" none usageStateChecked =
        Result.done ((false, none), usageStateChecked)) ∧
    getParameterValue_int sampleLibrary 1 "m" 5 usageState =
      Result.done (-1, usageStateChecked) ∧
    getParameterValue_float sampleLibrary 1 "d" (Dbl.fin (103 / 20)) usageState =
      Result.done (Dbl.fin (-1), usageStateChecked) :=
  ⟨⟨by decide, by decide⟩,
    (absent_numeric_parameter_becomes_minus_one sampleLibrary 1 "m" usageState
      usageStateChecked usageStateChecked Parameter.INTEGER none 5 Dbl.nan false
      (by decide) (by decide)).1 rfl,
    by decide⟩
end Cbica
